import Mathlib

/-!
# StateOS event queue (`oseventqueue.c`): shallow embedding and verification

The C functions of `StateOS/kernel/src/oseventqueue.c` are embedded as pure
functions on an explicit system state.  `unsigned` is a 32-bit machine word:
counters and indices are natural numbers reduced modulo `2^32` wherever the C
code increments or decrements them.
-/

namespace StateOS

/-! ## Data model -/

/-- Number of values of the C type `unsigned` (32-bit target). -/
def UINT_RANGE : Nat := 4294967296

/-- Largest value of the C type `unsigned`, `2^32 - 1`; adding it modulo `2^32`
is the decrement of an `unsigned`. -/
def UINT_MAX : Nat := 4294967295

/-- Value of `sizeof(unsigned)` on the 32-bit target. -/
def SIZEOF_UNSIGNED : Nat := 4

/-- Modelled from the spec: the event codes `SUCCESS, STOPPED, DELETED, TIMEOUT`
(their numeric values live in `oskernel.h`, which is not part of the sources). -/
inductive event_t where
  | E_SUCCESS
  | E_STOPPED
  | E_DELETED
  | E_TIMEOUT
  deriving DecidableEq, Repr

open event_t

/-- Modelled from the spec: the value `IMMEDIATE = 0` of a delay. -/
def IMMEDIATE : Nat := 0

/-- Modelled from the spec: the task descriptor (declared in `ostask.h`, which is
not part of the sources) with its staging area `tmp`: `tmp_in` is
`tmp.evq.data.in`, the address where a pending consumer expects its word, and
`tmp_out` is `tmp.evq.data.out`, the word a pending producer wants to deliver.
`id` identifies the task. -/
structure tsk_t where
  id : Nat
  tmp_in : Nat
  tmp_out : Nat
  deriving DecidableEq, Repr

/-- The event queue object `evq_t`: `queue` and `res` are the fields of the
object header `obj` (waiter queue, head first, and resource handle, `0` being
the null pointer); `data` is the buffer behind the `data` pointer, as a map from
word index to word. -/
structure evq_t where
  queue : List tsk_t
  res : Nat
  count : Nat
  limit : Nat
  head : Nat
  tail : Nat
  data : Nat → Nat

/-- The state a kernel call acts on: the event queue object, the current task
`System.cur`, and the user memory `mem` that destination pointers point into.
The remaining fields are histories kept for the statements: `woken` lists the
tasks made ready by the scheduler with the event each one resumes with, `writes`
lists the stores made through destination pointers (address, word), `freed`
lists the handles passed to `sys_free`, all oldest first, and `fault` records
whether `count` has been decremented at `0` or incremented at or beyond `limit`,
or the buffer has been indexed at or beyond `limit`. -/
structure sys_t where
  evq : evq_t
  cur : tsk_t
  mem : Nat → Nat
  woken : List (tsk_t × event_t)
  writes : List (Nat × Nat)
  freed : List Nat
  fault : Bool

/-! ## Scheduler hooks and allocator (external collaborators) -/

/-- Modelled from the spec: `wake_one(q, event)` removes the head task of the
waiter queue, schedules it with `event` and returns it; on an empty waiter queue
it returns null (`core_one_wakeup` is defined in the kernel core, which is not
part of the sources). -/
def core_one_wakeup (s : sys_t) (event : event_t) : Option tsk_t × sys_t :=
  match s.evq.queue with
  | [] => (none, s)
  | tsk :: rest =>
    (some tsk, { s with evq := { s.evq with queue := rest },
                        woken := s.woken ++ [(tsk, event)] })

/-- Modelled from the spec: `wake_all(q, event)` wakes every task of the waiter
queue, in waiter-queue order, each with `event` (`core_all_wakeup` is not part of
the sources). -/
def core_all_wakeup (s : sys_t) (event : event_t) : sys_t :=
  { s with evq := { s.evq with queue := [] },
           woken := s.woken ++ s.evq.queue.map (fun tsk => (tsk, event)) }

/-- Modelled from the spec: `park_for(q, delay)`; `IMMEDIATE` returns `TIMEOUT` at
once without parking, any other delay suspends the current task at the end of the
waiter queue (FIFO policy).  The result `none` says that the call has not
returned: the task is parked and resumes with the event it is woken with
(`core_tsk_waitFor` is not part of the sources). -/
def core_tsk_waitFor (s : sys_t) (delay : Nat) : Option event_t × sys_t :=
  if delay = IMMEDIATE then (some E_TIMEOUT, s)
  else (none, { s with evq := { s.evq with queue := s.evq.queue ++ [s.cur] } })

/-- Modelled from the spec: `park(q, deadline)` suspends the current task at the
end of the waiter queue until it is woken or the timer removes it at the deadline
(`core_tsk_waitUntil` is not part of the sources; the expiry of the deadline is the
timer step `core_tmr_timeout`). -/
def core_tsk_waitUntil (s : sys_t) (_time : Nat) : Option event_t × sys_t :=
  (none, { s with evq := { s.evq with queue := s.evq.queue ++ [s.cur] } })

/-- Modelled from the spec: a timeout expires via the timer subsystem, which
removes a parked task (the one at position `i` of the waiter queue) and resumes it
with `TIMEOUT`; the queue object is otherwise untouched. -/
def core_tmr_timeout (s : sys_t) (i : Nat) : sys_t :=
  match s.evq.queue.get? i with
  | none => s
  | some tsk =>
    { s with evq := { s.evq with queue := s.evq.queue.eraseIdx i },
             woken := s.woken ++ [(tsk, E_TIMEOUT)] }

/-- Modelled from the spec: `sys_free(ptr)` releases the storage behind a non-null
handle (the allocator is not part of the sources). -/
def sys_free (s : sys_t) (ptr : Nat) : sys_t :=
  if ptr = 0 then s else { s with freed := s.freed ++ [ptr] }

/-! ## `oseventqueue.c` -/

/-- The function `evq_init`: clears the object, initialises the header, sets
`limit = bufsize / sizeof(unsigned)` and the data pointer. -/
def evq_init (s : sys_t) (data : Nat → Nat) (bufsize : Nat) : sys_t :=
  { s with evq := { queue := [], res := 0, count := 0,
                    limit := bufsize / SIZEOF_UNSIGNED,
                    head := 0, tail := 0, data := data } }

/-- The function `priv_evq_count`. -/
def priv_evq_count (s : sys_t) : Nat := s.evq.count

/-- The function `priv_evq_space`: `limit - count` in `unsigned` arithmetic, that
is `2^32 - count + limit` modulo `2^32` (`count` being an `unsigned`). -/
def priv_evq_space (s : sys_t) : Nat :=
  (UINT_RANGE - s.evq.count + s.evq.limit) % UINT_RANGE

/-- The function `priv_evq_limit`. -/
def priv_evq_limit (s : sys_t) : Nat := s.evq.limit

/-- The function `evq_kill`. -/
def evq_kill (s : sys_t) : sys_t :=
  core_all_wakeup
    { s with evq := { s.evq with count := 0, head := 0, tail := 0 } } E_STOPPED

/-- The function `evq_delete`. -/
def evq_delete (s : sys_t) : sys_t :=
  let s1 := evq_kill s
  sys_free s1 s1.evq.res

/-- The function `priv_evq_get`: `*data = evq->data[i++]`, then the head index is
`i` if `i < limit` and `0` otherwise, and `count--`.  The store through `data` is
appended to `writes`; a fault is recorded when `count` is `0` at entry (the
decrement wraps around) or the buffer is read at an index `i >= limit`. -/
def priv_evq_get (s : sys_t) (data : Nat) : sys_t :=
  let i := s.evq.head
  let w := s.evq.data i
  let i1 := (i + 1) % UINT_RANGE
  { s with
    mem := Function.update s.mem data w
    writes := s.writes ++ [(data, w)]
    evq := { s.evq with
             head := if i1 < s.evq.limit then i1 else 0
             count := (UINT_MAX + s.evq.count) % UINT_RANGE }
    fault := s.fault || decide (s.evq.count = 0) || decide (s.evq.limit ≤ i) }

/-- The function `priv_evq_put`: `evq->data[i++] = data`, then the tail index is
`i` if `i < limit` and `0` otherwise, and `count++`.  A fault is recorded when
`count >= limit` at entry (the increment exceeds `limit`) or the buffer is
written at an index `i >= limit`. -/
def priv_evq_put (s : sys_t) (data : Nat) : sys_t :=
  let i := s.evq.tail
  let i1 := (i + 1) % UINT_RANGE
  { s with
    evq := { s.evq with
             data := Function.update s.evq.data i data
             tail := if i1 < s.evq.limit then i1 else 0
             count := (s.evq.count + 1) % UINT_RANGE }
    fault := s.fault || decide (s.evq.limit ≤ s.evq.count) || decide (s.evq.limit ≤ i) }

/-- The function `priv_evq_skip`: `count--`, `head++`, and the head index is reset
to `0` when it equals `limit`.  A fault is recorded when `count` is `0` at entry
(the decrement wraps around). -/
def priv_evq_skip (s : sys_t) : sys_t :=
  let h1 := (s.evq.head + 1) % UINT_RANGE
  { s with
    evq := { s.evq with
             count := (UINT_MAX + s.evq.count) % UINT_RANGE
             head := if h1 = s.evq.limit then 0 else h1 }
    fault := s.fault || decide (s.evq.count = 0) }

/-- The function `priv_evq_getUpdate`. -/
def priv_evq_getUpdate (s : sys_t) (data : Nat) : sys_t :=
  let s1 := priv_evq_get s data
  match core_one_wakeup s1 E_SUCCESS with
  | (some tsk, s2) => priv_evq_put s2 tsk.tmp_out
  | (none, s2) => s2

/-- The function `priv_evq_putUpdate`. -/
def priv_evq_putUpdate (s : sys_t) (data : Nat) : sys_t :=
  let s1 := priv_evq_put s data
  match core_one_wakeup s1 E_SUCCESS with
  | (some tsk, s2) => priv_evq_get s2 tsk.tmp_in
  | (none, s2) => s2

/-- The loop of `priv_evq_skipUpdate`, run for at most `fuel` iterations. -/
def priv_evq_skipLoop : Nat → sys_t → sys_t
  | 0, s => s
  | fuel + 1, s =>
    if s.evq.count = s.evq.limit then
      let s1 := priv_evq_skip s
      match core_one_wakeup s1 E_SUCCESS with
      | (some tsk, s2) => priv_evq_skipLoop fuel (priv_evq_put s2 tsk.tmp_out)
      | (none, s2) => priv_evq_skipLoop fuel s2
    else s

/-- The function `priv_evq_skipUpdate`: every iteration but the last removes a
parked task, so one more iteration than there are parked tasks completes the
loop (see `priv_evq_skipLoop_exit` and `priv_evq_skipLoop_fuel`). -/
def priv_evq_skipUpdate (s : sys_t) : sys_t :=
  priv_evq_skipLoop (s.evq.queue.length + 1) s

/-- The function `evq_take`. -/
def evq_take (s : sys_t) (data : Nat) : event_t × sys_t :=
  if s.evq.count > 0 then (E_SUCCESS, priv_evq_getUpdate s data)
  else (E_TIMEOUT, s)

/-- The function `priv_evq_wait`; `wait` is the scheduler hook passed by the
caller. -/
def priv_evq_wait (s : sys_t) (data : Nat) (time : Nat)
    (wait : sys_t → Nat → Option event_t × sys_t) : Option event_t × sys_t :=
  if s.evq.count > 0 then (some E_SUCCESS, priv_evq_getUpdate s data)
  else wait { s with cur := { s.cur with tmp_in := data } } time

/-- The function `evq_waitFor`. -/
def evq_waitFor (s : sys_t) (data : Nat) (delay : Nat) : Option event_t × sys_t :=
  priv_evq_wait s data delay core_tsk_waitFor

/-- The function `evq_waitUntil`. -/
def evq_waitUntil (s : sys_t) (data : Nat) (time : Nat) : Option event_t × sys_t :=
  priv_evq_wait s data time core_tsk_waitUntil

/-- The function `evq_give`. -/
def evq_give (s : sys_t) (data : Nat) : event_t × sys_t :=
  if s.evq.count < s.evq.limit then (E_SUCCESS, priv_evq_putUpdate s data)
  else (E_TIMEOUT, s)

/-- The function `priv_evq_send`; `wait` is the scheduler hook passed by the
caller. -/
def priv_evq_send (s : sys_t) (data : Nat) (time : Nat)
    (wait : sys_t → Nat → Option event_t × sys_t) : Option event_t × sys_t :=
  if s.evq.count < s.evq.limit then (some E_SUCCESS, priv_evq_putUpdate s data)
  else wait { s with cur := { s.cur with tmp_out := data } } time

/-- The function `evq_sendFor`. -/
def evq_sendFor (s : sys_t) (data : Nat) (delay : Nat) : Option event_t × sys_t :=
  priv_evq_send s data delay core_tsk_waitFor

/-- The function `evq_sendUntil`. -/
def evq_sendUntil (s : sys_t) (data : Nat) (time : Nat) : Option event_t × sys_t :=
  priv_evq_send s data time core_tsk_waitUntil

/-- The function `evq_push`. -/
def evq_push (s : sys_t) (data : Nat) : sys_t :=
  priv_evq_putUpdate (priv_evq_skipUpdate s) data

/-- The function `evq_count`. -/
def evq_count (s : sys_t) : Nat := priv_evq_count s

/-- The function `evq_space`. -/
def evq_space (s : sys_t) : Nat := priv_evq_space s

/-- The function `evq_limit`. -/
def evq_limit (s : sys_t) : Nat := priv_evq_limit s

/-! ## Executions -/

/-- A call of the public interface, or a step of the environment: `timeout i` is
the timer removing the parked task at position `i` of the waiter queue, and
`switch tsk` is a context switch that makes `tsk` the current task. -/
inductive op_t where
  | give (data : Nat)
  | take (data : Nat)
  | waitFor (data : Nat) (delay : Nat)
  | waitUntil (data : Nat) (time : Nat)
  | sendFor (data : Nat) (delay : Nat)
  | sendUntil (data : Nat) (time : Nat)
  | push (data : Nat)
  | kill
  | timeout (i : Nat)
  | switch (tsk : tsk_t)
  deriving DecidableEq, Repr

/-- One step of an execution: the event the call returns at once (`none` for a
call that parks its task, for the `void` functions and for the environment
steps) and the state it leaves. -/
def step (s : sys_t) : op_t → Option event_t × sys_t
  | .give data => (some (evq_give s data).1, (evq_give s data).2)
  | .take data => (some (evq_take s data).1, (evq_take s data).2)
  | .waitFor data delay => evq_waitFor s data delay
  | .waitUntil data time => evq_waitUntil s data time
  | .sendFor data delay => evq_sendFor s data delay
  | .sendUntil data time => evq_sendUntil s data time
  | .push data => (none, evq_push s data)
  | .kill => (none, evq_kill s)
  | .timeout i => (none, core_tmr_timeout s i)
  | .switch tsk => (none, { s with cur := tsk })

/-- The state after a sequence of steps. -/
def run : sys_t → List op_t → sys_t
  | s, [] => s
  | s, op :: ops => run (step s op).2 ops

/-- The calls of an execution, each with the event it returned at once. -/
def trace : sys_t → List op_t → List (op_t × Option event_t)
  | _, [] => []
  | s, op :: ops => (op, (step s op).1) :: trace (step s op).2 ops

/-- A state reachable from `evq_init` with `limit > 0`: the state before the
initialisation is arbitrary apart from having no fault recorded, `bufsize` is an
`unsigned` accepted by `assert(bufsize)`. -/
def Reachable (s : sys_t) : Prop :=
  ∃ (s0 : sys_t) (data : Nat → Nat) (bufsize : Nat) (ops : List op_t),
    s0.fault = false ∧ bufsize < UINT_RANGE ∧ 0 < bufsize / SIZEOF_UNSIGNED ∧
    s = run (evq_init s0 data bufsize) ops

/-! ## Specification vocabulary -/

/-- The words buffered in the queue, oldest first: the `count` words
`data[head]`, `data[(head+1) mod limit]`, ... -/
def contents (q : evq_t) : List Nat :=
  (List.range q.count).map (fun k => q.data ((q.head + k) % q.limit))

/-- A well-formed queue: `limit > 0` (and `limit` is an `unsigned`),
`count <= limit`, `head < limit`, `tail < limit` and
`tail = (head + count) mod limit`. -/
def wf (q : evq_t) : Prop :=
  0 < q.limit ∧ q.limit < UINT_RANGE ∧ q.count ≤ q.limit ∧ q.head < q.limit ∧
  q.tail < q.limit ∧ q.tail = (q.head + q.count) % q.limit

instance (q : evq_t) : Decidable (wf q) := by
  unfold wf; infer_instance

/-! ## Vocabulary of the FIFO property -/

/-- The destination a consumer call of an execution leaves to be served: the
call's destination unless the call returned `E_TIMEOUT` at once (`ret` is the
event the call returned at once, `none` for a call that parked its task). -/
def requested (op : op_t) (ret : Option event_t) : List Nat :=
  match op with
  | .take data => if ret = some E_TIMEOUT then [] else [data]
  | .waitFor data _ => if ret = some E_TIMEOUT then [] else [data]
  | .waitUntil data _ => if ret = some E_TIMEOUT then [] else [data]
  | _ => []

/-- The word a producer call of an execution hands over: the call's word unless
the call returned `E_TIMEOUT` at once. -/
def produced (op : op_t) (ret : Option event_t) : List Nat :=
  match op with
  | .give data => if ret = some E_TIMEOUT then [] else [data]
  | .sendFor data _ => if ret = some E_TIMEOUT then [] else [data]
  | .sendUntil data _ => if ret = some E_TIMEOUT then [] else [data]
  | _ => []

/-- The destinations of the consumer calls of a trace that did not return
`E_TIMEOUT` at once (they returned `E_SUCCESS` at once or parked), in call
order. -/
def asked_dests : List (op_t × Option event_t) → List Nat
  | [] => []
  | c :: tr => requested c.1 c.2 ++ asked_dests tr

/-- The words of the producer calls of a trace that did not return `E_TIMEOUT`
at once (they returned `E_SUCCESS` at once or parked), in call order. -/
def sent_words : List (op_t × Option event_t) → List Nat
  | [] => []
  | c :: tr => produced c.1 c.2 ++ sent_words tr

/-- The steps of the executions of the FIFO property: `evq_give`, `evq_take`,
the blocking sends and waits, and context switches; no push, kill or timeout. -/
def fifo_op : op_t → Bool
  | .push _ => false
  | .kill => false
  | .timeout _ => false
  | _ => true

/-- The destinations of the parked consumers, in waiter-queue order: tasks are
parked as consumers only on an empty queue. -/
def pending_dests (q : evq_t) : List Nat :=
  if q.count = 0 then q.queue.map tsk_t.tmp_in else []

/-- The words of the parked producers, in waiter-queue order: tasks are parked
as producers only on a full queue. -/
def pending_words (q : evq_t) : List Nat :=
  if q.count = q.limit then q.queue.map tsk_t.tmp_out else []

/-- Tasks are parked only on an empty or on a full queue. -/
def excl (q : evq_t) : Prop := q.queue ≠ [] → q.count = 0 ∨ q.count = q.limit

/-- The effect of one step on the FIFO accounting: the step appends the
deliveries `E` to the store history, the destinations still to be served grow by
`req` and lose those of `E`, the words still to be delivered grow by `prod` and
lose those of `E`, and the queue stays well formed with tasks parked only on an
empty or a full queue. -/
def FifoStep (s s1 : sys_t) (req prod : List Nat) : Prop :=
  ∃ E : List (Nat × Nat),
    s1.writes = s.writes ++ E ∧
    pending_dests s.evq ++ req = E.map Prod.fst ++ pending_dests s1.evq ∧
    contents s.evq ++ pending_words s.evq ++ prod =
      E.map Prod.snd ++ contents s1.evq ++ pending_words s1.evq ∧
    wf s1.evq ∧ excl s1.evq

/-! ## Parked populations -/

/-- How a task was parked: as a consumer, by `evq_waitFor` or `evq_waitUntil`
with the destination `dst`, or as a producer, by `evq_sendFor` or
`evq_sendUntil` with the word `word`. -/
inductive park_t where
  | consumer (dst : Nat)
  | producer (word : Nat)
  deriving DecidableEq, Repr

/-- The parked task `tsk` carries the cargo of its record: a consumer has its
destination in `tmp_in`, a producer has its word in `tmp_out`. -/
def parked_as (k : park_t) (tsk : tsk_t) : Prop :=
  match k with
  | .consumer dst => tsk.tmp_in = dst
  | .producer word => tsk.tmp_out = word

/-- The records of the parked tasks after one step, in waiter-queue order: a
wait that parks appends a consumer record, a send that parks appends a producer
record, the timer removes the record at its position, and every other step
removes the records of the tasks it took from the head of the waiter queue. -/
def park_step (s : sys_t) (op : op_t) (ks : List park_t) : List park_t :=
  let taken := ks.drop (s.evq.queue.length - (step s op).2.evq.queue.length)
  match op with
  | .waitFor data _ => if (step s op).1 = none then ks ++ [park_t.consumer data] else taken
  | .waitUntil data _ => if (step s op).1 = none then ks ++ [park_t.consumer data] else taken
  | .sendFor data _ => if (step s op).1 = none then ks ++ [park_t.producer data] else taken
  | .sendUntil data _ => if (step s op).1 = none then ks ++ [park_t.producer data] else taken
  | .timeout i => ks.eraseIdx i
  | _ => taken

/-- The records of the parked tasks after a sequence of steps. -/
def park_run : sys_t → List op_t → List park_t → List park_t
  | _, [], ks => ks
  | s, op :: ops, ks => park_run (step s op).2 ops (park_step s op ks)

/-- A state reachable from `evq_init` with `limit > 0`, together with the
records of its parked tasks. -/
def ParkReachable (s : sys_t) (ks : List park_t) : Prop :=
  ∃ (s0 : sys_t) (data : Nat → Nat) (bufsize : Nat) (ops : List op_t),
    bufsize < UINT_RANGE ∧ 0 < bufsize / SIZEOF_UNSIGNED ∧
    s = run (evq_init s0 data bufsize) ops ∧
    ks = park_run (evq_init s0 data bufsize) ops []

/-- The invariant of the parked populations: the queue is well formed, the
records match the parked tasks one by one, consumers are parked only on an empty
queue and producers only on a full queue. -/
def ParkInv (s : sys_t) (ks : List park_t) : Prop :=
  wf s.evq ∧ List.Forall₂ parked_as ks s.evq.queue ∧
  (∀ p, park_t.consumer p ∈ ks → s.evq.count = 0) ∧
  (∀ w, park_t.producer w ∈ ks → s.evq.count = s.evq.limit)

/-- The word a producer call carries: the argument of `evq_give`, `evq_sendFor`,
`evq_sendUntil` and `evq_push`. -/
def carried : op_t → Option Nat
  | .give data => some data
  | .sendFor data _ => some data
  | .sendUntil data _ => some data
  | .push data => some data
  | _ => none

/-- What a call on the blocking path leaves of the state `s`: in `s1` the
buffer, `head`, `tail`, `count`, `limit`, `obj.res`, the memory of the callers
and the store and wake histories are those of `s`, and the waiter queue is that
of `s`, possibly with `tsk` parked at its end. -/
def blocked_frame (s s1 : sys_t) (tsk : tsk_t) : Prop :=
  s1.evq.data = s.evq.data ∧ s1.evq.head = s.evq.head ∧ s1.evq.tail = s.evq.tail ∧
  s1.evq.count = s.evq.count ∧ s1.evq.limit = s.evq.limit ∧ s1.evq.res = s.evq.res ∧
  s1.mem = s.mem ∧ s1.writes = s.writes ∧ s1.woken = s.woken ∧
  (s1.evq.queue = s.evq.queue ∨ s1.evq.queue = s.evq.queue ++ [tsk])

/-! ## `ossemaphore.h` -/

/-- The semaphore object `sem_t`: `queue` and `res` are the fields of the object
header `obj`, `count` is the current value and `limit` the limit value of the
semaphore counter. -/
structure sem_t where
  queue : List tsk_t
  res : Nat
  count : Nat
  limit : Nat
  deriving DecidableEq, Repr

/-- The constant `semDirect`, `( 0U )`. -/
def semDirect : Nat := 0

/-- The constant `semBinary`, `( 1U )`. -/
def semBinary : Nat := 1

/-- The constant `semCounting`, `( 0U-1 )` in `unsigned` arithmetic. -/
def semCounting : Nat := UINT_MAX

/-- The constant `semDefault`. -/
def semDefault : Nat := semCounting

/-- Modelled from the spec: the object header is `{ waiter_queue,
resource_handle }`, and the resource handle is non-null iff the object was
dynamically allocated; the header of a statically initialised object has an
empty waiter queue and a null handle (`_OBJ_INIT` is defined in `oskernel.h`,
which is not part of the sources). -/
def _OBJ_INIT : List tsk_t × Nat := ([], 0)

/-- The macro `_SEM_INIT( _init, _limit )`:
`{ _OBJ_INIT(), _init < _limit ? _init : _limit, _limit }`. -/
def _SEM_INIT (init limit : Nat) : sem_t :=
  { queue := _OBJ_INIT.1, res := _OBJ_INIT.2,
    count := if init < limit then init else limit, limit := limit }

/-- The macro `_VA_SEM( _limit )`: `( (_limit + 0) ? (_limit + 0) : (semDefault) )`;
the optional argument is `none` when it is omitted, and then `( + 0)` is `0`. -/
def _VA_SEM (limit : Option Nat) : Nat :=
  let v := match limit with
    | some l => (l + 0) % UINT_RANGE
    | none => 0
  if v ≠ 0 then v else semDefault

/-- The macros `OS_SEM( sem, init, ... )`, `static_SEM( sem, init, ... )` and
`SEM_INIT( init, ... )`: the object `_SEM_INIT( init, _VA_SEM(__VA_ARGS__) )`. -/
def OS_SEM (init : Nat) (limit : Option Nat) : sem_t :=
  _SEM_INIT init (_VA_SEM limit)

/-- The macro `SEM_CREATE( init, ... )`:
`SEM_INIT( init, _VA_SEM(__VA_ARGS__) )`, in which `SEM_INIT` applies `_VA_SEM`
once more. -/
def SEM_CREATE (init : Nat) (limit : Option Nat) : sem_t :=
  OS_SEM init (some (_VA_SEM limit))

/-- The constructor `Semaphore( _init, _limit = semDefault )`. -/
def Semaphore (init : Nat) (limit : Option Nat) : sem_t :=
  _SEM_INIT init (limit.getD semDefault)

/-- The function `Semaphore::Direct()`. -/
def Semaphore_Direct : sem_t := Semaphore 0 (some semDirect)

/-- The function `Semaphore::Binary( _init = 0 )`. -/
def Semaphore_Binary (init : Option Nat) : sem_t := Semaphore (init.getD 0) (some semBinary)

/-- The function `Semaphore::Counting( _init = 0 )`. -/
def Semaphore_Counting (init : Option Nat) : sem_t :=
  Semaphore (init.getD 0) (some semCounting)

/-! ## The body of the overwrite loop -/

/-- The body of the loop of `priv_evq_skipUpdate`: `priv_evq_skip`, then
`core_one_wakeup`, then `priv_evq_put` of the word of the woken task if there
was one. -/
def priv_evq_skipBody (s : sys_t) : sys_t :=
  let s1 := priv_evq_skip s
  match core_one_wakeup s1 E_SUCCESS with
  | (some tsk, s2) => priv_evq_put s2 tsk.tmp_out
  | (none, s2) => s2

/-- The number of iterations that the loop of `priv_evq_skipUpdate` executes
when it is allowed at most `fuel` of them. -/
def priv_evq_skipIters : Nat → sys_t → Nat
  | 0, _ => 0
  | fuel + 1, s =>
    if s.evq.count = s.evq.limit then priv_evq_skipIters fuel (priv_evq_skipBody s) + 1
    else 0

/-- The tasks woken by one step, with the events they were woken with: what the
step has appended to the wake history. -/
def woken_by (s : sys_t) (op : op_t) : List (tsk_t × event_t) :=
  (step s op).2.woken.drop s.woken.length

/-- The step is a call of `evq_push`. -/
def is_push : op_t → Bool
  | .push _ => true
  | _ => false

/-! ## Assertions and dynamic creation -/

/-- The assertion `assert(bufsize)` of `evq_init`, the one of its assertions
that bears on `bufsize` (the others are on the context of the call and on the
two pointers). -/
def evq_init_asserts (bufsize : Nat) : Bool := decide (bufsize ≠ 0)

/-- The assertion `assert(evq->limit)` at the top of `evq_take`, `evq_give`,
`evq_push`, `evq_waitFor`, `evq_waitUntil`, `evq_sendFor` and `evq_sendUntil`. -/
def evq_limit_asserts (s : sys_t) : Bool := decide (s.evq.limit ≠ 0)

/-- What `evq_create` has done when it returns: `size` is the number of bytes
it has asked `sys_alloc` for, `data` is the address it has passed to `evq_init`
as the buffer, and `sys` is the state with the queue it returns. -/
structure created_t where
  size : Nat
  data : Nat
  sys : sys_t

/-- The function `evq_create`.  `seg_over` is the value of
`SEG_OVER(sizeof(evq_t))` (the macro is not part of the sources), `ptr` is the
address `sys_alloc` returns, 0 (`NULL`) when the allocation fails, and `buf` the
words found in the buffer; `bufsize` is an `unsigned`, sizes and addresses are
`size_t` of the same width.  The source does not test the pointer it gets from
`sys_alloc`: the result is `none` when an assertion fails, which are
`assert(limit)` of `evq_create` and `assert(evq)`, `assert(data)` and
`assert(bufsize)` of the `evq_init` it calls. -/
def evq_create (s : sys_t) (limit : Nat) (seg_over ptr : Nat) (buf : Nat → Nat) :
    Option created_t :=
  if limit = 0 then none
  else
    let bufsize := (limit * SIZEOF_UNSIGNED) % UINT_RANGE
    let size := (seg_over + bufsize) % UINT_RANGE
    let data := (ptr + seg_over) % UINT_RANGE
    if ptr = 0 then none
    else if data = 0 then none
    else if evq_init_asserts bufsize = false then none
    else
      let s1 := evq_init s buf bufsize
      some { size := size
             data := data
             sys := { s1 with evq := { s1.evq with res := ptr } } }

/-- What `priv_evq_getUpdate` has done when it has taken the state `s` with the
records `ks` to `s1`: either no task was parked, nobody is woken and the buffer
has lost its oldest word; or the task `t` at the head of the waiter queue was
parked as a producer with the word `v`, that word is in its `tmp_out`, `t` is
woken with `E_SUCCESS` and the buffer has lost its oldest word and gained `v` at
its end. -/
def getUpdate_effect (s s1 : sys_t) (ks : List park_t) : Prop :=
  (s.evq.queue = [] ∧ s1.woken = s.woken ∧ contents s1.evq = (contents s.evq).tail) ∨
  (∃ (t : tsk_t) (rest : List tsk_t) (v : Nat) (ks1 : List park_t),
    s.evq.queue = t :: rest ∧ ks = park_t.producer v :: ks1 ∧ t.tmp_out = v ∧
    s1.woken = s.woken ++ [(t, E_SUCCESS)] ∧
    contents s1.evq = (contents s.evq).tail ++ [v] ∧ s1.evq.queue = rest)

/-- What `priv_evq_putUpdate` with the word `w` has done when it has taken the
state `s` with the records `ks` to `s1`: either no task was parked, nobody is
woken and the buffer has gained `w` at its end; or the task `t` at the head of
the waiter queue was parked as a consumer with the destination `p`, that address
is in its `tmp_in`, `t` is woken with `E_SUCCESS`, `w` has been stored at `p` and
the buffer is empty as before. -/
def putUpdate_effect (s s1 : sys_t) (ks : List park_t) (w : Nat) : Prop :=
  (s.evq.queue = [] ∧ s1.woken = s.woken ∧ contents s1.evq = contents s.evq ++ [w]) ∨
  (∃ (t : tsk_t) (rest : List tsk_t) (p : Nat) (ks1 : List park_t),
    s.evq.queue = t :: rest ∧ ks = park_t.consumer p :: ks1 ∧ t.tmp_in = p ∧
    s1.woken = s.woken ++ [(t, E_SUCCESS)] ∧ s1.writes = s.writes ++ [(p, w)] ∧
    contents s.evq = [] ∧ contents s1.evq = [] ∧ s1.evq.queue = rest)

/-! ## Concrete states -/

/-- A state with an empty queue of limit 4 and no history. -/
def ex_empty4 : sys_t :=
  { evq := { queue := [], res := 0, count := 0, limit := 4, head := 0, tail := 0,
             data := fun _ => 0 },
    cur := { id := 1, tmp_in := 0, tmp_out := 0 },
    mem := fun _ => 0, woken := [], writes := [], freed := [], fault := false }

/-- A state with a full queue of limit 2 holding the words 1, 2 and no parked
task. -/
def ex_full2 : sys_t :=
  { evq := { queue := [], res := 0, count := 2, limit := 2, head := 0, tail := 0,
             data := fun i => if i = 0 then 1 else 2 },
    cur := { id := 1, tmp_in := 0, tmp_out := 0 },
    mem := fun _ => 0, woken := [], writes := [], freed := [], fault := false }


/-- A state with a queue of limit 4 holding the words 13, 10 across the end of
the buffer (head 3, tail 1) and no parked task. -/
def ex_wrap4 : sys_t :=
  { evq := { queue := [], res := 0, count := 2, limit := 4, head := 3, tail := 1,
             data := fun i => 10 + i },
    cur := { id := 1, tmp_in := 0, tmp_out := 0 },
    mem := fun _ => 0, woken := [], writes := [], freed := [], fault := false }

/-- The state of the rendezvous scenario: an empty queue of limit 4 on which
task 1 is parked as a consumer with destination address 100, followed by task 2
parked with destination address 200. -/
def ex_rendezvous : sys_t :=
  { evq := { queue := [{ id := 1, tmp_in := 100, tmp_out := 0 },
                       { id := 2, tmp_in := 200, tmp_out := 0 }],
             res := 0, count := 0, limit := 4, head := 0, tail := 0,
             data := fun _ => 0 },
    cur := { id := 3, tmp_in := 0, tmp_out := 0 },
    mem := fun _ => 0, woken := [], writes := [], freed := [], fault := false }

/-- The state of the backpressure scenario: a queue of limit 2 holding the words
1, 2 on which task 1 is parked as a producer with the word 3. -/
def ex_backpressure : sys_t :=
  { evq := { queue := [{ id := 1, tmp_in := 0, tmp_out := 3 }],
             res := 0, count := 2, limit := 2, head := 0, tail := 0,
             data := fun i => if i = 0 then 1 else 2 },
    cur := { id := 3, tmp_in := 0, tmp_out := 0 },
    mem := fun _ => 0, woken := [], writes := [], freed := [], fault := false }

/-- The state of the overwrite scenario: a queue of limit 3 holding the words
10, 11, 12 and no parked task. -/
def ex_overwrite : sys_t :=
  { evq := { queue := [], res := 0, count := 3, limit := 3, head := 0, tail := 0,
             data := fun i => 10 + i },
    cur := { id := 1, tmp_in := 0, tmp_out := 0 },
    mem := fun _ => 0, woken := [], writes := [], freed := [], fault := false }

/-- The state of the delete scenario: an empty queue of limit 4, created
dynamically (`obj.res` is the handle 4096), on which tasks 1, 2, 3 are parked as
consumers. -/
def ex_three_parked : sys_t :=
  { evq := { queue := [{ id := 1, tmp_in := 100, tmp_out := 0 },
                       { id := 2, tmp_in := 200, tmp_out := 0 },
                       { id := 3, tmp_in := 300, tmp_out := 0 }],
             res := 4096, count := 0, limit := 4, head := 0, tail := 0,
             data := fun _ => 0 },
    cur := { id := 4, tmp_in := 0, tmp_out := 0 },
    mem := fun _ => 0, woken := [], writes := [], freed := [], fault := false }

/-- The state reached from `evq_init` with a buffer of one word by one
`evq_give`: the queue is full. -/
def ex_full1 : sys_t :=
  run (evq_init ex_empty4 (fun _ => 0) 4) [op_t.give 7]

/-- The state reached from `evq_init` with a buffer of two words by two gives, a
producer parking, a take, a push and a consumer call. -/
def ex_reached : sys_t :=
  run (evq_init ex_empty4 (fun _ => 0) 8)
    [op_t.give 1, op_t.give 2, op_t.sendFor 3 5, op_t.take 50, op_t.push 4,
     op_t.waitFor 60 5]

/-- The invariant of the reachable states: the queue is well formed and no
fault has been recorded. -/
def Inv (s : sys_t) : Prop := wf s.evq ∧ s.fault = false

/-- An execution on a queue of limit 2 in which a consumer parks on the empty
queue and is served by a give, a producer parks on the full queue and is served
by a take, a give fails on the full queue and a wait with `IMMEDIATE` fails on
the empty queue. -/
def ex_fifo_ops : List op_t :=
  [op_t.waitFor 50 9, op_t.switch { id := 2, tmp_in := 0, tmp_out := 0 },
   op_t.waitFor 90 IMMEDIATE, op_t.give 1, op_t.give 2, op_t.give 3,
   op_t.sendUntil 4 100, op_t.give 6, op_t.switch { id := 3, tmp_in := 0, tmp_out := 0 },
   op_t.take 60, op_t.take 70, op_t.waitUntil 80 7, op_t.sendFor 5 IMMEDIATE]

/-- The execution of the rendezvous scenario on a queue of limit 4: task 1
waits with destination 100 and a delay other than `IMMEDIATE`, task 2 gives the
word `0xDEADBEEF`. -/
def ex_rendezvous_ops : List op_t :=
  [op_t.waitFor 100 4294967295, op_t.switch { id := 2, tmp_in := 0, tmp_out := 0 },
   op_t.give 3735928559]

/-- An execution on a queue of limit 2 in which two consumers park and are
served or timed out, and then two producers park on the full queue, one of them
being served by a take. -/
def ex_park_ops : List op_t :=
  [op_t.waitFor 100 9, op_t.switch { id := 2, tmp_in := 0, tmp_out := 0 },
   op_t.waitUntil 200 5, op_t.switch { id := 3, tmp_in := 0, tmp_out := 0 },
   op_t.give 1, op_t.timeout 0, op_t.give 2, op_t.give 3, op_t.sendFor 4 9,
   op_t.switch { id := 4, tmp_in := 0, tmp_out := 0 }, op_t.sendUntil 5 7,
   op_t.take 60]

/-- The state reached by `ex_park_ops` from `evq_init` with a buffer of two
words. -/
def ex_parked : sys_t := run (evq_init ex_empty4 (fun _ => 0) 8) ex_park_ops

/-- The records of the tasks parked in `ex_parked`. -/
def ex_parked_ks : List park_t := park_run (evq_init ex_empty4 (fun _ => 0) 8) ex_park_ops []

/-- An execution in which two consumers park with the same destination
address 100 on a queue of limit 4. -/
def ex_alias_ops : List op_t :=
  [op_t.waitFor 100 9, op_t.switch { id := 2, tmp_in := 0, tmp_out := 0 },
   op_t.waitFor 100 9, op_t.switch { id := 3, tmp_in := 0, tmp_out := 0 }]

/-- The state reached by `ex_alias_ops` from `evq_init` with a buffer of four
words: tasks 1 and 2 are parked as consumers, both with destination 100. -/
def ex_alias : sys_t := run (evq_init ex_empty4 (fun _ => 0) 16) ex_alias_ops

/-- The records of the tasks parked in `ex_alias`. -/
def ex_alias_ks : List park_t :=
  park_run (evq_init ex_empty4 (fun _ => 0) 16) ex_alias_ops []

/-- A state with an empty queue of limit 1 and no parked task. -/
def ex_slot_empty : sys_t :=
  { evq := { queue := [], res := 0, count := 0, limit := 1, head := 0, tail := 0,
             data := fun _ => 0 },
    cur := { id := 1, tmp_in := 0, tmp_out := 0 },
    mem := fun _ => 0, woken := [], writes := [], freed := [], fault := false }

/-- A state with a full queue of limit 1 holding the word 42 and no parked
task. -/
def ex_slot_full : sys_t :=
  { evq := { queue := [], res := 0, count := 1, limit := 1, head := 0, tail := 0,
             data := fun _ => 42 },
    cur := { id := 1, tmp_in := 0, tmp_out := 0 },
    mem := fun _ => 0, woken := [], writes := [], freed := [], fault := false }

/-- A state with a full queue of limit 2 holding the words 1, 2 on which task 1
is parked as a producer with the word 3, followed by task 2 parked as a producer
with the word 4. -/
def ex_two_producers : sys_t :=
  { evq := { queue := [{ id := 1, tmp_in := 0, tmp_out := 3 },
                       { id := 2, tmp_in := 0, tmp_out := 4 }],
             res := 0, count := 2, limit := 2, head := 0, tail := 0,
             data := fun i => if i = 0 then 1 else 2 },
    cur := { id := 3, tmp_in := 0, tmp_out := 0 },
    mem := fun _ => 0, woken := [], writes := [], freed := [], fault := false }

/-! ## Machine arithmetic on a well-formed queue -/

theorem dec_no_wrap (c : Nat) (hc : 0 < c) (hlt : c < UINT_RANGE) :
    (UINT_MAX + c) % UINT_RANGE = c - 1 := by
  unfold UINT_RANGE at *
  unfold UINT_MAX
  omega

theorem inc_no_wrap (c L : Nat) (hc : c < L) (hL : L < UINT_RANGE) :
    (c + 1) % UINT_RANGE = c + 1 := by
  unfold UINT_RANGE at *
  omega

theorem succ_mod_limit (i L : Nat) (hi : i < L) :
    (i + 1) % L = if i + 1 < L then i + 1 else 0 := by
  split
  · next h => exact Nat.mod_eq_of_lt h
  · next h =>
    have : i + 1 = L := by omega
    rw [this, Nat.mod_self]

theorem next_index (i L : Nat) (hi : i < L) (hL : L < UINT_RANGE) :
    (if (i + 1) % UINT_RANGE < L then (i + 1) % UINT_RANGE else 0) = (i + 1) % L := by
  rw [inc_no_wrap i L hi hL, succ_mod_limit i L hi]

theorem next_index_skip (i L : Nat) (hi : i < L) (hL : L < UINT_RANGE) :
    (if (i + 1) % UINT_RANGE = L then 0 else (i + 1) % UINT_RANGE) = (i + 1) % L := by
  rw [inc_no_wrap i L hi hL, succ_mod_limit i L hi]
  split <;> split <;> first | rfl | omega

theorem ring_index_inj (h L j k : Nat) (hj : j < L) (hk : k < L)
    (e : (h + j) % L = (h + k) % L) : j = k := by
  have e1 : j ≡ k [MOD L] := Nat.ModEq.add_left_cancel' h e
  have e2 : j % L = k % L := e1
  rwa [Nat.mod_eq_of_lt hj, Nat.mod_eq_of_lt hk] at e2

/-! ## The primitives on a well-formed queue -/

theorem priv_evq_get_wf (s : sys_t) (data : Nat) (hw : wf s.evq) (hc : 0 < s.evq.count) :
    priv_evq_get s data =
      { s with
        mem := Function.update s.mem data (s.evq.data s.evq.head)
        writes := s.writes ++ [(data, s.evq.data s.evq.head)]
        evq := { s.evq with head := (s.evq.head + 1) % s.evq.limit
                            count := s.evq.count - 1 } } := by
  obtain ⟨h0, hL, hcl, hh, ht, htl⟩ := hw
  have h1 := next_index s.evq.head s.evq.limit hh hL
  have h2 := dec_no_wrap s.evq.count hc (by omega)
  have h3 : (s.fault || decide (s.evq.count = 0) || decide (s.evq.limit ≤ s.evq.head))
      = s.fault := by
    have a : decide (s.evq.count = 0) = false := by simp; omega
    have b : decide (s.evq.limit ≤ s.evq.head) = false := by simp; omega
    rw [a, b]; simp
  simp only [priv_evq_get, h1, h2, h3]

theorem priv_evq_put_wf (s : sys_t) (data : Nat) (hw : wf s.evq)
    (hc : s.evq.count < s.evq.limit) :
    priv_evq_put s data =
      { s with
        evq := { s.evq with data := Function.update s.evq.data s.evq.tail data
                            tail := (s.evq.tail + 1) % s.evq.limit
                            count := s.evq.count + 1 } } := by
  obtain ⟨h0, hL, hcl, hh, ht, htl⟩ := hw
  have h1 := next_index s.evq.tail s.evq.limit ht hL
  have h2 := inc_no_wrap s.evq.count s.evq.limit hc hL
  have h3 : (s.fault || decide (s.evq.limit ≤ s.evq.count) || decide (s.evq.limit ≤ s.evq.tail))
      = s.fault := by
    have a : decide (s.evq.limit ≤ s.evq.count) = false := by simp; omega
    have b : decide (s.evq.limit ≤ s.evq.tail) = false := by simp; omega
    rw [a, b]; simp
  simp only [priv_evq_put, h1, h2, h3]

theorem priv_evq_skip_wf (s : sys_t) (hw : wf s.evq) (hc : 0 < s.evq.count) :
    priv_evq_skip s =
      { s with
        evq := { s.evq with count := s.evq.count - 1
                            head := (s.evq.head + 1) % s.evq.limit } } := by
  obtain ⟨h0, hL, hcl, hh, ht, htl⟩ := hw
  have h1 := next_index_skip s.evq.head s.evq.limit hh hL
  have h2 := dec_no_wrap s.evq.count hc (by omega)
  have h3 : (s.fault || decide (s.evq.count = 0)) = s.fault := by
    have a : decide (s.evq.count = 0) = false := by simp; omega
    rw [a]; simp
  simp only [priv_evq_skip, h1, h2, h3]

/-! ## The ring buffer as a list -/

theorem contents_length (q : evq_t) : (contents q).length = q.count := by
  simp [contents]

theorem contents_put (q : evq_t) (w : Nat) (hw : wf q) (hc : q.count < q.limit) :
    contents { q with data := Function.update q.data q.tail w
                      tail := (q.tail + 1) % q.limit
                      count := q.count + 1 } = contents q ++ [w] := by
  obtain ⟨h0, hL, hcl, hh, ht, htl⟩ := hw
  simp only [contents, List.range_succ, List.map_append, List.map_cons, List.map_nil]
  congr 1
  · apply List.map_congr_left
    intro k hk
    have hk1 : k < q.count := List.mem_range.mp hk
    have hne : (q.head + k) % q.limit ≠ q.tail := by
      intro e
      rw [htl] at e
      have := ring_index_inj q.head q.limit k q.count (by omega) hc e
      omega
    exact Function.update_noteq hne w q.data
  · rw [← htl]
    simp

theorem contents_get (q : evq_t) (hc : 0 < q.count) :
    contents { q with head := (q.head + 1) % q.limit
                      count := q.count - 1 } = (contents q).tail := by
  obtain ⟨n, hn⟩ : ∃ n, q.count = n + 1 := ⟨q.count - 1, by omega⟩
  simp only [contents, hn, Nat.add_sub_cancel, List.range_succ_eq_map, List.map_cons,
    List.tail_cons, List.map_map]
  apply List.map_congr_left
  intro k _
  simp only [Function.comp, Nat.mod_add_mod]
  congr 2
  omega

theorem contents_head (q : evq_t) (hc : 0 < q.count) (hh : q.head < q.limit) :
    (contents q).head? = some (q.data q.head) := by
  obtain ⟨n, hn⟩ : ∃ n, q.count = n + 1 := ⟨q.count - 1, by omega⟩
  simp [contents, hn, List.range_succ_eq_map, Nat.mod_eq_of_lt hh]

theorem contents_eq_cons (q : evq_t) (hc : 0 < q.count) (hh : q.head < q.limit) :
    contents q = q.data q.head :: (contents q).tail := by
  have h := contents_head q hc hh
  cases hq : contents q with
  | nil => rw [hq] at h; simp at h
  | cons a l => rw [hq] at h; simp at h; simp [h]

theorem wf_put (q : evq_t) (w : Nat) (hw : wf q) (hc : q.count < q.limit) :
    wf { q with data := Function.update q.data q.tail w
                tail := (q.tail + 1) % q.limit
                count := q.count + 1 } := by
  obtain ⟨h0, hL, hcl, hh, ht, htl⟩ := hw
  refine ⟨h0, hL, hc, hh, Nat.mod_lt _ h0, ?_⟩
  show (q.tail + 1) % q.limit = (q.head + (q.count + 1)) % q.limit
  rw [htl, Nat.mod_add_mod, Nat.add_assoc]

theorem wf_get (q : evq_t) (hw : wf q) (hc : 0 < q.count) :
    wf { q with head := (q.head + 1) % q.limit
                count := q.count - 1 } := by
  obtain ⟨h0, hL, hcl, hh, ht, htl⟩ := hw
  refine ⟨h0, hL, ?_, Nat.mod_lt _ h0, ht, ?_⟩
  · show q.count - 1 ≤ q.limit
    omega
  · show q.tail = ((q.head + 1) % q.limit + (q.count - 1)) % q.limit
    rw [htl, Nat.mod_add_mod]
    congr 1
    omega

theorem wf_queue (q : evq_t) (l : List tsk_t) (hw : wf q) : wf { q with queue := l } := hw

theorem contents_queue (q : evq_t) (l : List tsk_t) :
    contents { q with queue := l } = contents q := rfl

/-! ## Rendezvous helpers without a parked task -/

theorem priv_evq_putUpdate_nil (s : sys_t) (w : Nat) (hq : s.evq.queue = []) :
    priv_evq_putUpdate s w = priv_evq_put s w := by
  simp [priv_evq_putUpdate, core_one_wakeup, priv_evq_put, hq]

theorem priv_evq_getUpdate_nil (s : sys_t) (p : Nat) (hq : s.evq.queue = []) :
    priv_evq_getUpdate s p = priv_evq_get s p := by
  simp [priv_evq_getUpdate, core_one_wakeup, priv_evq_get, hq]

/-! ## Non-blocking calls -/

/-- C1: `evq_take` is non-blocking and fails atomically: on a queue with
`limit > 0` it returns `E_SUCCESS` exactly when `count > 0` at entry and
`E_TIMEOUT` otherwise, and when it returns `E_TIMEOUT` the whole state (buffer,
head, tail, count, limit, waiter queue, the caller's memory) is unchanged. -/
theorem evq_take_fails_atomically (s : sys_t) (data : Nat) (_hl : 0 < s.evq.limit) :
    ((evq_take s data).1 = E_SUCCESS ↔ 0 < s.evq.count) ∧
    (¬ 0 < s.evq.count → (evq_take s data).1 = E_TIMEOUT) ∧
    ((evq_take s data).1 = E_TIMEOUT → (evq_take s data).2 = s) := by
  unfold evq_take
  split <;> simp [*]

theorem evq_take_fails_atomically_witness :
    0 < ex_empty4.evq.limit ∧
    (((evq_take ex_empty4 7).1 = E_SUCCESS ↔ 0 < ex_empty4.evq.count) ∧
     (¬ 0 < ex_empty4.evq.count → (evq_take ex_empty4 7).1 = E_TIMEOUT) ∧
     ((evq_take ex_empty4 7).1 = E_TIMEOUT → (evq_take ex_empty4 7).2 = ex_empty4)) :=
  ⟨by decide, evq_take_fails_atomically ex_empty4 7 (by decide)⟩

/-- C2: `evq_give` is non-blocking and never overwrites: on a queue with
`limit > 0` it returns `E_SUCCESS` exactly when `count < limit` at entry and
`E_TIMEOUT` otherwise, and when it returns `E_TIMEOUT` the whole state is
unchanged: no buffered word, index, counter or waiter changes and no task is
woken. -/
theorem evq_give_never_overwrites (s : sys_t) (data : Nat) (_hl : 0 < s.evq.limit) :
    ((evq_give s data).1 = E_SUCCESS ↔ s.evq.count < s.evq.limit) ∧
    (¬ s.evq.count < s.evq.limit → (evq_give s data).1 = E_TIMEOUT) ∧
    ((evq_give s data).1 = E_TIMEOUT → (evq_give s data).2 = s) := by
  unfold evq_give
  split <;> simp [*]

theorem evq_give_never_overwrites_witness :
    0 < ex_full2.evq.limit ∧
    (((evq_give ex_full2 9).1 = E_SUCCESS ↔ ex_full2.evq.count < ex_full2.evq.limit) ∧
     (¬ ex_full2.evq.count < ex_full2.evq.limit → (evq_give ex_full2 9).1 = E_TIMEOUT) ∧
     ((evq_give ex_full2 9).1 = E_TIMEOUT → (evq_give ex_full2 9).2 = ex_full2)) :=
  ⟨by decide, evq_give_never_overwrites ex_full2 9 (by decide)⟩

/-! ## The ring buffer refines a list -/

/-- C3: the ring buffer refines a list FIFO: on a well-formed queue with no
parked task, a successful `evq_give` of `w` appends `w` to the contents, and a
successful `evq_take` stores the first element of the contents in the caller's
destination and leaves the contents without their first element. -/
theorem ring_refines_fifo (s : sys_t) (w x : Nat) (hw : wf s.evq) (hq : s.evq.queue = []) :
    ((evq_give s w).1 = E_SUCCESS →
      contents (evq_give s w).2.evq = contents s.evq ++ [w]) ∧
    ((evq_take s x).1 = E_SUCCESS →
      (contents s.evq).head? = some ((evq_take s x).2.mem x) ∧
      contents (evq_take s x).2.evq = (contents s.evq).tail) := by
  constructor
  · unfold evq_give
    split
    · next hc =>
      intro _
      rw [priv_evq_putUpdate_nil s w hq, priv_evq_put_wf s w hw hc]
      exact contents_put s.evq w hw hc
    · intro h; cases h
  · unfold evq_take
    split
    · next hc =>
      intro _
      rw [priv_evq_getUpdate_nil s x hq, priv_evq_get_wf s x hw hc]
      refine ⟨?_, contents_get s.evq hc⟩
      rw [contents_head s.evq hc hw.2.2.2.1]
      simp
    · intro h; cases h

theorem ring_refines_fifo_witness :
    wf ex_wrap4.evq ∧ ex_wrap4.evq.queue = [] ∧
    (((evq_give ex_wrap4 5).1 = E_SUCCESS →
      contents (evq_give ex_wrap4 5).2.evq = contents ex_wrap4.evq ++ [5]) ∧
    ((evq_take ex_wrap4 6).1 = E_SUCCESS →
      (contents ex_wrap4.evq).head? = some ((evq_take ex_wrap4 6).2.mem 6) ∧
      contents (evq_take ex_wrap4 6).2.evq = (contents ex_wrap4.evq).tail)) :=
  ⟨by decide, by decide, ring_refines_fifo ex_wrap4 5 6 (by decide) (by decide)⟩

/-! ## Rendezvous helpers with a parked task -/

theorem priv_evq_getUpdate_cons (s : sys_t) (p : Nat) (t : tsk_t) (rest : List tsk_t)
    (hw : wf s.evq) (hc : 0 < s.evq.count) (hq : s.evq.queue = t :: rest) :
    priv_evq_getUpdate s p =
      { s with
        mem := Function.update s.mem p (s.evq.data s.evq.head)
        writes := s.writes ++ [(p, s.evq.data s.evq.head)]
        woken := s.woken ++ [(t, E_SUCCESS)]
        evq := { s.evq with queue := rest
                            head := (s.evq.head + 1) % s.evq.limit
                            data := Function.update s.evq.data s.evq.tail t.tmp_out
                            tail := (s.evq.tail + 1) % s.evq.limit
                            count := s.evq.count - 1 + 1 } } := by
  have hw1 := wf_get s.evq hw hc
  unfold priv_evq_getUpdate
  rw [priv_evq_get_wf s p hw hc]
  simp only [core_one_wakeup, hq]
  rw [priv_evq_put_wf _ _ (wf_queue _ rest hw1) (by show s.evq.count - 1 < s.evq.limit; have := hw.2.2.1; omega)]

theorem priv_evq_putUpdate_cons (s : sys_t) (w : Nat) (t : tsk_t) (rest : List tsk_t)
    (hw : wf s.evq) (hc : s.evq.count < s.evq.limit) (hq : s.evq.queue = t :: rest) :
    priv_evq_putUpdate s w =
      { s with
        mem := Function.update s.mem t.tmp_in
                 (Function.update s.evq.data s.evq.tail w s.evq.head)
        writes := s.writes ++
                 [(t.tmp_in, Function.update s.evq.data s.evq.tail w s.evq.head)]
        woken := s.woken ++ [(t, E_SUCCESS)]
        evq := { s.evq with queue := rest
                            data := Function.update s.evq.data s.evq.tail w
                            tail := (s.evq.tail + 1) % s.evq.limit
                            head := (s.evq.head + 1) % s.evq.limit
                            count := s.evq.count + 1 - 1 } } := by
  have hw1 := wf_put s.evq w hw hc
  unfold priv_evq_putUpdate
  rw [priv_evq_put_wf s w hw hc]
  simp only [core_one_wakeup, hq]
  rw [priv_evq_get_wf _ _ (wf_queue _ rest hw1) (by show 0 < s.evq.count + 1; omega)]

/-! ## Rendezvous and backpressure -/

/-- C5: rendezvous on an empty queue: on a well-formed queue with `count = 0`
whose waiter queue is headed by a consumer `t` parked with destination
`t.tmp_in`, `evq_give` of `w` returns `E_SUCCESS`, wakes exactly `t` with
`E_SUCCESS`, stores `w` at the destination by exactly one write, and leaves
`count = 0` with `head = tail`; the other parked tasks stay parked. -/
theorem rendezvous_on_empty (s : sys_t) (w : Nat) (t : tsk_t) (rest : List tsk_t)
    (hw : wf s.evq) (hc : s.evq.count = 0) (hq : s.evq.queue = t :: rest) :
    (evq_give s w).1 = E_SUCCESS ∧
    (evq_give s w).2.woken = s.woken ++ [(t, E_SUCCESS)] ∧
    (evq_give s w).2.mem t.tmp_in = w ∧
    (evq_give s w).2.writes = s.writes ++ [(t.tmp_in, w)] ∧
    (evq_give s w).2.evq.count = 0 ∧
    (evq_give s w).2.evq.head = (evq_give s w).2.evq.tail ∧
    (evq_give s w).2.evq.queue = rest := by
  obtain ⟨h0, hL, hcl, hh, ht, htl⟩ := hw
  have hlt : s.evq.count < s.evq.limit := by omega
  have hth : s.evq.tail = s.evq.head := by
    rw [htl, hc, Nat.add_zero, Nat.mod_eq_of_lt hh]
  have e : evq_give s w = (E_SUCCESS, priv_evq_putUpdate s w) := by
    simp [evq_give, hlt]
  have hv : Function.update s.evq.data s.evq.tail w s.evq.head = w := by
    rw [hth]
    exact Function.update_same _ _ _
  rw [e, priv_evq_putUpdate_cons s w t rest ⟨h0, hL, hcl, hh, ht, htl⟩ hlt hq]
  refine ⟨rfl, rfl, ?_, ?_, ?_, ?_, rfl⟩
  · show Function.update s.mem t.tmp_in _ t.tmp_in = w
    rw [Function.update_same, hv]
  · show s.writes ++ [(t.tmp_in, _)] = s.writes ++ [(t.tmp_in, w)]
    rw [hv]
  · show s.evq.count + 1 - 1 = 0
    omega
  · show (s.evq.head + 1) % s.evq.limit = (s.evq.tail + 1) % s.evq.limit
    rw [hth]

theorem rendezvous_on_empty_witness :
    wf ex_rendezvous.evq ∧ ex_rendezvous.evq.count = 0 ∧
    ex_rendezvous.evq.queue =
      { id := 1, tmp_in := 100, tmp_out := 0 } :: [{ id := 2, tmp_in := 200, tmp_out := 0 }] ∧
    ((evq_give ex_rendezvous 3735928559).1 = E_SUCCESS ∧
     (evq_give ex_rendezvous 3735928559).2.woken =
       ex_rendezvous.woken ++ [({ id := 1, tmp_in := 100, tmp_out := 0 }, E_SUCCESS)] ∧
     (evq_give ex_rendezvous 3735928559).2.mem
       (tsk_t.mk 1 100 0).tmp_in = 3735928559 ∧
     (evq_give ex_rendezvous 3735928559).2.writes =
       ex_rendezvous.writes ++ [((tsk_t.mk 1 100 0).tmp_in, 3735928559)] ∧
     (evq_give ex_rendezvous 3735928559).2.evq.count = 0 ∧
     (evq_give ex_rendezvous 3735928559).2.evq.head =
       (evq_give ex_rendezvous 3735928559).2.evq.tail ∧
     (evq_give ex_rendezvous 3735928559).2.evq.queue =
       [{ id := 2, tmp_in := 200, tmp_out := 0 }]) :=
  ⟨by decide, by decide, by decide,
   rendezvous_on_empty ex_rendezvous 3735928559 (tsk_t.mk 1 100 0)
     [{ id := 2, tmp_in := 200, tmp_out := 0 }] (by decide) (by decide) (by decide)⟩

/-- A wait on an empty queue with a delay other than `IMMEDIATE` parks the
current task at the end of the waiter queue with the destination in its
`tmp_in`. -/
theorem evq_waitFor_parks (s : sys_t) (p delay : Nat) (hc : s.evq.count = 0)
    (hd : delay ≠ IMMEDIATE) :
    evq_waitFor s p delay =
      (none, { s with cur := { s.cur with tmp_in := p }
                      evq := { s.evq with
                               queue := s.evq.queue ++ [{ s.cur with tmp_in := p }] } }) := by
  simp [evq_waitFor, priv_evq_wait, core_tsk_waitFor, hc, hd]

/-- A send on a full queue with a delay other than `IMMEDIATE` parks the current
task at the end of the waiter queue with the word in its `tmp_out`. -/
theorem evq_sendFor_parks (s : sys_t) (w delay : Nat) (hc : s.evq.count = s.evq.limit)
    (hd : delay ≠ IMMEDIATE) :
    evq_sendFor s w delay =
      (none, { s with cur := { s.cur with tmp_out := w }
                      evq := { s.evq with
                               queue := s.evq.queue ++ [{ s.cur with tmp_out := w }] } }) := by
  simp [evq_sendFor, priv_evq_send, core_tsk_waitFor, hc, hd]

/-- The rendezvous scenario evaluated from `evq_init`: the wait parks, the give
returns `E_SUCCESS`, task 1 resumes with `E_SUCCESS`, the word `0xDEADBEEF` is
stored at its destination and `count` is 0 afterwards. -/
theorem rendezvous_scenario :
    (trace (evq_init ex_empty4 (fun _ => 0) 16) ex_rendezvous_ops).map Prod.snd =
      [none, none, some E_SUCCESS] ∧
    (run (evq_init ex_empty4 (fun _ => 0) 16) ex_rendezvous_ops).woken =
      [({ id := 1, tmp_in := 100, tmp_out := 0 }, E_SUCCESS)] ∧
    (run (evq_init ex_empty4 (fun _ => 0) 16) ex_rendezvous_ops).mem 100 = 3735928559 ∧
    (run (evq_init ex_empty4 (fun _ => 0) 16) ex_rendezvous_ops).evq.count = 0 ∧
    (run (evq_init ex_empty4 (fun _ => 0) 16) ex_rendezvous_ops).evq.queue = [] := by
  decide

/-- C6: producer backpressure: on a well-formed full queue whose waiter queue is
headed by a producer `t` parked with the word `t.tmp_out`, `evq_take` returns
`E_SUCCESS`, stores the oldest buffered word in the caller's destination, wakes
exactly `t` with `E_SUCCESS`, appends the parked word after all previously
buffered words and leaves `count = limit`: the contents become the old contents
without their first element followed by the parked word. -/
theorem producer_backpressure (s : sys_t) (x : Nat) (t : tsk_t) (rest : List tsk_t)
    (hw : wf s.evq) (hc : s.evq.count = s.evq.limit) (hq : s.evq.queue = t :: rest) :
    (evq_take s x).1 = E_SUCCESS ∧
    (contents s.evq).head? = some ((evq_take s x).2.mem x) ∧
    (evq_take s x).2.woken = s.woken ++ [(t, E_SUCCESS)] ∧
    contents (evq_take s x).2.evq = (contents s.evq).tail ++ [t.tmp_out] ∧
    (evq_take s x).2.evq.count = s.evq.limit ∧
    (evq_take s x).2.evq.queue = rest := by
  have hpos : 0 < s.evq.count := by have := hw.1; omega
  have hw1 := wf_get s.evq hw hpos
  have hlt1 : s.evq.count - 1 < s.evq.limit := by omega
  have e : evq_take s x = (E_SUCCESS, priv_evq_getUpdate s x) := by
    simp [evq_take, hpos]
  rw [e, priv_evq_getUpdate_cons s x t rest hw hpos hq]
  refine ⟨rfl, ?_, rfl, ?_, ?_, rfl⟩
  · rw [contents_head s.evq hpos hw.2.2.2.1]
    simp
  · have h := contents_put _ t.tmp_out (wf_queue _ rest hw1) hlt1
    rw [contents_queue, contents_get s.evq hpos] at h
    exact h
  · show s.evq.count - 1 + 1 = s.evq.limit
    omega

theorem producer_backpressure_witness :
    wf ex_backpressure.evq ∧ ex_backpressure.evq.count = ex_backpressure.evq.limit ∧
    ex_backpressure.evq.queue = { id := 1, tmp_in := 0, tmp_out := 3 } :: [] ∧
    ((evq_take ex_backpressure 50).1 = E_SUCCESS ∧
     (contents ex_backpressure.evq).head? = some ((evq_take ex_backpressure 50).2.mem 50) ∧
     (evq_take ex_backpressure 50).2.woken =
       ex_backpressure.woken ++ [({ id := 1, tmp_in := 0, tmp_out := 3 }, E_SUCCESS)] ∧
     contents (evq_take ex_backpressure 50).2.evq =
       (contents ex_backpressure.evq).tail ++ [(tsk_t.mk 1 0 3).tmp_out] ∧
     (evq_take ex_backpressure 50).2.evq.count = ex_backpressure.evq.limit ∧
     (evq_take ex_backpressure 50).2.evq.queue = []) :=
  ⟨by decide, by decide, by decide,
   producer_backpressure ex_backpressure 50 (tsk_t.mk 1 0 3) [] (by decide) (by decide)
     (by decide)⟩

/-- The backpressure scenario evaluated: limit 2, contents 1, 2, parked word 3;
the consumer receives 1 and the contents become 2, 3. -/
theorem backpressure_scenario :
    contents ex_backpressure.evq = [1, 2] ∧
    (evq_take ex_backpressure 50).2.mem 50 = 1 ∧
    contents (evq_take ex_backpressure 50).2.evq = [2, 3] := by
  decide


/-! ## The overwrite loop -/

theorem priv_evq_skipLoop_of_ne (n : Nat) (s : sys_t) (h : s.evq.count ≠ s.evq.limit) :
    priv_evq_skipLoop n s = s := by
  cases n <;> simp [priv_evq_skipLoop, h]

theorem dec_ne_self (L : Nat) : (UINT_MAX + L) % UINT_RANGE ≠ L := by
  unfold UINT_RANGE UINT_MAX
  omega

theorem priv_evq_skip_count_ne (s : sys_t) (h : s.evq.count = s.evq.limit) :
    (priv_evq_skip s).evq.count ≠ (priv_evq_skip s).evq.limit := by
  have e1 : (priv_evq_skip s).evq.count =
      (UINT_MAX + s.evq.count) % UINT_RANGE := rfl
  have e2 : (priv_evq_skip s).evq.limit = s.evq.limit := rfl
  rw [e1, e2, h]
  exact dec_ne_self _

/-- The loop of `priv_evq_skipUpdate` has left the loop condition false after
one more iteration than there are parked tasks: the function returns. -/
theorem priv_evq_skipLoop_exit (n : Nat) :
    ∀ s : sys_t, s.evq.queue.length + 1 ≤ n →
      (priv_evq_skipLoop n s).evq.count ≠ (priv_evq_skipLoop n s).evq.limit := by
  induction n with
  | zero => intro s h; omega
  | succ n ih =>
    intro s h
    by_cases hc : s.evq.count = s.evq.limit
    · cases hq : s.evq.queue with
      | nil =>
        have e : priv_evq_skipLoop (n + 1) s = priv_evq_skipLoop n (priv_evq_skip s) := by
          simp [priv_evq_skipLoop, hc, core_one_wakeup, priv_evq_skip, hq]
        rw [e, priv_evq_skipLoop_of_ne n _ (priv_evq_skip_count_ne s hc)]
        exact priv_evq_skip_count_ne s hc
      | cons t rest =>
        have e : priv_evq_skipLoop (n + 1) s =
            priv_evq_skipLoop n (priv_evq_put
              { priv_evq_skip s with
                evq := { (priv_evq_skip s).evq with queue := rest }
                woken := (priv_evq_skip s).woken ++ [(t, E_SUCCESS)] } t.tmp_out) := by
          simp [priv_evq_skipLoop, hc, core_one_wakeup, priv_evq_skip, hq]
        rw [e]
        apply ih
        show rest.length + 1 ≤ n
        rw [hq] at h
        simp at h
        omega
    · rw [priv_evq_skipLoop_of_ne _ s hc]
      exact hc

/-- More iterations than one more than the number of parked tasks change
nothing: the bounded loop is the `while` loop of the source. -/
theorem priv_evq_skipLoop_fuel (n : Nat) :
    ∀ s : sys_t, s.evq.queue.length + 1 ≤ n →
      priv_evq_skipLoop n s = priv_evq_skipUpdate s := by
  induction n with
  | zero => intro s h; omega
  | succ n ih =>
    intro s h
    unfold priv_evq_skipUpdate
    by_cases hc : s.evq.count = s.evq.limit
    · cases hq : s.evq.queue with
      | nil =>
        have e : ∀ m, priv_evq_skipLoop (m + 1) s = priv_evq_skipLoop m (priv_evq_skip s) := by
          intro m
          simp [priv_evq_skipLoop, hc, core_one_wakeup, priv_evq_skip, hq]
        rw [e, List.length_nil, e, priv_evq_skipLoop_of_ne n _ (priv_evq_skip_count_ne s hc),
          priv_evq_skipLoop_of_ne _ _ (priv_evq_skip_count_ne s hc)]
      | cons t rest =>
        have e : ∀ m, priv_evq_skipLoop (m + 1) s =
            priv_evq_skipLoop m (priv_evq_put
              { priv_evq_skip s with
                evq := { (priv_evq_skip s).evq with queue := rest }
                woken := (priv_evq_skip s).woken ++ [(t, E_SUCCESS)] } t.tmp_out) := by
          intro m
          simp [priv_evq_skipLoop, hc, core_one_wakeup, priv_evq_skip, hq]
        rw [hq] at h
        simp at h
        rw [e, List.length_cons, e, ih _ (by show rest.length + 1 ≤ n; omega)]
        unfold priv_evq_skipUpdate
        rfl
    · rw [priv_evq_skipLoop_of_ne _ s hc, priv_evq_skipLoop_of_ne _ s hc]

theorem priv_evq_skipUpdate_full_nil (s : sys_t) (hw : wf s.evq)
    (hc : s.evq.count = s.evq.limit) (hq : s.evq.queue = []) :
    priv_evq_skipUpdate s =
      { s with
        evq := { s.evq with count := s.evq.count - 1
                            head := (s.evq.head + 1) % s.evq.limit } } := by
  have hpos : 0 < s.evq.count := by have := hw.1; omega
  have e : priv_evq_skipUpdate s = priv_evq_skipLoop 0 (priv_evq_skip s) := by
    simp [priv_evq_skipUpdate, priv_evq_skipLoop, hc, core_one_wakeup, priv_evq_skip, hq]
  rw [e, priv_evq_skip_wf s hw hpos]
  rfl

/-- C7: overwrite on a full queue: on a well-formed queue with `count = limit`
and no parked task, `evq_push` of `w` drops exactly the oldest word and appends
`w` (the contents become the old contents without their first element followed
by `w`), `count` stays equal to `limit`, and no task is woken. -/
theorem push_overwrites_oldest (s : sys_t) (w : Nat)
    (hw : wf s.evq) (hc : s.evq.count = s.evq.limit) (hq : s.evq.queue = []) :
    contents (evq_push s w).evq = (contents s.evq).tail ++ [w] ∧
    (evq_push s w).evq.count = s.evq.limit ∧
    (evq_push s w).woken = s.woken ∧
    (evq_push s w).evq.queue = [] := by
  have hpos : 0 < s.evq.count := by have := hw.1; omega
  have hw1 := wf_get s.evq hw hpos
  have hlt1 : s.evq.count - 1 < s.evq.limit := by omega
  unfold evq_push
  rw [priv_evq_skipUpdate_full_nil s hw hc hq, priv_evq_putUpdate_nil, priv_evq_put_wf]
  · refine ⟨?_, ?_, rfl, hq⟩
    · have h := contents_put _ w hw1 hlt1
      rw [contents_get s.evq hpos] at h
      exact h
    · show s.evq.count - 1 + 1 = s.evq.limit
      omega
  · exact hw1
  · exact hlt1
  · exact hq

theorem push_overwrites_oldest_witness :
    wf ex_overwrite.evq ∧ ex_overwrite.evq.count = ex_overwrite.evq.limit ∧
    ex_overwrite.evq.queue = [] ∧
    (contents (evq_push ex_overwrite 13).evq = (contents ex_overwrite.evq).tail ++ [13] ∧
     (evq_push ex_overwrite 13).evq.count = ex_overwrite.evq.limit ∧
     (evq_push ex_overwrite 13).woken = ex_overwrite.woken ∧
     (evq_push ex_overwrite 13).evq.queue = []) :=
  ⟨by decide, by decide, by decide,
   push_overwrites_oldest ex_overwrite 13 (by decide) (by decide) (by decide)⟩

/-- The overwrite scenario evaluated: limit 3, contents 10, 11, 12; after the
push of 13 the contents are 11, 12, 13. -/
theorem overwrite_scenario :
    contents ex_overwrite.evq = [10, 11, 12] ∧
    contents (evq_push ex_overwrite 13).evq = [11, 12, 13] ∧
    (evq_push ex_overwrite 13).woken = [] := by
  decide

/-! ## Deleting the queue -/

/-- C8 as stated fails: on the queue with three parked consumers `evq_delete`
does not resume the parked tasks with `E_DELETED`; each of the three tasks
resumes with `E_STOPPED`, the event of `evq_kill`. -/
theorem evq_delete_not_deleted :
    (evq_delete ex_three_parked).woken ≠
      ex_three_parked.woken ++
        ex_three_parked.evq.queue.map (fun tsk => (tsk, E_DELETED)) ∧
    (evq_delete ex_three_parked).woken =
      [({ id := 1, tmp_in := 100, tmp_out := 0 }, E_STOPPED),
       ({ id := 2, tmp_in := 200, tmp_out := 0 }, E_STOPPED),
       ({ id := 3, tmp_in := 300, tmp_out := 0 }, E_STOPPED)] := by
  decide

/-- C8, amended: `evq_delete` wakes every parked task, in waiter-queue order, with
the event of `evq_kill`, which is `E_STOPPED`, and leaves the waiter queue
empty. -/
theorem evq_delete_wakes_stopped (s : sys_t) :
    (evq_delete s).woken = s.woken ++ s.evq.queue.map (fun tsk => (tsk, E_STOPPED)) ∧
    (evq_delete s).evq.queue = [] := by
  unfold evq_delete sys_free
  simp only []
  split <;> exact ⟨rfl, rfl⟩

/-- The delete scenario evaluated: the three parked consumers resume in
waiter-queue order, the waiter queue is empty and the storage is released
once. -/
theorem delete_scenario :
    (evq_delete ex_three_parked).woken.map (fun x => x.1.id) = [1, 2, 3] ∧
    (evq_delete ex_three_parked).evq.queue = [] ∧
    (evq_delete ex_three_parked).freed = [4096] := by
  decide

/-! ## The invariant of the reachable states -/

theorem inv_get (s : sys_t) (p : Nat) (hi : Inv s) (hc : 0 < s.evq.count) :
    Inv (priv_evq_get s p) ∧ (priv_evq_get s p).evq.count = s.evq.count - 1 ∧
    (priv_evq_get s p).evq.limit = s.evq.limit ∧
    (priv_evq_get s p).evq.queue = s.evq.queue := by
  rw [priv_evq_get_wf s p hi.1 hc]
  exact ⟨⟨wf_get s.evq hi.1 hc, hi.2⟩, rfl, rfl, rfl⟩

theorem inv_put (s : sys_t) (w : Nat) (hi : Inv s) (hc : s.evq.count < s.evq.limit) :
    Inv (priv_evq_put s w) ∧ (priv_evq_put s w).evq.count = s.evq.count + 1 ∧
    (priv_evq_put s w).evq.limit = s.evq.limit ∧
    (priv_evq_put s w).evq.queue = s.evq.queue := by
  rw [priv_evq_put_wf s w hi.1 hc]
  exact ⟨⟨wf_put s.evq w hi.1 hc, hi.2⟩, rfl, rfl, rfl⟩

theorem inv_skip (s : sys_t) (hi : Inv s) (hc : 0 < s.evq.count) :
    Inv (priv_evq_skip s) ∧ (priv_evq_skip s).evq.count = s.evq.count - 1 ∧
    (priv_evq_skip s).evq.limit = s.evq.limit ∧
    (priv_evq_skip s).evq.queue = s.evq.queue := by
  rw [priv_evq_skip_wf s hi.1 hc]
  exact ⟨⟨wf_get s.evq hi.1 hc, hi.2⟩, rfl, rfl, rfl⟩

theorem inv_one_wakeup (s : sys_t) (e : event_t) (hi : Inv s) :
    Inv (core_one_wakeup s e).2 ∧ (core_one_wakeup s e).2.evq.count = s.evq.count ∧
    (core_one_wakeup s e).2.evq.limit = s.evq.limit ∧
    (core_one_wakeup s e).2.evq.queue = s.evq.queue.tail := by
  unfold core_one_wakeup
  split
  · next h => exact ⟨hi, rfl, rfl, by rw [h]; rfl⟩
  · next t rest h => exact ⟨hi, rfl, rfl, by rw [h]; rfl⟩

theorem inv_getUpdate (s : sys_t) (p : Nat) (hi : Inv s) (hc : 0 < s.evq.count) :
    Inv (priv_evq_getUpdate s p) := by
  obtain ⟨h1, c1, l1, _⟩ := inv_get s p hi hc
  obtain ⟨h2, c2, l2, _⟩ := inv_one_wakeup (priv_evq_get s p) E_SUCCESS h1
  have hcl := hi.1.2.2.1
  unfold priv_evq_getUpdate
  simp only []
  split
  · next tsk s2 heq =>
    have e2 : s2 = (core_one_wakeup (priv_evq_get s p) E_SUCCESS).2 := by rw [heq]
    subst e2
    exact (inv_put _ _ h2 (by rw [c2, l2, c1, l1]; omega)).1
  · next s2 heq =>
    have e2 : s2 = (core_one_wakeup (priv_evq_get s p) E_SUCCESS).2 := by rw [heq]
    subst e2
    exact h2

theorem inv_putUpdate (s : sys_t) (w : Nat) (hi : Inv s) (hc : s.evq.count < s.evq.limit) :
    Inv (priv_evq_putUpdate s w) := by
  obtain ⟨h1, c1, l1, _⟩ := inv_put s w hi hc
  obtain ⟨h2, c2, l2, _⟩ := inv_one_wakeup (priv_evq_put s w) E_SUCCESS h1
  unfold priv_evq_putUpdate
  simp only []
  split
  · next tsk s2 heq =>
    have e2 : s2 = (core_one_wakeup (priv_evq_put s w) E_SUCCESS).2 := by rw [heq]
    subst e2
    exact (inv_get _ _ h2 (by rw [c2, c1]; omega)).1
  · next s2 heq =>
    have e2 : s2 = (core_one_wakeup (priv_evq_put s w) E_SUCCESS).2 := by rw [heq]
    subst e2
    exact h2

theorem inv_skipLoop (n : Nat) : ∀ s : sys_t, Inv s → Inv (priv_evq_skipLoop n s) := by
  induction n with
  | zero => intro s hi; exact hi
  | succ n ih =>
    intro s hi
    by_cases hc : s.evq.count = s.evq.limit
    · have hpos : 0 < s.evq.count := by have := hi.1.1; omega
      obtain ⟨h1, c1, l1, _⟩ := inv_skip s hi hpos
      obtain ⟨h2, c2, l2, _⟩ := inv_one_wakeup (priv_evq_skip s) E_SUCCESS h1
      unfold priv_evq_skipLoop
      simp only [hc, if_true]
      split
      · next tsk s2 heq =>
        have e2 : s2 = (core_one_wakeup (priv_evq_skip s) E_SUCCESS).2 := by rw [heq]
        subst e2
        exact ih _ (inv_put _ _ h2 (by rw [c2, l2, c1, l1]; omega)).1
      · next s2 heq =>
        have e2 : s2 = (core_one_wakeup (priv_evq_skip s) E_SUCCESS).2 := by rw [heq]
        subst e2
        exact ih _ h2
    · rw [priv_evq_skipLoop_of_ne _ s hc]
      exact hi

theorem inv_push (s : sys_t) (w : Nat) (hi : Inv s) : Inv (evq_push s w) := by
  have h1 : Inv (priv_evq_skipUpdate s) := inv_skipLoop _ s hi
  have hne := priv_evq_skipLoop_exit (s.evq.queue.length + 1) s (Nat.le_refl _)
  have hcl := h1.1.2.2.1
  exact inv_putUpdate _ w h1 (by
    show (priv_evq_skipLoop (s.evq.queue.length + 1) s).evq.count <
      (priv_evq_skipLoop (s.evq.queue.length + 1) s).evq.limit
    have hcl2 : (priv_evq_skipLoop (s.evq.queue.length + 1) s).evq.count ≤
      (priv_evq_skipLoop (s.evq.queue.length + 1) s).evq.limit := hcl
    omega)

theorem inv_kill (s : sys_t) (hi : Inv s) : Inv (evq_kill s) := by
  obtain ⟨⟨h0, hL, _, _, _, _⟩, hf⟩ := hi
  refine ⟨⟨h0, hL, Nat.zero_le _, h0, h0, ?_⟩, hf⟩
  show 0 = (0 + 0) % s.evq.limit
  simp

theorem inv_timeout (s : sys_t) (i : Nat) (hi : Inv s) : Inv (core_tmr_timeout s i) := by
  unfold core_tmr_timeout
  split
  · exact hi
  · exact hi

theorem inv_waitFor (s : sys_t) (delay : Nat) (hi : Inv s) :
    Inv (core_tsk_waitFor s delay).2 := by
  unfold core_tsk_waitFor
  split
  · exact hi
  · exact hi

theorem inv_waitUntil (s : sys_t) (time : Nat) (hi : Inv s) :
    Inv (core_tsk_waitUntil s time).2 := hi

theorem inv_step (s : sys_t) (op : op_t) (hi : Inv s) : Inv (step s op).2 := by
  cases op with
  | give data =>
    show Inv (evq_give s data).2
    unfold evq_give
    split
    · next hc => exact inv_putUpdate s data hi hc
    · exact hi
  | take data =>
    show Inv (evq_take s data).2
    unfold evq_take
    split
    · next hc => exact inv_getUpdate s data hi hc
    · exact hi
  | waitFor data delay =>
    show Inv (priv_evq_wait s data delay core_tsk_waitFor).2
    unfold priv_evq_wait
    split
    · next hc => exact inv_getUpdate s data hi hc
    · exact inv_waitFor _ delay hi
  | waitUntil data time =>
    show Inv (priv_evq_wait s data time core_tsk_waitUntil).2
    unfold priv_evq_wait
    split
    · next hc => exact inv_getUpdate s data hi hc
    · exact inv_waitUntil _ time hi
  | sendFor data delay =>
    show Inv (priv_evq_send s data delay core_tsk_waitFor).2
    unfold priv_evq_send
    split
    · next hc => exact inv_putUpdate s data hi hc
    · exact inv_waitFor _ delay hi
  | sendUntil data time =>
    show Inv (priv_evq_send s data time core_tsk_waitUntil).2
    unfold priv_evq_send
    split
    · next hc => exact inv_putUpdate s data hi hc
    · exact inv_waitUntil _ time hi
  | push data => exact inv_push s data hi
  | kill => exact inv_kill s hi
  | timeout i => exact inv_timeout s i hi
  | switch tsk => exact hi

theorem inv_run (ops : List op_t) : ∀ s : sys_t, Inv s → Inv (run s ops) := by
  induction ops with
  | nil => intro s hi; exact hi
  | cons op ops ih => intro s hi; exact ih _ (inv_step s op hi)

theorem inv_init (s0 : sys_t) (data : Nat → Nat) (bufsize : Nat)
    (hf : s0.fault = false) (hb : bufsize < UINT_RANGE)
    (hl : 0 < bufsize / SIZEOF_UNSIGNED) : Inv (evq_init s0 data bufsize) := by
  refine ⟨⟨hl, ?_, Nat.zero_le _, hl, hl, ?_⟩, hf⟩
  · show bufsize / SIZEOF_UNSIGNED < UINT_RANGE
    exact Nat.lt_of_le_of_lt (Nat.div_le_self _ _) hb
  · show 0 = (0 + 0) % (bufsize / SIZEOF_UNSIGNED)
    simp

theorem inv_reachable (s : sys_t) (h : Reachable s) : Inv s := by
  obtain ⟨s0, data, bufsize, ops, hf, hb, hl, rfl⟩ := h
  exact inv_run ops _ (inv_init s0 data bufsize hf hb hl)

/-! ## Index relations in the reachable states -/

theorem wf_index_relation (q : evq_t) (hw : wf q) :
    ((q.tail : Int) - q.head) % q.limit = (q.count : Int) % q.limit := by
  obtain ⟨h0, hL, hcl, hh, ht, htl⟩ := hw
  have hdm := Nat.div_add_mod (q.head + q.count) q.limit
  rw [← htl] at hdm
  have hz : ((q.limit : Int) * ((q.head + q.count) / q.limit : Nat) + q.tail) =
      (q.head : Int) + q.count := by exact_mod_cast hdm
  have e : (q.tail : Int) - q.head =
      q.count + (q.limit : Int) * (-(((q.head + q.count) / q.limit : Nat) : Int)) := by
    linarith
  rw [e, Int.add_mul_emod_self_left]

/-- C9 as stated in the specification fails on a full queue: after `evq_init`
with a buffer of one word and one `evq_give` the state is reachable, `count` is 1
and `head = tail = 0`, so that `count` differs from `(tail - head) mod limit`,
which is 0. -/
theorem count_relation_fails_on_full :
    Reachable ex_full1 ∧
    ex_full1.evq.count = 1 ∧ ex_full1.evq.limit = 1 ∧
    ex_full1.evq.head = 0 ∧ ex_full1.evq.tail = 0 ∧
    (ex_full1.evq.count : Int) ≠
      ((ex_full1.evq.tail : Int) - ex_full1.evq.head) % ex_full1.evq.limit :=
  ⟨⟨ex_empty4, fun _ => 0, 4, [op_t.give 7], rfl, by decide, by decide, rfl⟩,
   by decide, by decide, by decide, by decide, by decide⟩

/-- C9, amended: in every state reachable from `evq_init` with `limit > 0`,
`(tail - head) mod limit` equals `count mod limit`; hence `count` equals
`(tail - head) mod limit` whenever the queue is not full, and on a full queue
(`count = limit`) the two indices coincide. -/
theorem index_count_relation (s : sys_t) (h : Reachable s) :
    ((s.evq.tail : Int) - s.evq.head) % s.evq.limit = (s.evq.count : Int) % s.evq.limit ∧
    (s.evq.count < s.evq.limit →
      (s.evq.count : Int) = ((s.evq.tail : Int) - s.evq.head) % s.evq.limit) ∧
    (s.evq.count = s.evq.limit → s.evq.head = s.evq.tail) := by
  have hw := (inv_reachable s h).1
  have h1 := wf_index_relation s.evq hw
  obtain ⟨h0, hL, hcl, hh, ht, htl⟩ := hw
  refine ⟨h1, ?_, ?_⟩
  · intro hc
    rw [h1]
    exact (Int.emod_eq_of_lt (Int.natCast_nonneg _) (by exact_mod_cast hc)).symm
  · intro hc
    rw [htl, hc, Nat.add_mod_right, Nat.mod_eq_of_lt hh]

theorem index_count_relation_witness :
    Reachable ex_reached ∧
    (((ex_reached.evq.tail : Int) - ex_reached.evq.head) % ex_reached.evq.limit =
        (ex_reached.evq.count : Int) % ex_reached.evq.limit ∧
     (ex_reached.evq.count < ex_reached.evq.limit →
        (ex_reached.evq.count : Int) =
          ((ex_reached.evq.tail : Int) - ex_reached.evq.head) % ex_reached.evq.limit) ∧
     (ex_reached.evq.count = ex_reached.evq.limit →
        ex_reached.evq.head = ex_reached.evq.tail)) :=
  ⟨⟨ex_empty4, fun _ => 0, 8, _, rfl, by decide, by decide, rfl⟩,
   index_count_relation ex_reached
     ⟨ex_empty4, fun _ => 0, 8, _, rfl, by decide, by decide, rfl⟩⟩

/-- C10: bounds invariant and index safety: in every state reachable from
`evq_init` with `limit > 0` by any sequence of public operations, wake-ups and
timeouts of parked tasks, `count <= limit`, `head < limit` and `tail < limit`,
and no fault has been recorded: no call of `priv_evq_get` or `priv_evq_skip` has
found `count = 0`, no call of `priv_evq_put` has found `count >= limit`, and no
call has indexed the buffer at or beyond `limit`. -/
theorem bounds_invariant (s : sys_t) (h : Reachable s) :
    s.evq.count ≤ s.evq.limit ∧ s.evq.head < s.evq.limit ∧ s.evq.tail < s.evq.limit ∧
    s.fault = false := by
  obtain ⟨⟨_, _, hcl, hh, ht, _⟩, hf⟩ := inv_reachable s h
  exact ⟨hcl, hh, ht, hf⟩

theorem bounds_invariant_witness :
    Reachable ex_reached ∧
    (ex_reached.evq.count ≤ ex_reached.evq.limit ∧
     ex_reached.evq.head < ex_reached.evq.limit ∧
     ex_reached.evq.tail < ex_reached.evq.limit ∧ ex_reached.fault = false) :=
  ⟨⟨ex_empty4, fun _ => 0, 8, _, rfl, by decide, by decide, rfl⟩,
   bounds_invariant ex_reached
     ⟨ex_empty4, fun _ => 0, 8, _, rfl, by decide, by decide, rfl⟩⟩

/-! ## Strict FIFO order -/

theorem contents_of_count_zero (q : evq_t) (h : q.count = 0) : contents q = [] := by
  simp [contents, h]

theorem fifo_same (s s1 : sys_t) (he : s1.evq = s.evq) (hwr : s1.writes = s.writes)
    (hw : wf s.evq) (hx : excl s.evq) : FifoStep s s1 [] [] := by
  refine ⟨[], ?_, ?_, ?_, ?_, ?_⟩
  · simp [hwr]
  · simp [he]
  · simp [he]
  · rw [he]; exact hw
  · rw [he]; exact hx

theorem fifo_putUpdate (s : sys_t) (w : Nat) (hw : wf s.evq) (hx : excl s.evq)
    (hc : s.evq.count < s.evq.limit) : FifoStep s (priv_evq_putUpdate s w) [] [w] := by
  have hw' := hw
  obtain ⟨h0, hL, hcl, hh, ht, htl⟩ := hw
  cases hq : s.evq.queue with
  | nil =>
    rw [priv_evq_putUpdate_nil s w hq, priv_evq_put_wf s w hw' hc]
    refine ⟨[], ?_, ?_, ?_, wf_put s.evq w hw' hc, ?_⟩
    · simp
    · simp [pending_dests, hq]
    · have hc1 := contents_put s.evq w hw' hc
      simp only [List.map_nil, List.nil_append]
      rw [hc1]
      simp [pending_words, hq]
    · intro hne
      exact absurd hq hne
  | cons t rest =>
    have hc0 : s.evq.count = 0 := by
      rcases hx (by rw [hq]; simp) with h | h
      · exact h
      · omega
    have hth : s.evq.tail = s.evq.head := by
      rw [htl, hc0, Nat.add_zero, Nat.mod_eq_of_lt hh]
    have hv : Function.update s.evq.data s.evq.tail w s.evq.head = w := by
      rw [hth]
      exact Function.update_same _ _ _
    have hne : ¬ (0 = s.evq.limit) := by omega
    rw [priv_evq_putUpdate_cons s w t rest hw' hc hq]
    refine ⟨[(t.tmp_in, w)], ?_, ?_, ?_, ?_, ?_⟩
    · show s.writes ++ [(t.tmp_in, _)] = s.writes ++ [(t.tmp_in, w)]
      rw [hv]
    · simp [pending_dests, hq, hc0]
    · simp [pending_words, hq, hc0, hne, contents]
    · have h1 := wf_get _ (wf_queue _ rest (wf_put s.evq w hw' hc)) (by show 0 < s.evq.count + 1; omega)
      exact h1
    · intro _
      left
      show s.evq.count + 1 - 1 = 0
      omega

theorem fifo_getUpdate (s : sys_t) (p : Nat) (hw : wf s.evq) (hx : excl s.evq)
    (hc : 0 < s.evq.count) : FifoStep s (priv_evq_getUpdate s p) [p] [] := by
  have hw' := hw
  obtain ⟨h0, hL, hcl, hh, ht, htl⟩ := hw
  have hne0 : ¬ (s.evq.count = 0) := by omega
  have hcons := contents_eq_cons s.evq hc hh
  cases hq : s.evq.queue with
  | nil =>
    rw [priv_evq_getUpdate_nil s p hq, priv_evq_get_wf s p hw' hc]
    refine ⟨[(p, s.evq.data s.evq.head)], rfl, ?_, ?_, wf_get s.evq hw' hc, ?_⟩
    · simp [pending_dests, hq]
    · have hc1 := contents_get s.evq hc
      simp only [List.map_cons, List.map_nil, List.append_nil]
      rw [hc1]
      simp [pending_words, hq]
      exact hcons
    · intro hne
      exact absurd hq hne
  | cons t rest =>
    have hcl1 : s.evq.count = s.evq.limit := by
      rcases hx (by rw [hq]; simp) with h | h
      · omega
      · exact h
    have hlt1 : s.evq.count - 1 < s.evq.limit := by omega
    have hw1 := wf_get s.evq hw' hc
    have hfull : s.evq.count - 1 + 1 = s.evq.limit := by omega
    rw [priv_evq_getUpdate_cons s p t rest hw' hc hq]
    refine ⟨[(p, s.evq.data s.evq.head)], rfl, ?_, ?_, ?_, ?_⟩
    · have hnz : ¬ (s.evq.count - 1 + 1 = 0) := by omega
      simp [pending_dests, hne0, hnz]
    · have h := contents_put _ t.tmp_out (wf_queue _ rest hw1) hlt1
      rw [contents_queue, contents_get s.evq hc] at h
      simp only [List.map_cons, List.map_nil, List.append_nil]
      rw [h]
      simp only [pending_words, hq]
      rw [if_pos hcl1, if_pos hfull]
      nth_rewrite 1 [hcons]
      simp
    · exact wf_put _ t.tmp_out (wf_queue _ rest hw1) hlt1
    · intro _
      right
      exact hfull

theorem fifo_park_in (s : sys_t) (p time : Nat) (hw : wf s.evq)
    (hc : ¬ 0 < s.evq.count) :
    FifoStep s (core_tsk_waitUntil { s with cur := { s.cur with tmp_in := p } } time).2
      [p] [] := by
  have hc0 : s.evq.count = 0 := by omega
  have hne : ¬ (0 = s.evq.limit) := by have := hw.1; omega
  refine ⟨[], ?_, ?_, ?_, hw, ?_⟩
  · simp [core_tsk_waitUntil]
  · simp [core_tsk_waitUntil, pending_dests, hc0]
  · simp [core_tsk_waitUntil, pending_words, hc0, hne, contents]
  · intro _
    left
    exact hc0

theorem fifo_park_out (s : sys_t) (w time : Nat) (hw : wf s.evq)
    (hc : ¬ s.evq.count < s.evq.limit) :
    FifoStep s (core_tsk_waitUntil { s with cur := { s.cur with tmp_out := w } } time).2
      [] [w] := by
  have hcl : s.evq.count = s.evq.limit := by have := hw.2.2.1; omega
  have hne : ¬ (s.evq.limit = 0) := by have := hw.1; omega
  refine ⟨[], ?_, ?_, ?_, hw, ?_⟩
  · simp [core_tsk_waitUntil]
  · simp [core_tsk_waitUntil, pending_dests, hcl, hne]
  · simp [core_tsk_waitUntil, pending_words, hcl, contents]
  · intro _
    right
    exact hcl

theorem core_tsk_waitFor_cases (s : sys_t) (delay : Nat) :
    core_tsk_waitFor s delay = (some E_TIMEOUT, s) ∨
    core_tsk_waitFor s delay = core_tsk_waitUntil s delay ∧
      (core_tsk_waitFor s delay).1 = none := by
  unfold core_tsk_waitFor core_tsk_waitUntil
  split
  · left; rfl
  · right; exact ⟨rfl, rfl⟩

theorem fifo_step (s : sys_t) (op : op_t) (hw : wf s.evq) (hx : excl s.evq)
    (hop : fifo_op op = true) :
    FifoStep s (step s op).2 (requested op (step s op).1) (produced op (step s op).1) := by
  cases op with
  | give data =>
    by_cases hc : s.evq.count < s.evq.limit
    · have e : step s (op_t.give data) = (some E_SUCCESS, priv_evq_putUpdate s data) := by
        simp [step, evq_give, hc]
      rw [e]
      exact fifo_putUpdate s data hw hx hc
    · have e : step s (op_t.give data) = (some E_TIMEOUT, s) := by
        simp [step, evq_give, hc]
      rw [e]
      exact fifo_same s s rfl rfl hw hx
  | take data =>
    by_cases hc : 0 < s.evq.count
    · have e : step s (op_t.take data) = (some E_SUCCESS, priv_evq_getUpdate s data) := by
        simp [step, evq_take, hc]
      rw [e]
      exact fifo_getUpdate s data hw hx hc
    · have e : step s (op_t.take data) = (some E_TIMEOUT, s) := by
        simp [step, evq_take, hc]
      rw [e]
      exact fifo_same s s rfl rfl hw hx
  | waitFor data delay =>
    by_cases hc : 0 < s.evq.count
    · have e : step s (op_t.waitFor data delay) =
          (some E_SUCCESS, priv_evq_getUpdate s data) := by
        simp [step, evq_waitFor, priv_evq_wait, hc]
      rw [e]
      exact fifo_getUpdate s data hw hx hc
    · have e : step s (op_t.waitFor data delay) =
          core_tsk_waitFor { s with cur := { s.cur with tmp_in := data } } delay := by
        simp [step, evq_waitFor, priv_evq_wait, hc]
      rw [e]
      rcases core_tsk_waitFor_cases { s with cur := { s.cur with tmp_in := data } } delay
        with h | ⟨h1, h2⟩
      · rw [h]
        exact fifo_same s _ rfl rfl hw hx
      · rw [h2, h1]
        exact fifo_park_in s data delay hw hc
  | waitUntil data time =>
    by_cases hc : 0 < s.evq.count
    · have e : step s (op_t.waitUntil data time) =
          (some E_SUCCESS, priv_evq_getUpdate s data) := by
        simp [step, evq_waitUntil, priv_evq_wait, hc]
      rw [e]
      exact fifo_getUpdate s data hw hx hc
    · have e : step s (op_t.waitUntil data time) =
          core_tsk_waitUntil { s with cur := { s.cur with tmp_in := data } } time := by
        simp [step, evq_waitUntil, priv_evq_wait, hc]
      rw [e]
      exact fifo_park_in s data time hw hc
  | sendFor data delay =>
    by_cases hc : s.evq.count < s.evq.limit
    · have e : step s (op_t.sendFor data delay) =
          (some E_SUCCESS, priv_evq_putUpdate s data) := by
        simp [step, evq_sendFor, priv_evq_send, hc]
      rw [e]
      exact fifo_putUpdate s data hw hx hc
    · have e : step s (op_t.sendFor data delay) =
          core_tsk_waitFor { s with cur := { s.cur with tmp_out := data } } delay := by
        simp [step, evq_sendFor, priv_evq_send, hc]
      rw [e]
      rcases core_tsk_waitFor_cases { s with cur := { s.cur with tmp_out := data } } delay
        with h | ⟨h1, h2⟩
      · rw [h]
        exact fifo_same s _ rfl rfl hw hx
      · rw [h2, h1]
        exact fifo_park_out s data delay hw hc
  | sendUntil data time =>
    by_cases hc : s.evq.count < s.evq.limit
    · have e : step s (op_t.sendUntil data time) =
          (some E_SUCCESS, priv_evq_putUpdate s data) := by
        simp [step, evq_sendUntil, priv_evq_send, hc]
      rw [e]
      exact fifo_putUpdate s data hw hx hc
    · have e : step s (op_t.sendUntil data time) =
          core_tsk_waitUntil { s with cur := { s.cur with tmp_out := data } } time := by
        simp [step, evq_sendUntil, priv_evq_send, hc]
      rw [e]
      exact fifo_park_out s data time hw hc
  | push data => simp [fifo_op] at hop
  | kill => simp [fifo_op] at hop
  | timeout i => simp [fifo_op] at hop
  | switch tsk => exact fifo_same s _ rfl rfl hw hx

theorem fifo_trans (s s1 s2 : sys_t) (r1 p1 r2 p2 : List Nat)
    (h1 : FifoStep s s1 r1 p1) (h2 : FifoStep s1 s2 r2 p2) :
    FifoStep s s2 (r1 ++ r2) (p1 ++ p2) := by
  obtain ⟨E1, hw1, hd1, hs1, _, _⟩ := h1
  obtain ⟨E2, hw2, hd2, hs2, hwf, hex⟩ := h2
  refine ⟨E1 ++ E2, ?_, ?_, ?_, hwf, hex⟩
  · rw [hw2, hw1, List.append_assoc]
  · rw [← List.append_assoc, hd1, List.append_assoc, hd2, List.map_append,
      List.append_assoc]
  · rw [← List.append_assoc, hs1]
    have e : E1.map Prod.snd ++ contents s1.evq ++ pending_words s1.evq ++ p2 =
        E1.map Prod.snd ++ (contents s1.evq ++ pending_words s1.evq ++ p2) := by
      simp only [List.append_assoc]
    rw [e, hs2, List.map_append]
    simp only [List.append_assoc]

theorem fifo_run (ops : List op_t) :
    ∀ s : sys_t, wf s.evq → excl s.evq → (∀ op ∈ ops, fifo_op op = true) →
      FifoStep s (run s ops) (asked_dests (trace s ops)) (sent_words (trace s ops)) := by
  induction ops with
  | nil =>
    intro s hw hx _
    exact fifo_same s s rfl rfl hw hx
  | cons op ops ih =>
    intro s hw hx hops
    have h1 := fifo_step s op hw hx (hops op (List.mem_cons_self _ _))
    obtain ⟨_, _, _, _, hw1, hx1⟩ := id h1
    have h2 := ih (step s op).2 hw1 hx1 (fun o ho => hops o (List.mem_cons_of_mem _ ho))
    exact fifo_trans _ _ _ _ _ _ _ h1 h2

theorem zip_fst_snd (D : List (Nat × Nat)) (X Y : List Nat) :
    D = ((D.map Prod.fst ++ X).zip (D.map Prod.snd ++ Y)).take D.length := by
  induction D with
  | nil => simp
  | cons d D ih =>
    simp only [List.map_cons, List.cons_append, List.zip_cons_cons, List.length_cons,
      List.take_succ_cons]
    rw [← ih]

theorem woken_putUpdate (s : sys_t) (w : Nat) :
    ∃ W : List (tsk_t × event_t), (priv_evq_putUpdate s w).woken = s.woken ++ W ∧
      ∀ x ∈ W, x.2 = E_SUCCESS := by
  cases hq : s.evq.queue with
  | nil =>
    refine ⟨[], ?_, by simp⟩
    simp [priv_evq_putUpdate, core_one_wakeup, priv_evq_put, hq]
  | cons t rest =>
    refine ⟨[(t, E_SUCCESS)], ?_, by simp⟩
    simp [priv_evq_putUpdate, core_one_wakeup, priv_evq_put, priv_evq_get, hq]

theorem woken_getUpdate (s : sys_t) (p : Nat) :
    ∃ W : List (tsk_t × event_t), (priv_evq_getUpdate s p).woken = s.woken ++ W ∧
      ∀ x ∈ W, x.2 = E_SUCCESS := by
  cases hq : s.evq.queue with
  | nil =>
    refine ⟨[], ?_, by simp⟩
    simp [priv_evq_getUpdate, core_one_wakeup, priv_evq_get, hq]
  | cons t rest =>
    refine ⟨[(t, E_SUCCESS)], ?_, by simp⟩
    simp [priv_evq_getUpdate, core_one_wakeup, priv_evq_put, priv_evq_get, hq]

theorem woken_same (s s1 : sys_t) (h : s1.woken = s.woken) :
    ∃ W : List (tsk_t × event_t), s1.woken = s.woken ++ W ∧ ∀ x ∈ W, x.2 = E_SUCCESS :=
  ⟨[], by simp [h], by simp⟩

theorem woken_step (s : sys_t) (op : op_t) (hop : fifo_op op = true) :
    ∃ W : List (tsk_t × event_t), (step s op).2.woken = s.woken ++ W ∧
      ∀ x ∈ W, x.2 = E_SUCCESS := by
  cases op with
  | give data =>
    show ∃ W, (evq_give s data).2.woken = s.woken ++ W ∧ _
    unfold evq_give
    split
    · exact woken_putUpdate s data
    · exact woken_same s s rfl
  | take data =>
    show ∃ W, (evq_take s data).2.woken = s.woken ++ W ∧ _
    unfold evq_take
    split
    · exact woken_getUpdate s data
    · exact woken_same s s rfl
  | waitFor data delay =>
    show ∃ W, (priv_evq_wait s data delay core_tsk_waitFor).2.woken = s.woken ++ W ∧ _
    unfold priv_evq_wait
    split
    · exact woken_getUpdate s data
    · unfold core_tsk_waitFor
      split
      · exact woken_same s _ rfl
      · exact woken_same s _ rfl
  | waitUntil data time =>
    show ∃ W, (priv_evq_wait s data time core_tsk_waitUntil).2.woken = s.woken ++ W ∧ _
    unfold priv_evq_wait
    split
    · exact woken_getUpdate s data
    · exact woken_same s _ rfl
  | sendFor data delay =>
    show ∃ W, (priv_evq_send s data delay core_tsk_waitFor).2.woken = s.woken ++ W ∧ _
    unfold priv_evq_send
    split
    · exact woken_putUpdate s data
    · unfold core_tsk_waitFor
      split
      · exact woken_same s _ rfl
      · exact woken_same s _ rfl
  | sendUntil data time =>
    show ∃ W, (priv_evq_send s data time core_tsk_waitUntil).2.woken = s.woken ++ W ∧ _
    unfold priv_evq_send
    split
    · exact woken_putUpdate s data
    · exact woken_same s _ rfl
  | push data => simp [fifo_op] at hop
  | kill => simp [fifo_op] at hop
  | timeout i => simp [fifo_op] at hop
  | switch tsk => exact woken_same s _ rfl

theorem woken_run (ops : List op_t) :
    ∀ s : sys_t, (∀ op ∈ ops, fifo_op op = true) →
      ∃ W : List (tsk_t × event_t), (run s ops).woken = s.woken ++ W ∧
        ∀ x ∈ W, x.2 = E_SUCCESS := by
  induction ops with
  | nil => intro s _; exact woken_same s s rfl
  | cons op ops ih =>
    intro s hops
    obtain ⟨W1, e1, a1⟩ := woken_step s op (hops op (List.mem_cons_self _ _))
    obtain ⟨W2, e2, a2⟩ := ih (step s op).2 (fun o ho => hops o (List.mem_cons_of_mem _ ho))
    refine ⟨W1 ++ W2, ?_, ?_⟩
    · show (run (step s op).2 ops).woken = s.woken ++ (W1 ++ W2)
      rw [e2, e1, List.append_assoc]
    · intro x hx
      rcases List.mem_append.mp hx with h | h
      · exact a1 x h
      · exact a2 x h

/-- C4: strict FIFO regardless of blocking.  In an execution that starts from a
freshly initialised queue and consists of `evq_give`, `evq_take`, the blocking
sends and waits and context switches (no push, kill or timeout), let `asked` be
the destinations of the consumer calls that did not return `E_TIMEOUT` at once
and `sent` the words of the producer calls that did not return `E_TIMEOUT` at
once, both in call order.  The stores `delivered` made through consumer
destinations during the execution, in the order in which they happened, serve
the first consumer calls of `asked` in call order, the remaining ones being
exactly the consumers still parked, and carry the first words of `sent` in call
order, the remaining words being those still buffered followed by those of the
producers still parked: the k-th served consumer call received the k-th word
handed over.  Every task woken during the execution resumes with `E_SUCCESS`. -/
theorem strict_fifo (s0 : sys_t) (data : Nat → Nat) (bufsize : Nat) (ops : List op_t)
    (hb : bufsize < UINT_RANGE) (hl : 0 < bufsize / SIZEOF_UNSIGNED)
    (hops : ∀ op ∈ ops, fifo_op op = true) :
    ∃ delivered : List (Nat × Nat),
      (run (evq_init s0 data bufsize) ops).writes = s0.writes ++ delivered ∧
      asked_dests (trace (evq_init s0 data bufsize) ops) =
        delivered.map Prod.fst ++
          pending_dests (run (evq_init s0 data bufsize) ops).evq ∧
      sent_words (trace (evq_init s0 data bufsize) ops) =
        delivered.map Prod.snd ++ contents (run (evq_init s0 data bufsize) ops).evq ++
          pending_words (run (evq_init s0 data bufsize) ops).evq ∧
      delivered =
        ((asked_dests (trace (evq_init s0 data bufsize) ops)).zip
          (sent_words (trace (evq_init s0 data bufsize) ops))).take delivered.length ∧
      ∃ W : List (tsk_t × event_t),
        (run (evq_init s0 data bufsize) ops).woken = s0.woken ++ W ∧
        ∀ x ∈ W, x.2 = E_SUCCESS := by
  have hw : wf (evq_init s0 data bufsize).evq := by
    refine ⟨hl, ?_, Nat.zero_le _, hl, hl, ?_⟩
    · show bufsize / SIZEOF_UNSIGNED < UINT_RANGE
      exact Nat.lt_of_le_of_lt (Nat.div_le_self _ _) hb
    · show 0 = (0 + 0) % (bufsize / SIZEOF_UNSIGNED)
      simp
  have hx : excl (evq_init s0 data bufsize).evq := fun h => absurd rfl h
  obtain ⟨E, h1, h2, h3, _, _⟩ := fifo_run ops (evq_init s0 data bufsize) hw hx hops
  have hd0 : pending_dests (evq_init s0 data bufsize).evq = [] := by
    simp [pending_dests, evq_init]
  have hc0 : contents (evq_init s0 data bufsize).evq = [] := by
    simp [contents, evq_init]
  have hp0 : pending_words (evq_init s0 data bufsize).evq = [] := by
    simp [pending_words, evq_init]
  rw [hd0, List.nil_append] at h2
  rw [hc0, hp0, List.nil_append, List.nil_append] at h3
  refine ⟨E, h1, h2, h3, ?_, woken_run ops (evq_init s0 data bufsize) hops⟩
  rw [h2, h3, List.append_assoc]
  exact zip_fst_snd E _ _

theorem strict_fifo_witness :
    8 < UINT_RANGE ∧ 0 < 8 / SIZEOF_UNSIGNED ∧
    (∀ op ∈ ex_fifo_ops, fifo_op op = true) ∧
    ∃ delivered : List (Nat × Nat),
      (run (evq_init ex_empty4 (fun _ => 0) 8) ex_fifo_ops).writes =
        ex_empty4.writes ++ delivered ∧
      asked_dests (trace (evq_init ex_empty4 (fun _ => 0) 8) ex_fifo_ops) =
        delivered.map Prod.fst ++
          pending_dests (run (evq_init ex_empty4 (fun _ => 0) 8) ex_fifo_ops).evq ∧
      sent_words (trace (evq_init ex_empty4 (fun _ => 0) 8) ex_fifo_ops) =
        delivered.map Prod.snd ++
          contents (run (evq_init ex_empty4 (fun _ => 0) 8) ex_fifo_ops).evq ++
          pending_words (run (evq_init ex_empty4 (fun _ => 0) 8) ex_fifo_ops).evq ∧
      delivered =
        ((asked_dests (trace (evq_init ex_empty4 (fun _ => 0) 8) ex_fifo_ops)).zip
          (sent_words (trace (evq_init ex_empty4 (fun _ => 0) 8) ex_fifo_ops))).take
            delivered.length ∧
      ∃ W : List (tsk_t × event_t),
        (run (evq_init ex_empty4 (fun _ => 0) 8) ex_fifo_ops).woken = ex_empty4.woken ++ W ∧
        ∀ x ∈ W, x.2 = E_SUCCESS :=
  ⟨by decide, by decide, by decide,
   strict_fifo ex_empty4 (fun _ => 0) 8 ex_fifo_ops (by decide) (by decide) (by decide)⟩

/-- The execution `ex_fifo_ops` evaluated: the consumer calls with destinations
50, 60, 70, 80 are served in call order with the words 1, 2, 3, 4 in the order in
which they were handed over; the word 5 is still buffered and the consumer call
with destination 90 returned `E_TIMEOUT` at once. -/
theorem fifo_scenario :
    (run (evq_init ex_empty4 (fun _ => 0) 8) ex_fifo_ops).writes =
      [(50, 1), (60, 2), (70, 3), (80, 4)] ∧
    asked_dests (trace (evq_init ex_empty4 (fun _ => 0) 8) ex_fifo_ops) =
      [50, 60, 70, 80] ∧
    sent_words (trace (evq_init ex_empty4 (fun _ => 0) 8) ex_fifo_ops) =
      [1, 2, 3, 4, 5] ∧
    contents (run (evq_init ex_empty4 (fun _ => 0) 8) ex_fifo_ops).evq = [5] := by
  decide

/-! ## Parked populations are mutually exclusive -/

theorem forall2_eraseIdx {α β : Type} (R : α → β → Prop) :
    ∀ (l1 : List α) (l2 : List β) (i : Nat), List.Forall₂ R l1 l2 →
      List.Forall₂ R (l1.eraseIdx i) (l2.eraseIdx i) := by
  intro l1 l2 i h
  induction h generalizing i with
  | nil => simp
  | cons hab _ ih =>
    cases i with
    | zero => simpa using ‹List.Forall₂ R _ _›
    | succ i => simpa using List.Forall₂.cons hab (ih i)

theorem park_drop (s s1 : sys_t) (ks : List park_t) (n : Nat) (hw1 : wf s1.evq)
    (hq : s1.evq.queue = s.evq.queue.drop n) (hn : n ≤ s.evq.queue.length)
    (hF : List.Forall₂ parked_as ks s.evq.queue)
    (hc : ∀ p, park_t.consumer p ∈ ks.drop n → s1.evq.count = 0)
    (hp : ∀ w, park_t.producer w ∈ ks.drop n → s1.evq.count = s1.evq.limit) :
    ParkInv s1 (ks.drop (s.evq.queue.length - s1.evq.queue.length)) := by
  have hl : s.evq.queue.length - s1.evq.queue.length = n := by
    rw [hq, List.length_drop]
    omega
  rw [hl]
  refine ⟨hw1, ?_, hc, hp⟩
  rw [hq]
  exact List.forall₂_drop n hF

theorem park_same (s s1 : sys_t) (ks : List park_t) (he : s1.evq = s.evq)
    (hi : ParkInv s ks) :
    ParkInv s1 (ks.drop (s.evq.queue.length - s1.evq.queue.length)) := by
  obtain ⟨hw, hF, hc, hp⟩ := hi
  have e : ks.drop (s.evq.queue.length - s1.evq.queue.length) = ks := by
    rw [he]
    simp
  rw [e, ParkInv, he]
  exact ⟨hw, hF, hc, hp⟩

theorem park_putUpdate (s : sys_t) (w : Nat) (ks : List park_t) (hi : ParkInv s ks)
    (hc : s.evq.count < s.evq.limit) :
    ParkInv (priv_evq_putUpdate s w)
      (ks.drop (s.evq.queue.length - (priv_evq_putUpdate s w).evq.queue.length)) := by
  obtain ⟨hw, hF, hcons, hprod⟩ := hi
  cases hq : s.evq.queue with
  | nil =>
    rw [hq] at hF
    have hks : ks = [] := List.forall₂_nil_right_iff.mp hF
    subst hks
    rw [priv_evq_putUpdate_nil s w hq, priv_evq_put_wf s w hw hc]
    refine ⟨wf_put s.evq w hw hc, ?_, ?_, ?_⟩
    · show List.Forall₂ parked_as (List.drop _ []) s.evq.queue
      rw [hq]
      simp
    · intro p hp
      simp at hp
    · intro v hv
      simp at hv
  | cons t rest =>
    have hF' := hF
    rw [hq] at hF'
    obtain ⟨k, ks', hk, hFr, rfl⟩ := List.forall₂_cons_right_iff.mp hF'
    have hc0 : s.evq.count = 0 := by
      cases k with
      | consumer p => exact hcons p (List.mem_cons_self _ _)
      | producer v =>
        have := hprod v (List.mem_cons_self _ _)
        omega
    have hw1 : wf (priv_evq_putUpdate s w).evq := by
      rw [priv_evq_putUpdate_cons s w t rest hw hc hq]
      exact wf_get _ (wf_queue _ rest (wf_put s.evq w hw hc))
        (by show 0 < s.evq.count + 1; omega)
    have hq1 : (priv_evq_putUpdate s w).evq.queue = s.evq.queue.drop 1 := by
      rw [priv_evq_putUpdate_cons s w t rest hw hc hq, hq]
      rfl
    have hc1 : (priv_evq_putUpdate s w).evq.count = 0 := by
      rw [priv_evq_putUpdate_cons s w t rest hw hc hq]
      show s.evq.count + 1 - 1 = 0
      omega
    rw [← hq]
    refine park_drop s _ _ 1 hw1 hq1 (by rw [hq]; simp) hF (fun _ _ => hc1) ?_
    intro v hv
    have := hprod v (List.mem_of_mem_drop hv)
    omega

theorem park_getUpdate (s : sys_t) (p : Nat) (ks : List park_t) (hi : ParkInv s ks)
    (hc : 0 < s.evq.count) :
    ParkInv (priv_evq_getUpdate s p)
      (ks.drop (s.evq.queue.length - (priv_evq_getUpdate s p).evq.queue.length)) := by
  obtain ⟨hw, hF, hcons, hprod⟩ := hi
  have hcl := hw.2.2.1
  cases hq : s.evq.queue with
  | nil =>
    rw [hq] at hF
    have hks : ks = [] := List.forall₂_nil_right_iff.mp hF
    subst hks
    rw [priv_evq_getUpdate_nil s p hq, priv_evq_get_wf s p hw hc]
    refine ⟨wf_get s.evq hw hc, ?_, ?_, ?_⟩
    · show List.Forall₂ parked_as (List.drop _ []) s.evq.queue
      rw [hq]
      simp
    · intro q hq'
      simp at hq'
    · intro v hv
      simp at hv
  | cons t rest =>
    have hF' := hF
    rw [hq] at hF'
    obtain ⟨k, ks', hk, hFr, rfl⟩ := List.forall₂_cons_right_iff.mp hF'
    have hfull : s.evq.count = s.evq.limit := by
      cases k with
      | consumer q =>
        have := hcons q (List.mem_cons_self _ _)
        omega
      | producer v => exact hprod v (List.mem_cons_self _ _)
    have hlt1 : s.evq.count - 1 < s.evq.limit := by omega
    have hw1 : wf (priv_evq_getUpdate s p).evq := by
      rw [priv_evq_getUpdate_cons s p t rest hw hc hq]
      exact wf_put _ t.tmp_out (wf_queue _ rest (wf_get s.evq hw hc)) hlt1
    have hq1 : (priv_evq_getUpdate s p).evq.queue = s.evq.queue.drop 1 := by
      rw [priv_evq_getUpdate_cons s p t rest hw hc hq, hq]
      rfl
    have hc1 : (priv_evq_getUpdate s p).evq.count = (priv_evq_getUpdate s p).evq.limit := by
      rw [priv_evq_getUpdate_cons s p t rest hw hc hq]
      show s.evq.count - 1 + 1 = s.evq.limit
      omega
    rw [← hq]
    refine park_drop s _ _ 1 hw1 hq1 (by rw [hq]; simp) hF ?_ (fun _ _ => hc1)
    intro q hq'
    have := hcons q (List.mem_of_mem_drop hq')
    omega

theorem wf_priv_put (s : sys_t) (w : Nat) (hw : wf s.evq) (hc : s.evq.count < s.evq.limit) :
    wf (priv_evq_put s w).evq ∧ (priv_evq_put s w).evq.count = s.evq.count + 1 ∧
    (priv_evq_put s w).evq.limit = s.evq.limit ∧
    (priv_evq_put s w).evq.queue = s.evq.queue := by
  rw [priv_evq_put_wf s w hw hc]
  exact ⟨wf_put s.evq w hw hc, rfl, rfl, rfl⟩

theorem wf_priv_skip (s : sys_t) (hw : wf s.evq) (hc : 0 < s.evq.count) :
    wf (priv_evq_skip s).evq ∧ (priv_evq_skip s).evq.count = s.evq.count - 1 ∧
    (priv_evq_skip s).evq.limit = s.evq.limit ∧
    (priv_evq_skip s).evq.queue = s.evq.queue := by
  rw [priv_evq_skip_wf s hw hc]
  exact ⟨wf_get s.evq hw hc, rfl, rfl, rfl⟩

theorem wf_one_wakeup (s : sys_t) (e : event_t) (hw : wf s.evq) :
    wf (core_one_wakeup s e).2.evq ∧ (core_one_wakeup s e).2.evq.count = s.evq.count ∧
    (core_one_wakeup s e).2.evq.limit = s.evq.limit ∧
    (core_one_wakeup s e).2.evq.queue = s.evq.queue.tail ∧
    ((core_one_wakeup s e).1 = none ↔ s.evq.queue = []) := by
  unfold core_one_wakeup
  split
  · next h => exact ⟨hw, rfl, rfl, by rw [h]; rfl, by simp [h]⟩
  · next t rest h => exact ⟨hw, rfl, rfl, by rw [h]; rfl, by simp [h]⟩

theorem priv_evq_skipLoop_drain (n : Nat) :
    ∀ s : sys_t, wf s.evq → s.evq.count = s.evq.limit → s.evq.queue.length + 1 ≤ n →
      wf (priv_evq_skipLoop n s).evq ∧ (priv_evq_skipLoop n s).evq.queue = [] ∧
      (priv_evq_skipLoop n s).evq.count + 1 = s.evq.limit := by
  induction n with
  | zero => intro s _ _ h; omega
  | succ n ih =>
    intro s hw hc h
    have hpos : 0 < s.evq.count := by have := hw.1; omega
    obtain ⟨h1, c1, l1, q1⟩ := wf_priv_skip s hw hpos
    obtain ⟨h2, c2, l2, q2, n2⟩ := wf_one_wakeup (priv_evq_skip s) E_SUCCESS h1
    unfold priv_evq_skipLoop
    simp only [hc, if_true]
    split
    · next tsk s2 heq =>
      have e2 : s2 = (core_one_wakeup (priv_evq_skip s) E_SUCCESS).2 := by rw [heq]
      have e1 : (core_one_wakeup (priv_evq_skip s) E_SUCCESS).1 = some tsk := by rw [heq]
      subst e2
      have hne : s.evq.queue ≠ [] := by
        intro hnil
        rw [q1] at n2
        rw [n2.mpr hnil] at e1
        cases e1
      obtain ⟨h3, c3, l3, q3⟩ := wf_priv_put _ tsk.tmp_out h2 (by rw [c2, l2, c1, l1]; omega)
      have hlen : s.evq.queue.tail.length + 1 ≤ n := by
        have := List.length_pos.mpr hne
        rw [List.length_tail]
        omega
      obtain ⟨a, b, c⟩ := ih _ h3 (by rw [c3, l3, c2, l2, c1, l1]; omega)
        (by rw [q3, q2, q1]; exact hlen)
      refine ⟨a, b, ?_⟩
      rw [c, l3, l2, l1]
    · next s2 heq =>
      have e2 : s2 = (core_one_wakeup (priv_evq_skip s) E_SUCCESS).2 := by rw [heq]
      have e1 : (core_one_wakeup (priv_evq_skip s) E_SUCCESS).1 = none := by rw [heq]
      subst e2
      rw [priv_evq_skipLoop_of_ne n _ (by rw [c2, l2, c1, l1]; omega)]
      refine ⟨h2, ?_, ?_⟩
      · have hnil : s.evq.queue = [] := by
          rw [← q1]
          exact n2.mp e1
        rw [q2, q1, hnil]
        rfl
      · rw [c2, c1]
        omega

theorem priv_evq_skipUpdate_drain (s : sys_t) (hw : wf s.evq)
    (hc : s.evq.count = s.evq.limit) :
    wf (priv_evq_skipUpdate s).evq ∧ (priv_evq_skipUpdate s).evq.queue = [] ∧
    (priv_evq_skipUpdate s).evq.count + 1 = s.evq.limit :=
  priv_evq_skipLoop_drain (s.evq.queue.length + 1) s hw hc (Nat.le_refl _)

theorem priv_evq_skipUpdate_exit (s : sys_t) :
    (priv_evq_skipUpdate s).evq.count ≠ (priv_evq_skipUpdate s).evq.limit :=
  priv_evq_skipLoop_exit (s.evq.queue.length + 1) s (Nat.le_refl _)

theorem park_push (s : sys_t) (w : Nat) (ks : List park_t) (hi : ParkInv s ks) :
    ParkInv (evq_push s w)
      (ks.drop (s.evq.queue.length - (evq_push s w).evq.queue.length)) := by
  by_cases hc : s.evq.count = s.evq.limit
  · obtain ⟨hw, hF, _, _⟩ := hi
    obtain ⟨hw1, hq1, hc1⟩ := priv_evq_skipUpdate_drain s hw hc
    have hlt : (priv_evq_skipUpdate s).evq.count < (priv_evq_skipUpdate s).evq.limit := by
      have hne := priv_evq_skipUpdate_exit s
      have hcl := hw1.2.2.1
      omega
    have hw2 : wf (evq_push s w).evq := by
      unfold evq_push
      rw [priv_evq_putUpdate_nil _ w hq1, priv_evq_put_wf _ w hw1 hlt]
      exact wf_put _ w hw1 hlt
    have hq2 : (evq_push s w).evq.queue = [] := by
      unfold evq_push
      rw [priv_evq_putUpdate_nil _ w hq1, priv_evq_put_wf _ w hw1 hlt]
      exact hq1
    have hks : ks.drop (s.evq.queue.length - (evq_push s w).evq.queue.length) = [] := by
      rw [hq2, List.length_nil, Nat.sub_zero, ← hF.length_eq]
      simp
    rw [hks]
    refine ⟨hw2, ?_, ?_, ?_⟩
    · rw [hq2]
      exact List.Forall₂.nil
    · intro p hp
      simp at hp
    · intro v hv
      simp at hv
  · have hlt : s.evq.count < s.evq.limit := by have := hi.1.2.2.1; omega
    have e : evq_push s w = priv_evq_putUpdate s w := by
      unfold evq_push priv_evq_skipUpdate
      rw [priv_evq_skipLoop_of_ne _ s hc]
    rw [e]
    exact park_putUpdate s w ks hi hlt

theorem park_kill (s : sys_t) (ks : List park_t) (hi : ParkInv s ks) :
    ParkInv (evq_kill s)
      (ks.drop (s.evq.queue.length - (evq_kill s).evq.queue.length)) := by
  obtain ⟨⟨h0, hL, _, _, _, _⟩, hF, _, _⟩ := hi
  have hks : ks.drop (s.evq.queue.length - (evq_kill s).evq.queue.length) = [] := by
    show ks.drop (s.evq.queue.length - ([] : List tsk_t).length) = []
    rw [List.length_nil, Nat.sub_zero, ← hF.length_eq]
    simp
  rw [hks]
  refine ⟨⟨h0, hL, Nat.zero_le _, h0, h0, ?_⟩, List.Forall₂.nil, ?_, ?_⟩
  · show 0 = (0 + 0) % s.evq.limit
    simp
  · intro p hp
    simp at hp
  · intro v hv
    simp at hv

theorem park_timeout (s : sys_t) (i : Nat) (ks : List park_t) (hi : ParkInv s ks) :
    ParkInv (core_tmr_timeout s i) (ks.eraseIdx i) := by
  obtain ⟨hw, hF, hc, hp⟩ := hi
  unfold core_tmr_timeout
  split
  · next hn =>
    have hlen : ks.length ≤ i := by
      rw [hF.length_eq]
      exact List.get?_eq_none.mp hn
    rw [List.eraseIdx_of_length_le hlen]
    exact ⟨hw, hF, hc, hp⟩
  · next tsk _ =>
    exact ⟨hw, forall2_eraseIdx _ _ _ i hF,
      fun p h => hc p (List.mem_of_mem_eraseIdx h),
      fun v h => hp v (List.mem_of_mem_eraseIdx h)⟩

theorem forall2_snoc {α β : Type} (R : α → β → Prop) (l1 : List α) (l2 : List β)
    (a : α) (b : β) (h : List.Forall₂ R l1 l2) (hab : R a b) :
    List.Forall₂ R (l1 ++ [a]) (l2 ++ [b]) := by
  induction h with
  | nil => exact List.Forall₂.cons hab List.Forall₂.nil
  | cons h1 _ ih => exact List.Forall₂.cons h1 ih

theorem park_consumer (s : sys_t) (p time : Nat) (ks : List park_t) (hi : ParkInv s ks)
    (hc : ¬ 0 < s.evq.count) :
    ParkInv (core_tsk_waitUntil { s with cur := { s.cur with tmp_in := p } } time).2
      (ks ++ [park_t.consumer p]) := by
  obtain ⟨hw, hF, hcons, hprod⟩ := hi
  have hc0 : s.evq.count = 0 := by omega
  refine ⟨hw, forall2_snoc _ _ _ _ _ hF rfl, fun _ _ => hc0, ?_⟩
  intro v hv
  rcases List.mem_append.mp hv with h | h
  · exact hprod v h
  · simp at h

theorem park_producer (s : sys_t) (w time : Nat) (ks : List park_t) (hi : ParkInv s ks)
    (hc : ¬ s.evq.count < s.evq.limit) :
    ParkInv (core_tsk_waitUntil { s with cur := { s.cur with tmp_out := w } } time).2
      (ks ++ [park_t.producer w]) := by
  obtain ⟨hw, hF, hcons, hprod⟩ := hi
  have hcl : s.evq.count = s.evq.limit := by have := hw.2.2.1; omega
  refine ⟨hw, forall2_snoc _ _ _ _ _ hF rfl, ?_, fun _ _ => hcl⟩
  intro q hq
  rcases List.mem_append.mp hq with h | h
  · exact hcons q h
  · simp at h

theorem park_step_inv (s : sys_t) (op : op_t) (ks : List park_t) (hi : ParkInv s ks) :
    ParkInv (step s op).2 (park_step s op ks) := by
  cases op with
  | give data =>
    simp only [park_step]
    by_cases hc : s.evq.count < s.evq.limit
    · have e : step s (op_t.give data) = (some E_SUCCESS, priv_evq_putUpdate s data) := by
        simp [step, evq_give, hc]
      rw [e]
      exact park_putUpdate s data ks hi hc
    · have e : step s (op_t.give data) = (some E_TIMEOUT, s) := by
        simp [step, evq_give, hc]
      rw [e]
      exact park_same s s ks rfl hi
  | take data =>
    simp only [park_step]
    by_cases hc : 0 < s.evq.count
    · have e : step s (op_t.take data) = (some E_SUCCESS, priv_evq_getUpdate s data) := by
        simp [step, evq_take, hc]
      rw [e]
      exact park_getUpdate s data ks hi hc
    · have e : step s (op_t.take data) = (some E_TIMEOUT, s) := by
        simp [step, evq_take, hc]
      rw [e]
      exact park_same s s ks rfl hi
  | waitFor data delay =>
    simp only [park_step]
    by_cases hc : 0 < s.evq.count
    · have e : step s (op_t.waitFor data delay) =
          (some E_SUCCESS, priv_evq_getUpdate s data) := by
        simp [step, evq_waitFor, priv_evq_wait, hc]
      rw [e]
      simp only [reduceCtorEq, if_false]
      exact park_getUpdate s data ks hi hc
    · have e : step s (op_t.waitFor data delay) =
          core_tsk_waitFor { s with cur := { s.cur with tmp_in := data } } delay := by
        simp [step, evq_waitFor, priv_evq_wait, hc]
      rw [e]
      rcases core_tsk_waitFor_cases { s with cur := { s.cur with tmp_in := data } } delay
        with h | ⟨h1, h2⟩
      · rw [h]
        simp only [reduceCtorEq, if_false]
        exact park_same s _ ks rfl hi
      · rw [if_pos h2, h1]
        exact park_consumer s data delay ks hi hc
  | waitUntil data time =>
    simp only [park_step]
    by_cases hc : 0 < s.evq.count
    · have e : step s (op_t.waitUntil data time) =
          (some E_SUCCESS, priv_evq_getUpdate s data) := by
        simp [step, evq_waitUntil, priv_evq_wait, hc]
      rw [e]
      simp only [reduceCtorEq, if_false]
      exact park_getUpdate s data ks hi hc
    · have e : step s (op_t.waitUntil data time) =
          core_tsk_waitUntil { s with cur := { s.cur with tmp_in := data } } time := by
        simp [step, evq_waitUntil, priv_evq_wait, hc]
      rw [e]
      have h2 : (core_tsk_waitUntil { s with cur := { s.cur with tmp_in := data } } time).1
          = none := rfl
      rw [if_pos h2]
      exact park_consumer s data time ks hi hc
  | sendFor data delay =>
    simp only [park_step]
    by_cases hc : s.evq.count < s.evq.limit
    · have e : step s (op_t.sendFor data delay) =
          (some E_SUCCESS, priv_evq_putUpdate s data) := by
        simp [step, evq_sendFor, priv_evq_send, hc]
      rw [e]
      simp only [reduceCtorEq, if_false]
      exact park_putUpdate s data ks hi hc
    · have e : step s (op_t.sendFor data delay) =
          core_tsk_waitFor { s with cur := { s.cur with tmp_out := data } } delay := by
        simp [step, evq_sendFor, priv_evq_send, hc]
      rw [e]
      rcases core_tsk_waitFor_cases { s with cur := { s.cur with tmp_out := data } } delay
        with h | ⟨h1, h2⟩
      · rw [h]
        simp only [reduceCtorEq, if_false]
        exact park_same s _ ks rfl hi
      · rw [if_pos h2, h1]
        exact park_producer s data delay ks hi hc
  | sendUntil data time =>
    simp only [park_step]
    by_cases hc : s.evq.count < s.evq.limit
    · have e : step s (op_t.sendUntil data time) =
          (some E_SUCCESS, priv_evq_putUpdate s data) := by
        simp [step, evq_sendUntil, priv_evq_send, hc]
      rw [e]
      simp only [reduceCtorEq, if_false]
      exact park_putUpdate s data ks hi hc
    · have e : step s (op_t.sendUntil data time) =
          core_tsk_waitUntil { s with cur := { s.cur with tmp_out := data } } time := by
        simp [step, evq_sendUntil, priv_evq_send, hc]
      rw [e]
      have h2 : (core_tsk_waitUntil { s with cur := { s.cur with tmp_out := data } } time).1
          = none := rfl
      rw [if_pos h2]
      exact park_producer s data time ks hi hc
  | push data =>
    simp only [park_step]
    exact park_push s data ks hi
  | kill =>
    simp only [park_step]
    exact park_kill s ks hi
  | timeout i =>
    simp only [park_step]
    exact park_timeout s i ks hi
  | switch tsk =>
    simp only [park_step]
    exact park_same s _ ks rfl hi

theorem park_run_inv (ops : List op_t) :
    ∀ (s : sys_t) (ks : List park_t), ParkInv s ks →
      ParkInv (run s ops) (park_run s ops ks) := by
  induction ops with
  | nil => intro s ks hi; exact hi
  | cons op ops ih => intro s ks hi; exact ih _ _ (park_step_inv s op ks hi)

theorem park_reachable_inv (s : sys_t) (ks : List park_t) (h : ParkReachable s ks) :
    ParkInv s ks := by
  obtain ⟨s0, data, bufsize, ops, hb, hl, rfl, rfl⟩ := h
  apply park_run_inv
  refine ⟨⟨hl, ?_, Nat.zero_le _, hl, hl, ?_⟩, List.Forall₂.nil, ?_, ?_⟩
  · show bufsize / SIZEOF_UNSIGNED < UINT_RANGE
    exact Nat.lt_of_le_of_lt (Nat.div_le_self _ _) hb
  · show 0 = (0 + 0) % (bufsize / SIZEOF_UNSIGNED)
    simp
  · intro p hp
    simp at hp
  · intro v hv
    simp at hv

/-- C11: blocked populations are mutually exclusive.  In every state reachable
from `evq_init` (with `limit > 0`, as the public operations assert) by the
public operations and by timeouts of parked tasks, with every parked task
recorded as a consumer (parked by `evq_waitFor` or `evq_waitUntil`) or as a
producer (parked by `evq_sendFor` or `evq_sendUntil`): the records match the
waiter queue task by task, a consumer is parked only if `count = 0`, a producer
is parked only if `count = limit`, and consumers and producers are never parked
at the same time. -/
theorem blocked_populations_exclusive (s : sys_t) (ks : List park_t)
    (h : ParkReachable s ks) :
    List.Forall₂ parked_as ks s.evq.queue ∧
    (∀ p, park_t.consumer p ∈ ks → s.evq.count = 0) ∧
    (∀ w, park_t.producer w ∈ ks → s.evq.count = s.evq.limit) ∧
    ¬ ((∃ p, park_t.consumer p ∈ ks) ∧ (∃ w, park_t.producer w ∈ ks)) := by
  obtain ⟨hw, hF, hc, hp⟩ := park_reachable_inv s ks h
  refine ⟨hF, hc, hp, ?_⟩
  rintro ⟨⟨p, hp1⟩, ⟨w, hw1⟩⟩
  have h0 := hw.1
  have := hc p hp1
  have := hp w hw1
  omega

theorem blocked_populations_exclusive_witness :
    ParkReachable ex_parked ex_parked_ks ∧
    (List.Forall₂ parked_as ex_parked_ks ex_parked.evq.queue ∧
     (∀ p, park_t.consumer p ∈ ex_parked_ks → ex_parked.evq.count = 0) ∧
     (∀ w, park_t.producer w ∈ ex_parked_ks →
       ex_parked.evq.count = ex_parked.evq.limit) ∧
     ¬ ((∃ p, park_t.consumer p ∈ ex_parked_ks) ∧
        (∃ w, park_t.producer w ∈ ex_parked_ks))) :=
  ⟨⟨ex_empty4, fun _ => 0, 8, ex_park_ops, by decide, by decide, rfl, rfl⟩,
   blocked_populations_exclusive ex_parked ex_parked_ks
     ⟨ex_empty4, fun _ => 0, 8, ex_park_ops, by decide, by decide, rfl, rfl⟩⟩

/-- The execution `ex_park_ops` evaluated: after the two waits two consumers are
parked on the empty queue; at the end one producer is parked on the full queue,
whose contents are 3, 4. -/
theorem parked_scenario :
    park_run (evq_init ex_empty4 (fun _ => 0) 8) (ex_park_ops.take 3) [] =
      [park_t.consumer 100, park_t.consumer 200] ∧
    (run (evq_init ex_empty4 (fun _ => 0) 8) (ex_park_ops.take 3)).evq.count = 0 ∧
    ex_parked_ks = [park_t.producer 5] ∧
    ex_parked.evq.queue = [{ id := 4, tmp_in := 0, tmp_out := 5 }] ∧
    ex_parked.evq.count = 2 ∧ ex_parked.evq.limit = 2 ∧
    contents ex_parked.evq = [3, 4] := by
  decide

/-! ## Delivery to a parked consumer -/

theorem forall2_get {α β : Type} (R : α → β → Prop) :
    ∀ (l1 : List α) (l2 : List β) (i : Nat) (a : α), List.Forall₂ R l1 l2 →
      l1.get? i = some a → ∃ b, l2.get? i = some b ∧ R a b := by
  intro l1 l2 i a h
  induction h generalizing i with
  | nil => intro hi; simp at hi
  | cons hab _ ih =>
    cases i with
    | zero =>
      intro hi
      rw [List.get?_cons_zero] at hi
      cases hi
      exact ⟨_, List.get?_cons_zero, hab⟩
    | succ i =>
      intro hi
      rw [List.get?_cons_succ] at hi
      obtain ⟨b, hb, hr⟩ := ih i hi
      exact ⟨b, by rw [List.get?_cons_succ]; exact hb, hr⟩

theorem priv_evq_putUpdate_empty (s : sys_t) (w : Nat) (t0 : tsk_t) (rest : List tsk_t)
    (hw : wf s.evq) (hc : s.evq.count = 0) (hq : s.evq.queue = t0 :: rest) :
    (priv_evq_putUpdate s w).woken = s.woken ++ [(t0, E_SUCCESS)] ∧
    (priv_evq_putUpdate s w).writes = s.writes ++ [(t0.tmp_in, w)] ∧
    (priv_evq_putUpdate s w).mem = Function.update s.mem t0.tmp_in w ∧
    (priv_evq_putUpdate s w).evq.queue = rest := by
  obtain ⟨h0, hL, hcl, hh, ht, htl⟩ := hw
  have hlt : s.evq.count < s.evq.limit := by omega
  have hth : s.evq.tail = s.evq.head := by
    rw [htl, hc, Nat.add_zero, Nat.mod_eq_of_lt hh]
  have hv : Function.update s.evq.data s.evq.tail w s.evq.head = w := by
    rw [hth]
    exact Function.update_same _ _ _
  rw [priv_evq_putUpdate_cons s w t0 rest ⟨h0, hL, hcl, hh, ht, htl⟩ hlt hq]
  refine ⟨rfl, ?_, ?_, rfl⟩
  · show s.writes ++ [(t0.tmp_in, _)] = s.writes ++ [(t0.tmp_in, w)]
    rw [hv]
  · show Function.update s.mem t0.tmp_in _ = Function.update s.mem t0.tmp_in w
    rw [hv]

theorem quiet_same (s s1 : sys_t) (h1 : s1.writes = s.writes) (h2 : s1.mem = s.mem)
    (h3 : s1.woken = s.woken) :
    s1.writes = s.writes ∧ s1.mem = s.mem ∧
    ∃ W : List (tsk_t × event_t), s1.woken = s.woken ++ W ∧ ∀ x ∈ W, x.2 ≠ E_SUCCESS :=
  ⟨h1, h2, [], by simp [h3], by simp⟩

/-- C12 as stated fails when two parked consumers have the same destination:
with tasks 1 and 2 parked as consumers, both with destination 100, the call
`evq_give` of 7 wakes task 1 only, task 2 staying parked, and yet writes 7 at
address 100; the later delivery to task 2 writes the address a second time. -/
theorem other_delivery_writes_destination :
    ParkReachable ex_alias ex_alias_ks ∧
    ex_alias_ks.get? 1 = some (park_t.consumer 100) ∧
    ex_alias.evq.queue.get? 1 = some { id := 2, tmp_in := 100, tmp_out := 0 } ∧
    (step ex_alias (op_t.give 7)).2.evq.queue = [{ id := 2, tmp_in := 100, tmp_out := 0 }] ∧
    (step ex_alias (op_t.give 7)).2.woken =
      [({ id := 1, tmp_in := 100, tmp_out := 0 }, E_SUCCESS)] ∧
    (step ex_alias (op_t.give 7)).2.writes = [(100, 7)] ∧
    (step ex_alias (op_t.give 7)).2.mem 100 = 7 ∧
    (run ex_alias [op_t.give 7, op_t.give 8]).writes = [(100, 7), (100, 8)] :=
  ⟨⟨ex_empty4, fun _ => 0, 16, ex_alias_ops, by decide, by decide, rfl, rfl⟩,
   by decide, by decide, by decide, by decide, by decide, by decide, by decide⟩

/-- C12, amended: exactly-once delivery to a parked consumer.  In every reachable
state, for the consumer `t` recorded at position `i` of the waiter queue with
destination `p` (so `t.tmp_in = p`), the head `t0` of the waiter queue is a
recorded consumer too, and every step is of one of two kinds.  A producer call
(`evq_give`, `evq_sendFor`, `evq_sendUntil`, `evq_push`) carrying the word `w` is
`priv_evq_putUpdate` of `w`: it wakes exactly the head `t0` with `E_SUCCESS`,
makes exactly one store, of that same word `w`, at the destination of `t0`, and
leaves the other tasks parked; so the consumer is woken with `E_SUCCESS` only
when it is the head, and then `w` is stored at `p` once.  Every other step
makes no store and wakes no task with `E_SUCCESS`.  Hence, while the consumer is
parked, `p` is written only by its own delivery and by the deliveries to
consumers parked ahead of it whose destination is also `p`. -/
theorem parked_consumer_delivery (s : sys_t) (ks : List park_t)
    (h : ParkReachable s ks) (i p : Nat)
    (hi : ks.get? i = some (park_t.consumer p)) (op : op_t) :
    ∃ (t0 : tsk_t) (rest : List tsk_t) (t : tsk_t),
      s.evq.queue = t0 :: rest ∧ ks.head? = some (park_t.consumer t0.tmp_in) ∧
      s.evq.queue.get? i = some t ∧ t.tmp_in = p ∧ (i = 0 → t = t0) ∧
      (∀ w, carried op = some w →
        (step s op).2 = priv_evq_putUpdate s w ∧
        (step s op).2.woken = s.woken ++ [(t0, E_SUCCESS)] ∧
        (step s op).2.writes = s.writes ++ [(t0.tmp_in, w)] ∧
        (step s op).2.mem = Function.update s.mem t0.tmp_in w ∧
        (step s op).2.evq.queue = rest) ∧
      (carried op = none →
        (step s op).2.writes = s.writes ∧ (step s op).2.mem = s.mem ∧
        ∃ W : List (tsk_t × event_t), (step s op).2.woken = s.woken ++ W ∧
          ∀ x ∈ W, x.2 ≠ E_SUCCESS) := by
  obtain ⟨hw, hF, hcons, hprod⟩ := park_reachable_inv s ks h
  have hc0 : s.evq.count = 0 := hcons p (List.get?_mem hi)
  have hlt : s.evq.count < s.evq.limit := by have := hw.1; omega
  have hne : s.evq.count ≠ s.evq.limit := by omega
  have hnpos : ¬ 0 < s.evq.count := by omega
  obtain ⟨t, ht, htp⟩ := forall2_get _ _ _ i _ hF hi
  cases hq : s.evq.queue with
  | nil => rw [hq] at ht; simp at ht
  | cons t0 rest =>
    have hF' := hF
    rw [hq] at hF'
    obtain ⟨k, ks', hk, _, hks⟩ := List.forall₂_cons_right_iff.mp hF'
    have hk0 : k = park_t.consumer t0.tmp_in := by
      cases k with
      | consumer q =>
        have e : t0.tmp_in = q := hk
        rw [e]
      | producer v =>
        have := hprod v (by rw [hks]; exact List.mem_cons_self _ _)
        omega
    have hput := priv_evq_putUpdate_empty s
    refine ⟨t0, rest, t, rfl, by rw [hks, hk0]; rfl, by rw [← hq]; exact ht, htp, ?_, ?_, ?_⟩
    · intro h0
      subst h0
      rw [hq, List.get?_cons_zero] at ht
      cases ht
      rfl
    · intro w hcar
      cases op with
      | give data =>
        cases hcar
        have e : (step s (op_t.give w)).2 = priv_evq_putUpdate s w := by
          simp [step, evq_give, hlt]
        rw [e]
        exact ⟨rfl, hput w t0 rest hw hc0 hq⟩
      | sendFor data delay =>
        cases hcar
        have e : (step s (op_t.sendFor w delay)).2 = priv_evq_putUpdate s w := by
          simp [step, evq_sendFor, priv_evq_send, hlt]
        rw [e]
        exact ⟨rfl, hput w t0 rest hw hc0 hq⟩
      | sendUntil data time =>
        cases hcar
        have e : (step s (op_t.sendUntil w time)).2 = priv_evq_putUpdate s w := by
          simp [step, evq_sendUntil, priv_evq_send, hlt]
        rw [e]
        exact ⟨rfl, hput w t0 rest hw hc0 hq⟩
      | push data =>
        cases hcar
        have e : (step s (op_t.push w)).2 = priv_evq_putUpdate s w := by
          show priv_evq_putUpdate (priv_evq_skipLoop _ s) w = priv_evq_putUpdate s w
          rw [priv_evq_skipLoop_of_ne _ s hne]
        rw [e]
        exact ⟨rfl, hput w t0 rest hw hc0 hq⟩
      | take data => cases hcar
      | waitFor data delay => cases hcar
      | waitUntil data time => cases hcar
      | kill => cases hcar
      | timeout j => cases hcar
      | switch tsk => cases hcar
    · intro hcar
      cases op with
      | give data => cases hcar
      | sendFor data delay => cases hcar
      | sendUntil data time => cases hcar
      | push data => cases hcar
      | take data =>
        have e : (step s (op_t.take data)).2 = s := by
          simp [step, evq_take, hnpos]
        rw [e]
        exact quiet_same s s rfl rfl rfl
      | waitFor data delay =>
        have e : step s (op_t.waitFor data delay) =
            core_tsk_waitFor { s with cur := { s.cur with tmp_in := data } } delay := by
          simp [step, evq_waitFor, priv_evq_wait, hnpos]
        rw [e]
        rcases core_tsk_waitFor_cases { s with cur := { s.cur with tmp_in := data } } delay
          with h1 | ⟨h1, _⟩
        · rw [h1]
          exact quiet_same s _ rfl rfl rfl
        · rw [h1]
          exact quiet_same s _ rfl rfl rfl
      | waitUntil data time =>
        have e : step s (op_t.waitUntil data time) =
            core_tsk_waitUntil { s with cur := { s.cur with tmp_in := data } } time := by
          simp [step, evq_waitUntil, priv_evq_wait, hnpos]
        rw [e]
        exact quiet_same s _ rfl rfl rfl
      | kill =>
        refine ⟨rfl, rfl, s.evq.queue.map (fun tsk => (tsk, E_STOPPED)), rfl, ?_⟩
        intro x hx
        obtain ⟨tsk, _, rfl⟩ := List.mem_map.mp hx
        simp
      | timeout j =>
        have e : (step s (op_t.timeout j)).2 = core_tmr_timeout s j := rfl
        rw [e]
        unfold core_tmr_timeout
        split
        · exact quiet_same s s rfl rfl rfl
        · next tsk _ =>
          refine ⟨rfl, rfl, [(tsk, E_TIMEOUT)], rfl, ?_⟩
          intro x hx
          simp at hx
          rw [hx]
          simp
      | switch tsk => exact quiet_same s _ rfl rfl rfl

theorem parked_consumer_delivery_witness :
    ParkReachable ex_alias ex_alias_ks ∧
    ex_alias_ks.get? 1 = some (park_t.consumer 100) ∧
    ∃ (t0 : tsk_t) (rest : List tsk_t) (t : tsk_t),
      ex_alias.evq.queue = t0 :: rest ∧
      ex_alias_ks.head? = some (park_t.consumer t0.tmp_in) ∧
      ex_alias.evq.queue.get? 1 = some t ∧ t.tmp_in = 100 ∧ (1 = 0 → t = t0) ∧
      (∀ w, carried (op_t.give 7) = some w →
        (step ex_alias (op_t.give 7)).2 = priv_evq_putUpdate ex_alias w ∧
        (step ex_alias (op_t.give 7)).2.woken = ex_alias.woken ++ [(t0, E_SUCCESS)] ∧
        (step ex_alias (op_t.give 7)).2.writes = ex_alias.writes ++ [(t0.tmp_in, w)] ∧
        (step ex_alias (op_t.give 7)).2.mem = Function.update ex_alias.mem t0.tmp_in w ∧
        (step ex_alias (op_t.give 7)).2.evq.queue = rest) ∧
      (carried (op_t.give 7) = none →
        (step ex_alias (op_t.give 7)).2.writes = ex_alias.writes ∧
        (step ex_alias (op_t.give 7)).2.mem = ex_alias.mem ∧
        ∃ W : List (tsk_t × event_t),
          (step ex_alias (op_t.give 7)).2.woken = ex_alias.woken ++ W ∧
          ∀ x ∈ W, x.2 ≠ E_SUCCESS) :=
  ⟨⟨ex_empty4, fun _ => 0, 16, ex_alias_ops, by decide, by decide, rfl, rfl⟩, by decide,
   parked_consumer_delivery ex_alias ex_alias_ks
     ⟨ex_empty4, fun _ => 0, 16, ex_alias_ops, by decide, by decide, rfl, rfl⟩ 1 100
     (by decide) (op_t.give 7)⟩

/-! ## Reset -/

/-- C13: `evq_kill` returns the queue to empty without touching its storage:
afterwards `count = head = tail = 0`, every parked task has been woken with
`E_STOPPED` (in waiter-queue order) and the waiter queue is empty, while `limit`,
the buffer behind the data pointer with every word stored in it, `obj.res` and
the memory of the callers are unchanged. -/
theorem evq_kill_keeps_storage (s : sys_t) :
    (evq_kill s).evq.count = 0 ∧ (evq_kill s).evq.head = 0 ∧ (evq_kill s).evq.tail = 0 ∧
    (evq_kill s).woken = s.woken ++ s.evq.queue.map (fun tsk => (tsk, E_STOPPED)) ∧
    (evq_kill s).evq.queue = [] ∧
    (evq_kill s).evq.limit = s.evq.limit ∧ (evq_kill s).evq.data = s.evq.data ∧
    (evq_kill s).evq.res = s.evq.res ∧
    (evq_kill s).mem = s.mem ∧ (evq_kill s).writes = s.writes :=
  ⟨rfl, rfl, rfl, rfl, rfl, rfl, rfl, rfl, rfl, rfl⟩

/-- C14: reset is idempotent: `evq_kill` applied twice in a row leaves exactly
the same state (count, head, tail, limit, buffer, waiter queue, and everything
else) as `evq_kill` applied once, and the second call wakes no task: it adds
nothing to the wake history. -/
theorem evq_kill_idempotent (s : sys_t) :
    evq_kill (evq_kill s) = evq_kill s ∧
    (evq_kill (evq_kill s)).woken = (evq_kill s).woken := by
  have e : evq_kill (evq_kill s) = evq_kill s := by
    simp [evq_kill, core_all_wakeup]
  exact ⟨e, by rw [e]⟩

/-! ## IMMEDIATE and the blocking path -/

/-- C16: `IMMEDIATE` makes the blocking calls behave as the non-blocking ones
(the wait hook returning `E_TIMEOUT` at once without parking for `IMMEDIATE`):
`evq_waitFor` with `IMMEDIATE` returns the same event as `evq_take` and leaves
the same queue object (buffer, indices, counters, waiter queue), the same
memory and the same histories, and `evq_sendFor` with `IMMEDIATE` does so with
respect to `evq_give`. -/
theorem immediate_is_nonblocking (s : sys_t) (p w : Nat) :
    ((evq_waitFor s p IMMEDIATE).1 = some (evq_take s p).1 ∧
     (evq_waitFor s p IMMEDIATE).2.evq = (evq_take s p).2.evq ∧
     (evq_waitFor s p IMMEDIATE).2.mem = (evq_take s p).2.mem ∧
     (evq_waitFor s p IMMEDIATE).2.woken = (evq_take s p).2.woken ∧
     (evq_waitFor s p IMMEDIATE).2.writes = (evq_take s p).2.writes) ∧
    ((evq_sendFor s w IMMEDIATE).1 = some (evq_give s w).1 ∧
     (evq_sendFor s w IMMEDIATE).2.evq = (evq_give s w).2.evq ∧
     (evq_sendFor s w IMMEDIATE).2.mem = (evq_give s w).2.mem ∧
     (evq_sendFor s w IMMEDIATE).2.woken = (evq_give s w).2.woken ∧
     (evq_sendFor s w IMMEDIATE).2.writes = (evq_give s w).2.writes) := by
  constructor
  · unfold evq_waitFor priv_evq_wait evq_take core_tsk_waitFor
    split
    · exact ⟨rfl, rfl, rfl, rfl, rfl⟩
    · simp
  · unfold evq_sendFor priv_evq_send evq_give core_tsk_waitFor
    split
    · exact ⟨rfl, rfl, rfl, rfl, rfl⟩
    · simp

/-- C17: a cancelled waiter does not touch the queue.  On the blocking path
(`count = 0` for the waits, `count = limit` for the sends) the call writes only
the staging slot of the current task (`tmp_in`, respectively `tmp_out`), hands
the state to the scheduler hook and returns what the hook returns, whatever the
wake event: nothing is done after the hook.  With the hooks of the kernel the
task is parked at the end of the waiter queue (or not at all), and the buffer,
`head`, `tail`, `count`, `limit`, the memory of the callers and the store
history are unchanged.  The steps that cancel a parked task, `evq_kill` (with
`E_STOPPED`, also inside `evq_delete`) and the timer (with `E_TIMEOUT`), make no
store through a saved destination either. -/
theorem blocking_path_frame (s : sys_t) (data time : Nat)
    (wait : sys_t → Nat → Option event_t × sys_t) :
    (s.evq.count = 0 →
      priv_evq_wait s data time wait =
        wait { s with cur := { s.cur with tmp_in := data } } time ∧
      blocked_frame s (evq_waitFor s data time).2 { s.cur with tmp_in := data } ∧
      blocked_frame s (evq_waitUntil s data time).2 { s.cur with tmp_in := data }) ∧
    (s.evq.count = s.evq.limit →
      priv_evq_send s data time wait =
        wait { s with cur := { s.cur with tmp_out := data } } time ∧
      blocked_frame s (evq_sendFor s data time).2 { s.cur with tmp_out := data } ∧
      blocked_frame s (evq_sendUntil s data time).2 { s.cur with tmp_out := data }) ∧
    (∀ i, (evq_kill s).mem = s.mem ∧ (evq_kill s).writes = s.writes ∧
      (evq_delete s).mem = s.mem ∧ (evq_delete s).writes = s.writes ∧
      (core_tmr_timeout s i).mem = s.mem ∧ (core_tmr_timeout s i).writes = s.writes ∧
      (core_tmr_timeout s i).evq.data = s.evq.data) := by
  refine ⟨?_, ?_, ?_⟩
  · intro hc
    have hn : ¬ s.evq.count > 0 := by omega
    have e : ∀ hook, priv_evq_wait s data time hook =
        hook { s with cur := { s.cur with tmp_in := data } } time := by
      intro hook
      simp [priv_evq_wait, hn]
    refine ⟨e wait, ?_, ?_⟩
    · unfold evq_waitFor
      rw [e]
      unfold core_tsk_waitFor
      split
      · exact ⟨rfl, rfl, rfl, rfl, rfl, rfl, rfl, rfl, rfl, Or.inl rfl⟩
      · exact ⟨rfl, rfl, rfl, rfl, rfl, rfl, rfl, rfl, rfl, Or.inr rfl⟩
    · unfold evq_waitUntil
      rw [e]
      exact ⟨rfl, rfl, rfl, rfl, rfl, rfl, rfl, rfl, rfl, Or.inr rfl⟩
  · intro hc
    have hn : ¬ s.evq.count < s.evq.limit := by omega
    have e : ∀ hook, priv_evq_send s data time hook =
        hook { s with cur := { s.cur with tmp_out := data } } time := by
      intro hook
      simp [priv_evq_send, hn]
    refine ⟨e wait, ?_, ?_⟩
    · unfold evq_sendFor
      rw [e]
      unfold core_tsk_waitFor
      split
      · exact ⟨rfl, rfl, rfl, rfl, rfl, rfl, rfl, rfl, rfl, Or.inl rfl⟩
      · exact ⟨rfl, rfl, rfl, rfl, rfl, rfl, rfl, rfl, rfl, Or.inr rfl⟩
    · unfold evq_sendUntil
      rw [e]
      exact ⟨rfl, rfl, rfl, rfl, rfl, rfl, rfl, rfl, rfl, Or.inr rfl⟩
  · intro i
    have hd : (evq_delete s).mem = s.mem ∧ (evq_delete s).writes = s.writes := by
      unfold evq_delete sys_free
      simp only []
      split <;> exact ⟨rfl, rfl⟩
    have ht : (core_tmr_timeout s i).mem = s.mem ∧
        (core_tmr_timeout s i).writes = s.writes ∧
        (core_tmr_timeout s i).evq.data = s.evq.data := by
      unfold core_tmr_timeout
      split <;> exact ⟨rfl, rfl, rfl⟩
    exact ⟨rfl, rfl, hd.1, hd.2, ht.1, ht.2.1, ht.2.2⟩

theorem blocking_path_frame_witness :
    ex_empty4.evq.count = 0 ∧ ex_full2.evq.count = ex_full2.evq.limit ∧
    (priv_evq_wait ex_empty4 100 9 core_tsk_waitFor =
        core_tsk_waitFor { ex_empty4 with cur := { ex_empty4.cur with tmp_in := 100 } } 9 ∧
      blocked_frame ex_empty4 (evq_waitFor ex_empty4 100 9).2
        { ex_empty4.cur with tmp_in := 100 } ∧
      blocked_frame ex_empty4 (evq_waitUntil ex_empty4 100 9).2
        { ex_empty4.cur with tmp_in := 100 }) ∧
    (priv_evq_send ex_full2 3 9 core_tsk_waitFor =
        core_tsk_waitFor { ex_full2 with cur := { ex_full2.cur with tmp_out := 3 } } 9 ∧
      blocked_frame ex_full2 (evq_sendFor ex_full2 3 9).2
        { ex_full2.cur with tmp_out := 3 } ∧
      blocked_frame ex_full2 (evq_sendUntil ex_full2 3 9).2
        { ex_full2.cur with tmp_out := 3 }) :=
  ⟨by decide, by decide,
   (blocking_path_frame ex_empty4 100 9 core_tsk_waitFor).1 (by decide),
   (blocking_path_frame ex_full2 3 9 core_tsk_waitFor).2.1 (by decide)⟩

/-! ## Calls on a queue without parked tasks -/

theorem evq_give_nil (s : sys_t) (w : Nat) (hw : wf s.evq) (hq : s.evq.queue = [])
    (hc : s.evq.count < s.evq.limit) :
    evq_give s w = (E_SUCCESS, priv_evq_put s w) ∧
    wf (priv_evq_put s w).evq ∧ (priv_evq_put s w).evq.queue = [] ∧
    contents (priv_evq_put s w).evq = contents s.evq ++ [w] ∧
    (priv_evq_put s w).evq.count = s.evq.count + 1 ∧
    (priv_evq_put s w).evq.limit = s.evq.limit ∧
    (priv_evq_put s w).mem = s.mem := by
  have e : evq_give s w = (E_SUCCESS, priv_evq_put s w) := by
    simp [evq_give, hc, priv_evq_putUpdate_nil s w hq]
  rw [priv_evq_put_wf s w hw hc]
  exact ⟨by rw [e, priv_evq_put_wf s w hw hc], wf_put s.evq w hw hc, hq,
    contents_put s.evq w hw hc, rfl, rfl, rfl⟩

theorem evq_take_nil (s : sys_t) (x : Nat) (hw : wf s.evq) (hq : s.evq.queue = [])
    (hc : 0 < s.evq.count) :
    evq_take s x = (E_SUCCESS, priv_evq_get s x) ∧
    wf (priv_evq_get s x).evq ∧ (priv_evq_get s x).evq.queue = [] ∧
    contents s.evq = (priv_evq_get s x).mem x :: contents (priv_evq_get s x).evq ∧
    (priv_evq_get s x).evq.count = s.evq.count - 1 ∧
    (priv_evq_get s x).evq.limit = s.evq.limit := by
  have e : evq_take s x = (E_SUCCESS, priv_evq_get s x) := by
    simp [evq_take, hc, priv_evq_getUpdate_nil s x hq]
  rw [priv_evq_get_wf s x hw hc]
  refine ⟨by rw [e, priv_evq_get_wf s x hw hc], wf_get s.evq hw hc, hq, ?_, rfl, rfl⟩
  rw [contents_get s.evq hc]
  show contents s.evq = Function.update s.mem x (s.evq.data s.evq.head) x :: _
  rw [Function.update_same]
  exact contents_eq_cons s.evq hc hw.2.2.2.1

theorem evq_push_nil (s : sys_t) (w : Nat) (hw : wf s.evq) (hq : s.evq.queue = []) :
    wf (evq_push s w).evq ∧ (evq_push s w).evq.queue = [] ∧
    contents (evq_push s w).evq =
      (if s.evq.count = s.evq.limit then (contents s.evq).tail else contents s.evq) ++ [w] ∧
    (evq_push s w).evq.count =
      (if s.evq.count = s.evq.limit then s.evq.limit else s.evq.count + 1) ∧
    (evq_push s w).evq.limit = s.evq.limit := by
  by_cases hc : s.evq.count = s.evq.limit
  · have hpos : 0 < s.evq.count := by have := hw.1; omega
    have hw1 := wf_get s.evq hw hpos
    have hlt1 : s.evq.count - 1 < s.evq.limit := by omega
    rw [if_pos hc, if_pos hc]
    unfold evq_push
    rw [priv_evq_skipUpdate_full_nil s hw hc hq, priv_evq_putUpdate_nil, priv_evq_put_wf]
    · refine ⟨wf_put _ w hw1 hlt1, hq, ?_, ?_, rfl⟩
      · have h := contents_put _ w hw1 hlt1
        rw [contents_get s.evq hpos] at h
        exact h
      · show s.evq.count - 1 + 1 = s.evq.limit
        omega
    · exact hw1
    · exact hlt1
    · exact hq
  · have hlt : s.evq.count < s.evq.limit := by have := hw.2.2.1; omega
    have e : evq_push s w = priv_evq_put s w := by
      unfold evq_push priv_evq_skipUpdate
      rw [priv_evq_skipLoop_of_ne _ s hc, priv_evq_putUpdate_nil s w hq]
    rw [if_neg hc, if_neg hc, e, priv_evq_put_wf s w hw hlt]
    exact ⟨wf_put s.evq w hw hlt, hq, contents_put s.evq w hw hlt, rfl, rfl⟩

/-! ## Round trip and the one-slot queue -/

/-- C15 as stated fails on a queue that already holds words: on the queue with
contents 13, 10 and no parked task, `evq_give` of 5 and the following `evq_take`
both return `E_SUCCESS`, but the word observed is 13, the oldest one, not the
word 5 just sent. -/
theorem round_trip_observes_oldest :
    wf ex_wrap4.evq ∧ ex_wrap4.evq.count < ex_wrap4.evq.limit ∧ ex_wrap4.evq.queue = [] ∧
    contents ex_wrap4.evq = [13, 10] ∧
    (evq_give ex_wrap4 5).1 = E_SUCCESS ∧
    (evq_take (evq_give ex_wrap4 5).2 60).1 = E_SUCCESS ∧
    (evq_take (evq_give ex_wrap4 5).2 60).2.mem 60 = 13 ∧
    (evq_take (evq_give ex_wrap4 5).2 60).2.mem 60 ≠ 5 := by
  decide

/-- C15, amended: send/take round trip.  On a well-formed queue with
`count < limit` and no parked task, a send of `w` (by `evq_give`, or by
`evq_sendFor`, which does the same) followed by `evq_take` both return
`E_SUCCESS`, the word observed is the oldest word of the queue after the send,
that is the first element of the old contents followed by `w`, which is the word
sent when the queue was empty before the send, and `count` is restored to its
value before the send. -/
theorem send_take_round_trip (s : sys_t) (w x delay : Nat)
    (hw : wf s.evq) (hc : s.evq.count < s.evq.limit) (hq : s.evq.queue = []) :
    (evq_give s w).1 = E_SUCCESS ∧
    evq_sendFor s w delay = (some E_SUCCESS, (evq_give s w).2) ∧
    (evq_take (evq_give s w).2 x).1 = E_SUCCESS ∧
    (contents s.evq ++ [w]).head? = some ((evq_take (evq_give s w).2 x).2.mem x) ∧
    (s.evq.count = 0 → (evq_take (evq_give s w).2 x).2.mem x = w) ∧
    (evq_take (evq_give s w).2 x).2.evq.count = s.evq.count := by
  obtain ⟨e1, hw1, hq1, hco1, hc1, hl1, _⟩ := evq_give_nil s w hw hq hc
  obtain ⟨e2, _, _, hco2, hc2, _⟩ :=
    evq_take_nil (priv_evq_put s w) x hw1 hq1 (by rw [hc1]; omega)
  have es : evq_sendFor s w delay = (some E_SUCCESS, priv_evq_put s w) := by
    simp [evq_sendFor, priv_evq_send, hc, priv_evq_putUpdate_nil s w hq]
  rw [e1, es, e2]
  rw [hco1] at hco2
  refine ⟨rfl, rfl, rfl, ?_, ?_, ?_⟩
  · show (contents s.evq ++ [w]).head? = some ((priv_evq_get (priv_evq_put s w) x).mem x)
    rw [hco2]
    rfl
  · intro h0
    have hnil : contents s.evq = [] := contents_of_count_zero s.evq h0
    rw [hnil] at hco2
    simp at hco2
    exact hco2.1.symm
  · show (priv_evq_get (priv_evq_put s w) x).evq.count = s.evq.count
    rw [hc2, hc1]
    omega

theorem send_take_round_trip_witness :
    wf ex_wrap4.evq ∧ ex_wrap4.evq.count < ex_wrap4.evq.limit ∧ ex_wrap4.evq.queue = [] ∧
    ((evq_give ex_wrap4 5).1 = E_SUCCESS ∧
     evq_sendFor ex_wrap4 5 9 = (some E_SUCCESS, (evq_give ex_wrap4 5).2) ∧
     (evq_take (evq_give ex_wrap4 5).2 60).1 = E_SUCCESS ∧
     (contents ex_wrap4.evq ++ [5]).head? =
       some ((evq_take (evq_give ex_wrap4 5).2 60).2.mem 60) ∧
     (ex_wrap4.evq.count = 0 → (evq_take (evq_give ex_wrap4 5).2 60).2.mem 60 = 5) ∧
     (evq_take (evq_give ex_wrap4 5).2 60).2.evq.count = ex_wrap4.evq.count) :=
  ⟨by decide, by decide, by decide,
   send_take_round_trip ex_wrap4 5 60 9 (by decide) (by decide) (by decide)⟩

/-- C18: one-slot mailbox: on a well-formed queue with `limit = 1` that is empty
and has no parked task, `evq_give` of `w` returns `E_SUCCESS`, a second
`evq_give` of `v` returns `E_TIMEOUT` and changes nothing (it does not replace
`w`), `evq_take` then returns `E_SUCCESS` with `w`, and a second `evq_take`
returns `E_TIMEOUT`; after the take the queue is empty again with
`head = tail = 0`. -/
theorem one_slot_mailbox (s : sys_t) (w v x y : Nat)
    (hw : wf s.evq) (hl : s.evq.limit = 1) (hc : s.evq.count = 0)
    (hq : s.evq.queue = []) :
    (evq_give s w).1 = E_SUCCESS ∧
    evq_give (evq_give s w).2 v = (E_TIMEOUT, (evq_give s w).2) ∧
    contents (evq_give (evq_give s w).2 v).2.evq = [w] ∧
    (evq_take (evq_give (evq_give s w).2 v).2 x).1 = E_SUCCESS ∧
    (evq_take (evq_give (evq_give s w).2 v).2 x).2.mem x = w ∧
    (evq_take (evq_take (evq_give (evq_give s w).2 v).2 x).2 y).1 = E_TIMEOUT ∧
    (evq_take (evq_give (evq_give s w).2 v).2 x).2.evq.count = 0 ∧
    (evq_take (evq_give (evq_give s w).2 v).2 x).2.evq.head = 0 ∧
    (evq_take (evq_give (evq_give s w).2 v).2 x).2.evq.tail = 0 := by
  have hlt : s.evq.count < s.evq.limit := by omega
  obtain ⟨e1, hw1, hq1, hco1, hc1, hl1, _⟩ := evq_give_nil s w hw hq hlt
  have hfull : ¬ (priv_evq_put s w).evq.count < (priv_evq_put s w).evq.limit := by
    rw [hc1, hl1]
    omega
  have e2 : evq_give (priv_evq_put s w) v = (E_TIMEOUT, priv_evq_put s w) := by
    simp [evq_give, hfull]
  obtain ⟨e3, hw3, hq3, hco3, hc3, hl3⟩ :=
    evq_take_nil (priv_evq_put s w) x hw1 hq1 (by rw [hc1]; omega)
  have hc30 : (priv_evq_get (priv_evq_put s w) x).evq.count = 0 := by
    rw [hc3, hc1]
    omega
  have e4 : evq_take (priv_evq_get (priv_evq_put s w) x) y =
      (E_TIMEOUT, priv_evq_get (priv_evq_put s w) x) := by
    simp [evq_take, hc30]
  have hnil : contents s.evq = [] := contents_of_count_zero s.evq hc
  rw [hco1, hnil, List.nil_append] at hco3
  rw [e1, e2, e3, e4]
  obtain ⟨_, _, _, hh3, ht3, _⟩ := hw3
  rw [hl3, hl1, hl] at hh3 ht3
  refine ⟨rfl, rfl, ?_, rfl, ?_, rfl, hc30, ?_, ?_⟩
  · show contents (priv_evq_put s w).evq = [w]
    rw [hco1, hnil]
    rfl
  · simp at hco3
    exact hco3.1.symm
  · show (priv_evq_get (priv_evq_put s w) x).evq.head = 0
    omega
  · show (priv_evq_get (priv_evq_put s w) x).evq.tail = 0
    omega

/-- C19: back-to-back push on a one-slot queue keeps the newest word: on a
well-formed queue with `limit = 1` and no parked task, empty or full, after
`evq_push` of `a` and `evq_push` of `b` the queue has `count = 1` and holds
exactly `b`; the next `evq_take` returns `E_SUCCESS` with `b`, after which the
queue is empty. -/
theorem one_slot_push_push (s : sys_t) (a b x : Nat)
    (hw : wf s.evq) (hl : s.evq.limit = 1) (hq : s.evq.queue = []) :
    (evq_push (evq_push s a) b).evq.count = 1 ∧
    contents (evq_push (evq_push s a) b).evq = [b] ∧
    (evq_take (evq_push (evq_push s a) b) x).1 = E_SUCCESS ∧
    (evq_take (evq_push (evq_push s a) b) x).2.mem x = b ∧
    (evq_take (evq_push (evq_push s a) b) x).2.evq.count = 0 ∧
    contents (evq_take (evq_push (evq_push s a) b) x).2.evq = [] := by
  have hcl := hw.2.2.1
  obtain ⟨hw1, hq1, hco1, hc1, hl1⟩ := evq_push_nil s a hw hq
  have hc1' : (evq_push s a).evq.count = 1 := by
    rw [hc1]
    split <;> omega
  have hfull1 : (evq_push s a).evq.count = (evq_push s a).evq.limit := by
    rw [hc1', hl1, hl]
  obtain ⟨hw2, hq2, hco2, hc2, hl2⟩ := evq_push_nil (evq_push s a) b hw1 hq1
  rw [if_pos hfull1] at hco2 hc2
  have hlen1 : (contents (evq_push s a).evq).length = 1 := by
    rw [contents_length, hc1']
  have htl : (contents (evq_push s a).evq).tail = [] := by
    apply List.eq_nil_of_length_eq_zero
    rw [List.length_tail, hlen1]
  rw [htl, List.nil_append] at hco2
  have hc2' : (evq_push (evq_push s a) b).evq.count = 1 := by
    rw [hc2, hl1, hl]
  obtain ⟨e3, _, _, hco3, hc3, _⟩ :=
    evq_take_nil (evq_push (evq_push s a) b) x hw2 hq2 (by rw [hc2']; omega)
  rw [hco2] at hco3
  simp at hco3
  have hc30 : (priv_evq_get (evq_push (evq_push s a) b) x).evq.count = 0 := by
    rw [hc3, hc2']
  rw [e3]
  exact ⟨hc2', hco2, rfl, hco3.1.symm, hc30, hco3.2⟩

theorem one_slot_mailbox_witness :
    wf ex_slot_empty.evq ∧ ex_slot_empty.evq.limit = 1 ∧ ex_slot_empty.evq.count = 0 ∧
    ex_slot_empty.evq.queue = [] ∧
    ((evq_give ex_slot_empty 7).1 = E_SUCCESS ∧
     evq_give (evq_give ex_slot_empty 7).2 8 = (E_TIMEOUT, (evq_give ex_slot_empty 7).2) ∧
     contents (evq_give (evq_give ex_slot_empty 7).2 8).2.evq = [7] ∧
     (evq_take (evq_give (evq_give ex_slot_empty 7).2 8).2 50).1 = E_SUCCESS ∧
     (evq_take (evq_give (evq_give ex_slot_empty 7).2 8).2 50).2.mem 50 = 7 ∧
     (evq_take (evq_take (evq_give (evq_give ex_slot_empty 7).2 8).2 50).2 60).1
       = E_TIMEOUT ∧
     (evq_take (evq_give (evq_give ex_slot_empty 7).2 8).2 50).2.evq.count = 0 ∧
     (evq_take (evq_give (evq_give ex_slot_empty 7).2 8).2 50).2.evq.head = 0 ∧
     (evq_take (evq_give (evq_give ex_slot_empty 7).2 8).2 50).2.evq.tail = 0) :=
  ⟨by decide, by decide, by decide, by decide,
   one_slot_mailbox ex_slot_empty 7 8 50 60 (by decide) (by decide) (by decide)
     (by decide)⟩

theorem one_slot_push_push_witness :
    wf ex_slot_full.evq ∧ ex_slot_full.evq.limit = 1 ∧ ex_slot_full.evq.queue = [] ∧
    ((evq_push (evq_push ex_slot_full 7) 8).evq.count = 1 ∧
     contents (evq_push (evq_push ex_slot_full 7) 8).evq = [8] ∧
     (evq_take (evq_push (evq_push ex_slot_full 7) 8) 50).1 = E_SUCCESS ∧
     (evq_take (evq_push (evq_push ex_slot_full 7) 8) 50).2.mem 50 = 8 ∧
     (evq_take (evq_push (evq_push ex_slot_full 7) 8) 50).2.evq.count = 0 ∧
     contents (evq_take (evq_push (evq_push ex_slot_full 7) 8) 50).2.evq = []) :=
  ⟨by decide, by decide, by decide,
   one_slot_push_push ex_slot_full 7 8 50 (by decide) (by decide) (by decide)⟩

/-! ## Initialisation -/

theorem space_no_wrap (c L : Nat) (hc : c ≤ L) (hL : L < UINT_RANGE) :
    (UINT_RANGE - c + L) % UINT_RANGE = L - c := by
  unfold UINT_RANGE at *
  omega

/-- C20: `evq_init` establishes the empty queue: for every buffer and every
`bufsize` accepted by its assertions (a non-zero `unsigned`), afterwards
`limit = bufsize / sizeof(unsigned)` (integer division, rounding down), the data
pointer is the given buffer, `head = tail = count = 0`, the waiter queue is empty
and `obj.res` is null; consequently `evq_count` returns 0, `evq_space` returns
`limit` and `evq_limit` returns `limit`. -/
theorem evq_init_establishes_empty (s : sys_t) (data : Nat → Nat) (bufsize : Nat)
    (_h0 : 0 < bufsize) (hb : bufsize < UINT_RANGE) :
    (evq_init s data bufsize).evq.limit = bufsize / SIZEOF_UNSIGNED ∧
    (evq_init s data bufsize).evq.data = data ∧
    (evq_init s data bufsize).evq.head = 0 ∧
    (evq_init s data bufsize).evq.tail = 0 ∧
    (evq_init s data bufsize).evq.count = 0 ∧
    (evq_init s data bufsize).evq.queue = [] ∧
    (evq_init s data bufsize).evq.res = 0 ∧
    evq_count (evq_init s data bufsize) = 0 ∧
    evq_space (evq_init s data bufsize) = bufsize / SIZEOF_UNSIGNED ∧
    evq_limit (evq_init s data bufsize) = bufsize / SIZEOF_UNSIGNED := by
  have hL : bufsize / SIZEOF_UNSIGNED < UINT_RANGE :=
    Nat.lt_of_le_of_lt (Nat.div_le_self _ _) hb
  have hs := space_no_wrap 0 (bufsize / SIZEOF_UNSIGNED) (Nat.zero_le _) hL
  refine ⟨rfl, rfl, rfl, rfl, rfl, rfl, rfl, rfl, ?_, rfl⟩
  simp only [evq_space, priv_evq_space, evq_init]
  rw [hs, Nat.sub_zero]

theorem evq_init_establishes_empty_witness :
    0 < 10 ∧ 10 < UINT_RANGE ∧
    ((evq_init ex_full2 (fun i => i) 10).evq.limit = 10 / SIZEOF_UNSIGNED ∧
     (evq_init ex_full2 (fun i => i) 10).evq.data = (fun i => i) ∧
     (evq_init ex_full2 (fun i => i) 10).evq.head = 0 ∧
     (evq_init ex_full2 (fun i => i) 10).evq.tail = 0 ∧
     (evq_init ex_full2 (fun i => i) 10).evq.count = 0 ∧
     (evq_init ex_full2 (fun i => i) 10).evq.queue = [] ∧
     (evq_init ex_full2 (fun i => i) 10).evq.res = 0 ∧
     evq_count (evq_init ex_full2 (fun i => i) 10) = 0 ∧
     evq_space (evq_init ex_full2 (fun i => i) 10) = 10 / SIZEOF_UNSIGNED ∧
     evq_limit (evq_init ex_full2 (fun i => i) 10) = 10 / SIZEOF_UNSIGNED) :=
  ⟨by decide, by decide,
   evq_init_establishes_empty ex_full2 (fun i => i) 10 (by decide) (by decide)⟩

/-- The initialisation evaluated on a buffer of 10 bytes: the limit is 2 words
(rounding down), the queue is empty and the space is 2. -/
theorem init_scenario :
    (evq_init ex_full2 (fun i => i) 10).evq.limit = 2 ∧
    evq_count (evq_init ex_full2 (fun i => i) 10) = 0 ∧
    evq_space (evq_init ex_full2 (fun i => i) 10) = 2 := by
  decide

/-! ## Zero-length buffers -/

theorem evq_init_limit_pos (s : sys_t) (data : Nat → Nat) (bufsize : Nat)
    (h : SIZEOF_UNSIGNED ≤ bufsize) :
    evq_limit_asserts (evq_init s data bufsize) = true := by
  have h1 : 0 < bufsize / SIZEOF_UNSIGNED := Nat.div_pos h (by decide)
  simp only [evq_limit_asserts, evq_init, decide_eq_true_eq]
  omega

/-- C21: the claim does not hold of the code: `evq_init` asserts `bufsize != 0`
only, so a `bufsize` of 1, 2 or 3 bytes passes its assertions and gives a queue
with `limit == 0`, on which the `assert(evq->limit)` of every operation fails;
the assertion of `evq_init` misses the buffers shorter than one word. -/
theorem evq_init_accepts_short_buffer :
    evq_init_asserts 3 = true ∧
    (evq_init ex_empty4 (fun _ => 0) 3).evq.limit = 0 ∧
    evq_limit_asserts (evq_init ex_empty4 (fun _ => 0) 3) = false ∧
    evq_init_asserts 1 = true ∧
    evq_limit_asserts (evq_init ex_empty4 (fun _ => 0) 1) = false ∧
    evq_init_asserts 0 = false ∧
    evq_limit_asserts (evq_init ex_empty4 (fun _ => 0) 4) = true := by
  decide

/-! ## The accessors -/

/-- C22: the accessors report the occupancy of the queue: on every well-formed
queue `evq_count` returns `count`, `evq_limit` returns `limit` and `evq_space`
returns `limit - count` without wrap-around, so that
`evq_count(q) + evq_space(q) == evq_limit(q)`; the accessors are functions of
the state that return a number and no state, as the source functions read the
fields and write none. -/
theorem accessors_report_occupancy (s : sys_t) (hw : wf s.evq) :
    evq_count s = s.evq.count ∧ evq_limit s = s.evq.limit ∧
    evq_space s = s.evq.limit - s.evq.count ∧
    evq_space s + s.evq.count = s.evq.limit ∧
    evq_count s + evq_space s = evq_limit s := by
  have hs : evq_space s = s.evq.limit - s.evq.count :=
    space_no_wrap s.evq.count s.evq.limit hw.2.2.1 hw.2.1
  have hc : evq_count s = s.evq.count := rfl
  have hl : evq_limit s = s.evq.limit := rfl
  have := hw.2.2.1
  refine ⟨hc, hl, hs, ?_, ?_⟩
  · rw [hs]; omega
  · rw [hs, hc, hl]; omega

theorem accessors_report_occupancy_witness :
    wf ex_wrap4.evq ∧
    (evq_count ex_wrap4 = ex_wrap4.evq.count ∧ evq_limit ex_wrap4 = ex_wrap4.evq.limit ∧
     evq_space ex_wrap4 = ex_wrap4.evq.limit - ex_wrap4.evq.count ∧
     evq_space ex_wrap4 + ex_wrap4.evq.count = ex_wrap4.evq.limit ∧
     evq_count ex_wrap4 + evq_space ex_wrap4 = evq_limit ex_wrap4) :=
  ⟨by decide, accessors_report_occupancy ex_wrap4 (by decide)⟩

/-- The accessors evaluated on the queue of limit 4 holding two words. -/
theorem accessors_scenario :
    evq_count ex_wrap4 = 2 ∧ evq_space ex_wrap4 = 2 ∧ evq_limit ex_wrap4 = 4 ∧
    evq_count ex_full2 = 2 ∧ evq_space ex_full2 = 0 ∧ evq_limit ex_full2 = 2 := by
  decide

/-! ## Semaphore initialisers -/

/-- C23: the semaphore initialiser establishes `count <= limit`: for every pair
of values `init` and `limit`, `_SEM_INIT(init, limit)` yields a semaphore with
the limit field `limit` and with `count == min(init, limit)`, and the
constructor `Semaphore`, `Semaphore::Direct()`, `Semaphore::Binary(init)` and
`Semaphore::Counting(init)` yield the semaphore of `_SEM_INIT` with their limit
(the given one or `semDefault`, `semDirect`, `semBinary`, `semCounting`), an
omitted `init` being 0: `Direct()` has `count == 0` and `limit == 0`,
`Binary(init)` has the limit 1 and `count == min(init, 1)`, which is 0 or 1, and
`Counting(init)` has the limit `UINT_MAX` and `count == min(init, UINT_MAX)`. -/
theorem sem_init_count_le_limit (init limit : Nat) :
    (_SEM_INIT init limit).limit = limit ∧
    (_SEM_INIT init limit).count = min init limit ∧
    (_SEM_INIT init limit).count ≤ (_SEM_INIT init limit).limit ∧
    (Semaphore init (some limit)).limit = limit ∧
    (Semaphore init (some limit)).count = min init limit ∧
    (Semaphore init none).limit = semCounting ∧
    (Semaphore init none).count = min init semCounting ∧
    Semaphore_Direct.count = 0 ∧ Semaphore_Direct.limit = 0 ∧
    (Semaphore_Binary (some init)).limit = 1 ∧
    ((Semaphore_Binary (some init)).count = 0 ∨ (Semaphore_Binary (some init)).count = 1) ∧
    (Semaphore_Binary none).count = 0 ∧
    (Semaphore_Counting (some init)).limit = UINT_MAX ∧
    (Semaphore_Counting (some init)).count = min init UINT_MAX ∧
    (Semaphore_Counting none).count = 0 ∧
    Semaphore init (some limit) = _SEM_INIT init limit ∧
    Semaphore init none = _SEM_INIT init semDefault ∧
    Semaphore_Direct = _SEM_INIT 0 semDirect ∧
    Semaphore_Binary (some init) = _SEM_INIT init semBinary ∧
    Semaphore_Binary none = _SEM_INIT 0 semBinary ∧
    Semaphore_Counting (some init) = _SEM_INIT init semCounting ∧
    Semaphore_Counting none = _SEM_INIT 0 semCounting ∧
    (Semaphore_Binary (some init)).count = min init 1 ∧
    (Semaphore_Binary (some init)).count ≤ (Semaphore_Binary (some init)).limit ∧
    (Semaphore_Binary none).limit = 1 ∧
    (Semaphore_Counting (some init)).count ≤ (Semaphore_Counting (some init)).limit ∧
    (Semaphore_Counting none).limit = UINT_MAX ∧
    (Semaphore init (some limit)).count ≤ (Semaphore init (some limit)).limit ∧
    (Semaphore init none).count ≤ (Semaphore init none).limit := by
  have h : ∀ a b : Nat, (_SEM_INIT a b).count = min a b := by
    intro a b
    show (if a < b then a else b) = min a b
    split <;> omega
  have hle : ∀ a b : Nat, (_SEM_INIT a b).count ≤ (_SEM_INIT a b).limit := by
    intro a b
    rw [h]
    exact Nat.min_le_right _ _
  have hb : (Semaphore_Binary (some init)).count = min init 1 := h init semBinary
  refine ⟨rfl, h _ _, hle _ _, rfl, h _ _, rfl, h _ _, rfl, rfl, rfl, ?_, rfl, rfl, h _ _,
    rfl, rfl, rfl, rfl, rfl, rfl, rfl, rfl, hb, hle _ _, rfl, hle _ _, rfl, hle _ _,
    hle _ _⟩
  rw [hb]
  omega

/-- The initialisers evaluated. -/
theorem sem_init_scenario :
    (_SEM_INIT 5 3).count = 3 ∧ (_SEM_INIT 2 3).count = 2 ∧ (_SEM_INIT 5 3).limit = 3 ∧
    (Semaphore_Binary (some 7)).count = 1 ∧ (Semaphore_Binary (some 0)).count = 0 ∧
    Semaphore_Direct.limit = 0 ∧ (Semaphore_Counting (some 9)).count = 9 := by
  decide

theorem va_sem_some (l : Nat) :
    _VA_SEM (some l) =
      if (l + 0) % UINT_RANGE ≠ 0 then (l + 0) % UINT_RANGE else semDefault := rfl

theorem va_sem_of_pos (l : Nat) (h0 : 0 < l) (hl : l < UINT_RANGE) :
    _VA_SEM (some l) = l := by
  have e : (l + 0) % UINT_RANGE = l := Nat.mod_eq_of_lt hl
  rw [va_sem_some, e, if_pos (by omega)]

theorem va_sem_twice (a : Option Nat) : _VA_SEM (some (_VA_SEM a)) = _VA_SEM a := by
  have hc : _VA_SEM (some semDefault) = semDefault := by decide
  cases a with
  | none => exact hc
  | some l =>
    by_cases h : (l + 0) % UINT_RANGE ≠ 0
    · have e : _VA_SEM (some l) = (l + 0) % UINT_RANGE := by
        rw [va_sem_some, if_pos h]
      rw [e]
      exact va_sem_of_pos _ (Nat.pos_of_ne_zero h) (Nat.mod_lt _ (by decide))
    · have e : _VA_SEM (some l) = semDefault := by
        rw [va_sem_some, if_neg h]
      rw [e]
      exact hc

/-- Where the limit argument selects the limit: an argument other than 0 gives that limit,
an omitted argument gives `semCounting`, and `SEM_CREATE`, which applies
`_VA_SEM` twice, gives the limit of `SEM_INIT`. -/
theorem os_sem_limit (init : Nat) (l : Nat) (h0 : 0 < l) (hl : l < UINT_RANGE)
    (a : Option Nat) :
    (OS_SEM init (some l)).limit = l ∧ (OS_SEM init none).limit = semCounting ∧
    (SEM_CREATE init a).limit = (OS_SEM init a).limit := by
  refine ⟨va_sem_of_pos l h0 hl, rfl, ?_⟩
  show _VA_SEM (some (_VA_SEM a)) = _VA_SEM a
  exact va_sem_twice a

/-- C24: the claim does not hold of the code for the argument `semDirect`:
`_VA_SEM` takes it for an omitted argument, as it is 0, so `OS_SEM`,
`static_SEM`, `SEM_INIT` and `SEM_CREATE` with `semDirect` define a counting
semaphore (limit `UINT_MAX`) where the documentation of the macros promises a
direct semaphore (limit 0); `semBinary` and `semCounting` give the limits 1 and
`UINT_MAX`. -/
theorem os_sem_direct_is_counting :
    (OS_SEM 0 (some semDirect)).limit = 4294967295 ∧
    (OS_SEM 0 (some semDirect)).limit ≠ semDirect ∧
    (OS_SEM 0 (some semDirect)) = (OS_SEM 0 (some semCounting)) ∧
    (SEM_CREATE 0 (some semDirect)).limit = 4294967295 ∧
    Semaphore_Direct.limit = 0 ∧
    (OS_SEM 0 (some semBinary)).limit = 1 ∧
    (OS_SEM 0 (some semCounting)).limit = 4294967295 ∧
    (OS_SEM 0 none).limit = 4294967295 := by
  decide

/-! ## The overwrite loop, iteration by iteration -/

theorem priv_evq_skipLoop_succ (n : Nat) (s : sys_t) :
    priv_evq_skipLoop (n + 1) s =
      if s.evq.count = s.evq.limit then priv_evq_skipLoop n (priv_evq_skipBody s) else s := by
  by_cases hc : s.evq.count = s.evq.limit
  · simp only [priv_evq_skipLoop, priv_evq_skipBody, hc, if_true]
    generalize core_one_wakeup (priv_evq_skip s) E_SUCCESS = r
    rcases r with ⟨_ | t, s2⟩ <;> rfl
  · simp only [priv_evq_skipLoop, hc, if_false]

theorem priv_evq_skipBody_nil (s : sys_t) (hw : wf s.evq) (hc : s.evq.count = s.evq.limit)
    (hq : s.evq.queue = []) :
    priv_evq_skipBody s =
      { s with
        evq := { s.evq with count := s.evq.count - 1
                            head := (s.evq.head + 1) % s.evq.limit } } := by
  have hpos : 0 < s.evq.count := by have := hw.1; omega
  unfold priv_evq_skipBody
  rw [priv_evq_skip_wf s hw hpos]
  simp only [core_one_wakeup, hq]

theorem priv_evq_skipBody_cons (s : sys_t) (t : tsk_t) (rest : List tsk_t)
    (hw : wf s.evq) (hc : s.evq.count = s.evq.limit) (hq : s.evq.queue = t :: rest) :
    priv_evq_skipBody s =
      { s with
        woken := s.woken ++ [(t, E_SUCCESS)]
        evq := { s.evq with queue := rest
                            head := (s.evq.head + 1) % s.evq.limit
                            data := Function.update s.evq.data s.evq.tail t.tmp_out
                            tail := (s.evq.tail + 1) % s.evq.limit
                            count := s.evq.count - 1 + 1 } } := by
  have hpos : 0 < s.evq.count := by have := hw.1; omega
  have hw1 := wf_get s.evq hw hpos
  unfold priv_evq_skipBody
  rw [priv_evq_skip_wf s hw hpos]
  simp only [core_one_wakeup, hq]
  rw [priv_evq_put_wf _ _ (wf_queue _ rest hw1)
    (by show s.evq.count - 1 < s.evq.limit; omega)]

/-- The last iteration of the overwrite loop, on a well-formed full queue
without a parked task: the oldest word is dropped, nobody is woken and one slot
is free. -/
theorem priv_evq_skipBody_last (s : sys_t) (hw : wf s.evq)
    (hc : s.evq.count = s.evq.limit) (hq : s.evq.queue = []) :
    wf (priv_evq_skipBody s).evq ∧ (priv_evq_skipBody s).evq.queue = [] ∧
    (priv_evq_skipBody s).evq.count + 1 = s.evq.limit ∧
    (priv_evq_skipBody s).evq.limit = s.evq.limit ∧
    (priv_evq_skipBody s).woken = s.woken ∧
    contents (priv_evq_skipBody s).evq = (contents s.evq).tail ∧
    (priv_evq_skipBody s).mem = s.mem ∧ (priv_evq_skipBody s).writes = s.writes ∧
    (priv_evq_skipBody s).fault = s.fault := by
  have hpos : 0 < s.evq.count := by have := hw.1; omega
  rw [priv_evq_skipBody_nil s hw hc hq]
  refine ⟨wf_get s.evq hw hpos, hq, ?_, rfl, rfl, contents_get s.evq hpos, rfl, rfl, rfl⟩
  show s.evq.count - 1 + 1 = s.evq.limit
  omega

/-- An iteration of the overwrite loop on a well-formed full queue with a parked
task: the oldest word is dropped, the task at the head of the waiter queue is
woken with `E_SUCCESS` and the word of its `tmp_out` is appended; the queue is
full again. -/
theorem priv_evq_skipBody_full (s : sys_t) (t : tsk_t) (rest : List tsk_t) (hw : wf s.evq)
    (hc : s.evq.count = s.evq.limit) (hq : s.evq.queue = t :: rest) :
    wf (priv_evq_skipBody s).evq ∧ (priv_evq_skipBody s).evq.queue = rest ∧
    (priv_evq_skipBody s).evq.count = (priv_evq_skipBody s).evq.limit ∧
    (priv_evq_skipBody s).evq.limit = s.evq.limit ∧
    (priv_evq_skipBody s).woken = s.woken ++ [(t, E_SUCCESS)] ∧
    contents (priv_evq_skipBody s).evq = (contents s.evq).tail ++ [t.tmp_out] ∧
    (priv_evq_skipBody s).mem = s.mem ∧ (priv_evq_skipBody s).writes = s.writes ∧
    (priv_evq_skipBody s).fault = s.fault := by
  have hpos : 0 < s.evq.count := by have := hw.1; omega
  have hw1 := wf_get s.evq hw hpos
  have hlt : s.evq.count - 1 < s.evq.limit := by omega
  rw [priv_evq_skipBody_cons s t rest hw hc hq]
  refine ⟨wf_queue _ rest (wf_put _ t.tmp_out hw1 hlt), rfl, ?_, rfl, rfl, ?_, rfl, rfl, rfl⟩
  · show s.evq.count - 1 + 1 = s.evq.limit
    omega
  · have e := contents_put _ t.tmp_out hw1 hlt
    rw [contents_get s.evq hpos] at e
    exact e

/-- The overwrite loop on a full queue, in full: it wakes every parked task with
`E_SUCCESS` in waiter-queue order, the buffer holds what is left of the old
contents followed by the words of the woken tasks after one drop per iteration,
and one slot is free. -/
theorem priv_evq_skipLoop_drains (n : Nat) :
    ∀ s : sys_t, wf s.evq → s.evq.count = s.evq.limit → s.evq.queue.length + 1 ≤ n →
      wf (priv_evq_skipLoop n s).evq ∧ (priv_evq_skipLoop n s).evq.queue = [] ∧
      (priv_evq_skipLoop n s).evq.count + 1 = s.evq.limit ∧
      (priv_evq_skipLoop n s).evq.limit = s.evq.limit ∧
      (priv_evq_skipLoop n s).woken =
        s.woken ++ s.evq.queue.map (fun t => (t, E_SUCCESS)) ∧
      contents (priv_evq_skipLoop n s).evq =
        (contents s.evq ++ s.evq.queue.map tsk_t.tmp_out).drop (s.evq.queue.length + 1) ∧
      (priv_evq_skipLoop n s).mem = s.mem ∧ (priv_evq_skipLoop n s).writes = s.writes ∧
      (priv_evq_skipLoop n s).fault = s.fault := by
  induction n with
  | zero => intro s _ _ h; omega
  | succ n ih =>
    intro s hw hc h
    have hpos : 0 < s.evq.count := by have := hw.1; omega
    rw [priv_evq_skipLoop_succ, if_pos hc]
    cases hq : s.evq.queue with
    | nil =>
      obtain ⟨b1, b2, b3, b4, b5, b6, b7, b8, b9⟩ := priv_evq_skipBody_last s hw hc hq
      rw [priv_evq_skipLoop_of_ne n _ (by rw [b4]; omega)]
      refine ⟨b1, b2, b3, b4, ?_, ?_, b7, b8, b9⟩
      · rw [b5]; simp
      · rw [b6]; simp
    | cons t rest =>
      obtain ⟨b1, b2, b3, b4, b5, b6, b7, b8, b9⟩ := priv_evq_skipBody_full s t rest hw hc hq
      have hlen : (priv_evq_skipBody s).evq.queue.length + 1 ≤ n := by
        rw [b2]
        rw [hq] at h
        simp at h
        omega
      obtain ⟨a1, a2, a3, a4, a5, a6, a7, a8, a9⟩ := ih _ b1 b3 hlen
      refine ⟨a1, a2, by rw [a3, b4], by rw [a4, b4], ?_, ?_, by rw [a7, b7],
        by rw [a8, b8], by rw [a9, b9]⟩
      · rw [a5, b5, b2]
        simp
      · rw [a6, b6, b2]
        have hne : contents s.evq ≠ [] := by
          intro e
          have := contents_length s.evq
          rw [e] at this
          simp at this
          omega
        obtain ⟨c, cs, hcs⟩ := List.exists_cons_of_ne_nil hne
        rw [hcs]
        simp

theorem priv_evq_skipUpdate_drains (s : sys_t) (hw : wf s.evq)
    (hc : s.evq.count = s.evq.limit) :
    wf (priv_evq_skipUpdate s).evq ∧ (priv_evq_skipUpdate s).evq.queue = [] ∧
    (priv_evq_skipUpdate s).evq.count + 1 = s.evq.limit ∧
    (priv_evq_skipUpdate s).evq.limit = s.evq.limit ∧
    (priv_evq_skipUpdate s).woken =
      s.woken ++ s.evq.queue.map (fun t => (t, E_SUCCESS)) ∧
    contents (priv_evq_skipUpdate s).evq =
      (contents s.evq ++ s.evq.queue.map tsk_t.tmp_out).drop (s.evq.queue.length + 1) ∧
    (priv_evq_skipUpdate s).mem = s.mem ∧ (priv_evq_skipUpdate s).writes = s.writes ∧
    (priv_evq_skipUpdate s).fault = s.fault :=
  priv_evq_skipLoop_drains (s.evq.queue.length + 1) s hw hc (Nat.le_refl _)

theorem priv_evq_skipIters_of_ne (n : Nat) (s : sys_t) (h : s.evq.count ≠ s.evq.limit) :
    priv_evq_skipIters n s = 0 := by
  cases n <;> simp [priv_evq_skipIters, h]

theorem priv_evq_skipIters_succ (n : Nat) (s : sys_t) (h : s.evq.count = s.evq.limit) :
    priv_evq_skipIters (n + 1) s = priv_evq_skipIters n (priv_evq_skipBody s) + 1 := by
  simp [priv_evq_skipIters, h]

/-- On a well-formed queue the loop never executes more iterations than there
are parked tasks plus one, whatever number of iterations it is allowed. -/
theorem priv_evq_skipIters_le (n : Nat) :
    ∀ s : sys_t, wf s.evq → priv_evq_skipIters n s ≤ s.evq.queue.length + 1 := by
  induction n with
  | zero => intro s _; simp [priv_evq_skipIters]
  | succ n ih =>
    intro s hw
    by_cases hc : s.evq.count = s.evq.limit
    · rw [priv_evq_skipIters_succ n s hc]
      cases hq : s.evq.queue with
      | nil =>
        obtain ⟨_, _, b3, b4, _⟩ := priv_evq_skipBody_last s hw hc hq
        rw [priv_evq_skipIters_of_ne n _ (by rw [b4]; omega)]
        simp
      | cons t rest =>
        obtain ⟨b1, b2, _⟩ := priv_evq_skipBody_full s t rest hw hc hq
        have := ih _ b1
        rw [b2] at this
        simp only [List.length_cons]
        omega
    · rw [priv_evq_skipIters_of_ne _ s hc]
      omega

/-- On a well-formed full queue the loop executes exactly one iteration per
parked task and one more. -/
theorem priv_evq_skipIters_full (n : Nat) :
    ∀ s : sys_t, wf s.evq → s.evq.count = s.evq.limit → s.evq.queue.length + 1 ≤ n →
      priv_evq_skipIters n s = s.evq.queue.length + 1 := by
  induction n with
  | zero => intro s _ _ h; omega
  | succ n ih =>
    intro s hw hc h
    rw [priv_evq_skipIters_succ n s hc]
    cases hq : s.evq.queue with
    | nil =>
      obtain ⟨_, _, b3, b4, _⟩ := priv_evq_skipBody_last s hw hc hq
      rw [priv_evq_skipIters_of_ne n _ (by rw [b4]; omega)]
      rfl
    | cons t rest =>
      obtain ⟨b1, b2, b3, _⟩ := priv_evq_skipBody_full s t rest hw hc hq
      rw [hq] at h
      simp only [List.length_cons] at h
      have := ih _ b1 b3 (by rw [b2]; omega)
      rw [b2] at this
      rw [this]
      rfl

theorem priv_evq_skipIters_fuel (n : Nat) (s : sys_t) (hw : wf s.evq)
    (h : s.evq.queue.length + 1 ≤ n) :
    priv_evq_skipIters n s = priv_evq_skipIters (s.evq.queue.length + 1) s := by
  by_cases hc : s.evq.count = s.evq.limit
  · rw [priv_evq_skipIters_full n s hw hc h,
      priv_evq_skipIters_full _ s hw hc (Nat.le_refl _)]
  · rw [priv_evq_skipIters_of_ne _ s hc, priv_evq_skipIters_of_ne _ s hc]

/-! ## Push drains the parked producers -/

theorem forall2_producer_words :
    ∀ (vs : List Nat) (q : List tsk_t),
      List.Forall₂ parked_as (vs.map park_t.producer) q → q.map tsk_t.tmp_out = vs := by
  intro vs
  induction vs with
  | nil =>
    intro q h
    cases h
    rfl
  | cons v vs ih =>
    intro q h
    cases h with
    | cons hab hrest =>
      rw [List.map_cons, ih _ hrest]
      have e : _ = v := hab
      rw [e]

theorem wakes_helper (K : Prop) (s s1 : sys_t) (W : List (tsk_t × event_t))
    (h : s1.woken = s.woken ++ W) (hl : W.length ≤ 1) :
    ∃ W : List (tsk_t × event_t), s1.woken = s.woken ++ W ∧
      (W.length ≤ 1 ∨ (K ∧ ∀ x ∈ W, x.2 = E_STOPPED)) :=
  ⟨W, h, Or.inl hl⟩

theorem wakes_putUpdate (K : Prop) (s : sys_t) (w : Nat) :
    ∃ W : List (tsk_t × event_t), (priv_evq_putUpdate s w).woken = s.woken ++ W ∧
      (W.length ≤ 1 ∨ (K ∧ ∀ x ∈ W, x.2 = E_STOPPED)) := by
  cases hq : s.evq.queue with
  | nil =>
    refine wakes_helper _ s _ [] ?_ (by simp)
    simp [priv_evq_putUpdate, core_one_wakeup, priv_evq_put, hq]
  | cons t rest =>
    refine wakes_helper _ s _ [(t, E_SUCCESS)] ?_ (by simp)
    simp [priv_evq_putUpdate, core_one_wakeup, priv_evq_put, priv_evq_get, hq]

theorem wakes_getUpdate (K : Prop) (s : sys_t) (p : Nat) :
    ∃ W : List (tsk_t × event_t), (priv_evq_getUpdate s p).woken = s.woken ++ W ∧
      (W.length ≤ 1 ∨ (K ∧ ∀ x ∈ W, x.2 = E_STOPPED)) := by
  cases hq : s.evq.queue with
  | nil =>
    refine wakes_helper _ s _ [] ?_ (by simp)
    simp [priv_evq_getUpdate, core_one_wakeup, priv_evq_get, hq]
  | cons t rest =>
    refine wakes_helper _ s _ [(t, E_SUCCESS)] ?_ (by simp)
    simp [priv_evq_getUpdate, core_one_wakeup, priv_evq_put, priv_evq_get, hq]

/-- What a step other than a push wakes: at most one task, or, if it is
`evq_kill`, tasks woken with `E_STOPPED` only. -/
theorem wakes_step (s : sys_t) (op : op_t) (hop : is_push op = false) :
    ∃ W : List (tsk_t × event_t), (step s op).2.woken = s.woken ++ W ∧
      (W.length ≤ 1 ∨ (op = op_t.kill ∧ ∀ x ∈ W, x.2 = E_STOPPED)) := by
  cases op with
  | give data =>
    show ∃ W, (evq_give s data).2.woken = s.woken ++ W ∧ _
    unfold evq_give
    split
    · exact wakes_putUpdate _ s data
    · exact wakes_helper _ s s [] (by simp) (by simp)
  | take data =>
    show ∃ W, (evq_take s data).2.woken = s.woken ++ W ∧ _
    unfold evq_take
    split
    · exact wakes_getUpdate _ s data
    · exact wakes_helper _ s s [] (by simp) (by simp)
  | waitFor data delay =>
    show ∃ W, (priv_evq_wait s data delay core_tsk_waitFor).2.woken = s.woken ++ W ∧ _
    unfold priv_evq_wait
    split
    · exact wakes_getUpdate _ s data
    · unfold core_tsk_waitFor
      split
      · exact wakes_helper _ s _ [] (by simp) (by simp)
      · exact wakes_helper _ s _ [] (by simp) (by simp)
  | waitUntil data time =>
    show ∃ W, (priv_evq_wait s data time core_tsk_waitUntil).2.woken = s.woken ++ W ∧ _
    unfold priv_evq_wait
    split
    · exact wakes_getUpdate _ s data
    · exact wakes_helper _ s _ [] (by simp [core_tsk_waitUntil]) (by simp)
  | sendFor data delay =>
    show ∃ W, (priv_evq_send s data delay core_tsk_waitFor).2.woken = s.woken ++ W ∧ _
    unfold priv_evq_send
    split
    · exact wakes_putUpdate _ s data
    · unfold core_tsk_waitFor
      split
      · exact wakes_helper _ s _ [] (by simp) (by simp)
      · exact wakes_helper _ s _ [] (by simp) (by simp)
  | sendUntil data time =>
    show ∃ W, (priv_evq_send s data time core_tsk_waitUntil).2.woken = s.woken ++ W ∧ _
    unfold priv_evq_send
    split
    · exact wakes_putUpdate _ s data
    · exact wakes_helper _ s _ [] (by simp [core_tsk_waitUntil]) (by simp)
  | push data => simp [is_push] at hop
  | kill =>
    refine ⟨s.evq.queue.map (fun tsk => (tsk, E_STOPPED)), rfl, Or.inr ⟨rfl, ?_⟩⟩
    intro x hx
    obtain ⟨t, _, rfl⟩ := List.mem_map.mp hx
    rfl
  | timeout i =>
    show ∃ W, (core_tmr_timeout s i).woken = s.woken ++ W ∧ _
    unfold core_tmr_timeout
    split
    · exact wakes_helper _ s _ [] (by simp) (by simp)
    · next tsk _ => exact wakes_helper _ s _ [(tsk, E_TIMEOUT)] rfl (by simp)
  | switch tsk => exact wakes_helper _ s _ [] (by simp [step]) (by simp)

theorem wakes_success_le_one (s : sys_t) (op : op_t) (hop : is_push op = false) :
    ((woken_by s op).filter (fun x => decide (x.2 = E_SUCCESS))).length ≤ 1 := by
  obtain ⟨W, hW, h⟩ := wakes_step s op hop
  have e : woken_by s op = W := by
    unfold woken_by
    rw [hW, List.drop_left]
  rw [e]
  rcases h with h | h
  · exact Nat.le_trans (List.length_filter_le _ _) h
  · have : W.filter (fun x => decide (x.2 = E_SUCCESS)) = [] := by
      rw [List.filter_eq_nil_iff]
      intro x hx
      rw [h.2 x hx]
      decide
    rw [this]
    simp

theorem wakes_le_one (s : sys_t) (op : op_t) (hop : is_push op = false)
    (hk : op ≠ op_t.kill) : (woken_by s op).length ≤ 1 := by
  obtain ⟨W, hW, h⟩ := wakes_step s op hop
  have e : woken_by s op = W := by
    unfold woken_by
    rw [hW, List.drop_left]
  rw [e]
  rcases h with h | h
  · exact h
  · exact absurd h.1 hk

/-- The claim of C25 as stated fails in its last clause: `evq_kill` is not a push
and wakes all three consumers parked on the queue of the delete scenario. -/
theorem non_push_wakes_many :
    ¬ (∀ (s : sys_t) (op : op_t), is_push op = false → (woken_by s op).length ≤ 1) := by
  intro h
  have h3 := h ex_three_parked op_t.kill rfl
  revert h3
  decide

/-- C25 (amended): push drains every parked producer: for every well-formed full
queue (`count = limit`) on which the producers parked have the words `vs`, in
waiter-queue order, and every word `w`, `evq_push` wakes all of them with
`E_SUCCESS` in that order and leaves the waiter queue empty, its loop executes
exactly `k + 1` iterations (one drop of the oldest word each) for `k` the number
of producers, and it ends with `count = limit` and with the last `limit` words
of `contents ++ vs ++ [w]` in the buffer.  A step other than a push wakes at
most one parked task with `E_SUCCESS`, and at most one parked task at all unless
it is `evq_kill`, which wakes every parked task with `E_STOPPED`. -/
theorem push_drains_producers (s : sys_t) (vs : List Nat) (w : Nat) (hw : wf s.evq)
    (hc : s.evq.count = s.evq.limit)
    (hF : List.Forall₂ parked_as (vs.map park_t.producer) s.evq.queue) :
    (evq_push s w).woken = s.woken ++ s.evq.queue.map (fun t => (t, E_SUCCESS)) ∧
    (evq_push s w).evq.queue = [] ∧
    (∀ fuel, vs.length + 1 ≤ fuel → priv_evq_skipIters fuel s = vs.length + 1) ∧
    wf (evq_push s w).evq ∧
    (evq_push s w).evq.count = s.evq.limit ∧
    (evq_push s w).evq.limit = s.evq.limit ∧
    contents (evq_push s w).evq =
      (contents s.evq ++ vs ++ [w]).drop
        ((contents s.evq ++ vs ++ [w]).length - s.evq.limit) ∧
    (contents s.evq ++ vs ++ [w]).length - s.evq.limit = vs.length + 1 ∧
    (∀ (s1 : sys_t) (op : op_t), is_push op = false →
      ((woken_by s1 op).filter (fun x => decide (x.2 = E_SUCCESS))).length ≤ 1) ∧
    (∀ (s1 : sys_t) (op : op_t), is_push op = false → op ≠ op_t.kill →
      (woken_by s1 op).length ≤ 1) ∧
    (woken_by s op_t.kill = s.evq.queue.map (fun t => (t, E_STOPPED))) := by
  have hv := forall2_producer_words vs s.evq.queue hF
  have hl : s.evq.queue.length = vs.length := by
    rw [← hv, List.length_map]
  obtain ⟨d1, d2, d3, d4, d5, d6, _, _, _⟩ := priv_evq_skipUpdate_drains s hw hc
  have hlt : (priv_evq_skipUpdate s).evq.count < (priv_evq_skipUpdate s).evq.limit := by
    rw [d4]; omega
  have e : evq_push s w = priv_evq_put (priv_evq_skipUpdate s) w := by
    unfold evq_push
    rw [priv_evq_putUpdate_nil _ _ d2]
  have e2 := priv_evq_put_wf (priv_evq_skipUpdate s) w d1 hlt
  have hlen : (contents s.evq ++ vs ++ [w]).length - s.evq.limit = vs.length + 1 := by
    simp only [List.length_append, contents_length, List.length_singleton]
    omega
  rw [e, e2]
  refine ⟨d5, d2, ?_, wf_put _ w d1 hlt, ?_, d4, ?_, hlen,
    wakes_success_le_one, wakes_le_one, ?_⟩
  · intro fuel hf
    rw [priv_evq_skipIters_full fuel s hw hc (by rw [hl]; exact hf), hl]
  · show (priv_evq_skipUpdate s).evq.count + 1 = s.evq.limit
    exact d3
  · rw [hlen]
    have e3 := contents_put (priv_evq_skipUpdate s).evq w d1 hlt
    refine e3.trans ?_
    rw [d6, hv, hl]
    refine (List.drop_append_of_le_length ?_).symm
    simp only [List.length_append, contents_length]
    omega
  · unfold woken_by
    show (s.woken ++ s.evq.queue.map (fun tsk => (tsk, E_STOPPED))).drop s.woken.length = _
    rw [List.drop_left]

theorem push_drains_producers_witness :
    wf ex_two_producers.evq ∧ ex_two_producers.evq.count = ex_two_producers.evq.limit ∧
    List.Forall₂ parked_as ([3, 4].map park_t.producer) ex_two_producers.evq.queue ∧
    (evq_push ex_two_producers 5).woken =
      ex_two_producers.woken ++
        ex_two_producers.evq.queue.map (fun t => (t, E_SUCCESS)) ∧
    contents (evq_push ex_two_producers 5).evq =
      (contents ex_two_producers.evq ++ [3, 4] ++ [5]).drop
        ((contents ex_two_producers.evq ++ [3, 4] ++ [5]).length -
          ex_two_producers.evq.limit) :=
  ⟨by decide, by decide, List.Forall₂.cons rfl (List.Forall₂.cons rfl List.Forall₂.nil),
   (push_drains_producers ex_two_producers [3, 4] 5 (by decide) (by decide)
      (List.Forall₂.cons rfl (List.Forall₂.cons rfl List.Forall₂.nil))).1,
   (push_drains_producers ex_two_producers [3, 4] 5 (by decide) (by decide)
      (List.Forall₂.cons rfl (List.Forall₂.cons rfl List.Forall₂.nil))).2.2.2.2.2.2.1⟩

/-- The drain evaluated: a push of 5 on the full queue holding 1, 2 with
producers parked with 3 and 4 wakes both, drops 1, 2 and 3, and leaves 4, 5; a
kill of the queue with three parked consumers wakes all three. -/
theorem drain_scenario :
    contents (evq_push ex_two_producers 5).evq = [4, 5] ∧
    (woken_by ex_two_producers (op_t.push 5)).map (fun x => (x.1.id, x.2)) =
      [(1, E_SUCCESS), (2, E_SUCCESS)] ∧
    (evq_push ex_two_producers 5).evq.queue = [] ∧
    (evq_push ex_two_producers 5).evq.count = 2 ∧
    (woken_by ex_three_parked op_t.kill).map (fun x => (x.1.id, x.2)) =
      [(1, E_STOPPED), (2, E_STOPPED), (3, E_STOPPED)] := by
  decide

/-- C26: `evq_push` always terminates: for every well-formed queue (so
`limit > 0`) with `n` parked tasks, the loop of `priv_evq_skipUpdate` executes
at most `n + 1` iterations however many it is allowed, and allowing more than
`n + 1` changes neither its result nor the number of iterations; an iteration
on a well-formed full queue leaves a well-formed queue and either leaves
`count < limit` or removes one parked task; after the loop `count < limit`, and
`evq_push` applies `priv_evq_putUpdate` once to the state the loop has left. -/
theorem evq_push_terminates (s : sys_t) (w : Nat) (hw : wf s.evq) :
    (∀ fuel, priv_evq_skipIters fuel s ≤ s.evq.queue.length + 1) ∧
    (∀ fuel, s.evq.queue.length + 1 ≤ fuel →
      priv_evq_skipLoop fuel s = priv_evq_skipUpdate s ∧
      priv_evq_skipIters fuel s = priv_evq_skipIters (s.evq.queue.length + 1) s) ∧
    (s.evq.count = s.evq.limit →
      wf (priv_evq_skipBody s).evq ∧
      ((priv_evq_skipBody s).evq.count < (priv_evq_skipBody s).evq.limit ∨
       (priv_evq_skipBody s).evq.queue.length + 1 = s.evq.queue.length)) ∧
    wf (priv_evq_skipUpdate s).evq ∧
    (priv_evq_skipUpdate s).evq.count < (priv_evq_skipUpdate s).evq.limit ∧
    evq_push s w = priv_evq_putUpdate (priv_evq_skipUpdate s) w := by
  have hwf : wf (priv_evq_skipUpdate s).evq := by
    by_cases hc : s.evq.count = s.evq.limit
    · exact (priv_evq_skipUpdate_drains s hw hc).1
    · unfold priv_evq_skipUpdate
      rw [priv_evq_skipLoop_of_ne _ s hc]
      exact hw
  refine ⟨fun fuel => priv_evq_skipIters_le fuel s hw,
    fun fuel h => ⟨priv_evq_skipLoop_fuel fuel s h, priv_evq_skipIters_fuel fuel s hw h⟩,
    ?_, hwf, ?_, rfl⟩
  · intro hc
    cases hq : s.evq.queue with
    | nil =>
      obtain ⟨b1, _, b3, b4, _⟩ := priv_evq_skipBody_last s hw hc hq
      exact ⟨b1, Or.inl (by rw [b4]; omega)⟩
    | cons t rest =>
      obtain ⟨b1, b2, _⟩ := priv_evq_skipBody_full s t rest hw hc hq
      exact ⟨b1, Or.inr (by rw [b2]; rfl)⟩
  · have h1 := priv_evq_skipUpdate_exit s
    have h2 := hwf.2.2.1
    omega

theorem evq_push_terminates_witness :
    wf ex_two_producers.evq ∧
    ((∀ fuel, priv_evq_skipIters fuel ex_two_producers ≤
        ex_two_producers.evq.queue.length + 1) ∧
     (∀ fuel, ex_two_producers.evq.queue.length + 1 ≤ fuel →
       priv_evq_skipLoop fuel ex_two_producers = priv_evq_skipUpdate ex_two_producers ∧
       priv_evq_skipIters fuel ex_two_producers =
         priv_evq_skipIters (ex_two_producers.evq.queue.length + 1) ex_two_producers) ∧
     (ex_two_producers.evq.count = ex_two_producers.evq.limit →
       wf (priv_evq_skipBody ex_two_producers).evq ∧
       ((priv_evq_skipBody ex_two_producers).evq.count <
          (priv_evq_skipBody ex_two_producers).evq.limit ∨
        (priv_evq_skipBody ex_two_producers).evq.queue.length + 1 =
          ex_two_producers.evq.queue.length)) ∧
     wf (priv_evq_skipUpdate ex_two_producers).evq ∧
     (priv_evq_skipUpdate ex_two_producers).evq.count <
       (priv_evq_skipUpdate ex_two_producers).evq.limit ∧
     evq_push ex_two_producers 5 =
       priv_evq_putUpdate (priv_evq_skipUpdate ex_two_producers) 5) :=
  ⟨by decide, evq_push_terminates ex_two_producers 5 (by decide)⟩

/-- The overwrite loop evaluated on a full queue of limit 2 holding 1, 2 with
producers parked with the words 3 and 4: three iterations, after which the
buffer holds the word 4 alone and both producers have been woken. -/
theorem push_loop_scenario :
    priv_evq_skipIters 3 ex_two_producers = 3 ∧
    priv_evq_skipIters 10 ex_two_producers = 3 ∧
    contents (priv_evq_skipUpdate ex_two_producers).evq = [4] ∧
    (priv_evq_skipUpdate ex_two_producers).evq.queue = [] ∧
    (priv_evq_skipUpdate ex_two_producers).woken.map (fun x => (x.1.id, x.2)) =
      [(1, E_SUCCESS), (2, E_SUCCESS)] ∧
    contents (evq_push ex_two_producers 5).evq = [4, 5] := by
  decide

/-! ## Push on a queue that is not full -/

/-- C27: on a queue that is not full, push is give: for every well-formed queue
with `count < limit`, with or without parked consumers, and every word `w`,
`evq_give` returns `E_SUCCESS` and `evq_push` leaves exactly the state that
`evq_give` leaves: the same queue, waiter queue, wake history and stores to the
destinations of woken consumers. -/
theorem evq_push_is_give (s : sys_t) (w : Nat) (_hw : wf s.evq)
    (hc : s.evq.count < s.evq.limit) :
    (evq_give s w).1 = E_SUCCESS ∧ evq_push s w = (evq_give s w).2 := by
  have e : evq_give s w = (E_SUCCESS, priv_evq_putUpdate s w) := by
    simp [evq_give, hc]
  have e1 : priv_evq_skipUpdate s = s :=
    priv_evq_skipLoop_of_ne _ s (by omega)
  rw [e]
  refine ⟨rfl, ?_⟩
  unfold evq_push
  rw [e1]

theorem evq_push_is_give_witness :
    wf ex_rendezvous.evq ∧ ex_rendezvous.evq.count < ex_rendezvous.evq.limit ∧
    ((evq_give ex_rendezvous 7).1 = E_SUCCESS ∧
     evq_push ex_rendezvous 7 = (evq_give ex_rendezvous 7).2) :=
  ⟨by decide, by decide, evq_push_is_give ex_rendezvous 7 (by decide) (by decide)⟩

/-- A push on the empty queue with two parked consumers evaluated: the first
consumer is woken with the word at its destination 100, as by a give. -/
theorem push_is_give_scenario :
    (evq_push ex_rendezvous 7).woken.map (fun x => (x.1.id, x.2)) = [(1, E_SUCCESS)] ∧
    (evq_push ex_rendezvous 7).writes = [(100, 7)] ∧
    (evq_push ex_rendezvous 7).evq.count = 0 ∧
    (evq_give ex_rendezvous 7).2.writes = [(100, 7)] ∧
    (evq_give ex_rendezvous 7).2.woken.map (fun x => (x.1.id, x.2)) = [(1, E_SUCCESS)] := by
  decide

/-! ## The ring index relation, full queue included -/

theorem head_eq_tail_iff (q : evq_t) (hw : wf q) :
    q.head = q.tail ↔ q.count = 0 ∨ q.count = q.limit := by
  obtain ⟨h0, _, hc, hh, _, ht⟩ := hw
  constructor
  · intro e
    by_cases hl : q.count = q.limit
    · exact Or.inr hl
    · left
      have hlt : q.count < q.limit := by omega
      have e2 : (q.head + q.count) % q.limit = (q.head + 0) % q.limit := by
        rw [← ht, ← e, Nat.add_zero, Nat.mod_eq_of_lt hh]
      exact ring_index_inj q.head q.limit q.count 0 hlt h0 e2
  · rintro (e | e)
    · rw [ht, e, Nat.add_zero, Nat.mod_eq_of_lt hh]
    · rw [ht, e, Nat.add_mod_right, Nat.mod_eq_of_lt hh]

/-- C28: the ring index relation, the full queue included: in every state
reachable from `evq_init` with `limit > 0` by the operations,
`tail == (head + count) mod limit`, and `head == tail` holds exactly when
`count == 0` or `count == limit`. -/
theorem tail_index_relation (s : sys_t) (h : Reachable s) :
    s.evq.tail = (s.evq.head + s.evq.count) % s.evq.limit ∧
    (s.evq.head = s.evq.tail ↔ s.evq.count = 0 ∨ s.evq.count = s.evq.limit) := by
  have hw := (inv_reachable s h).1
  exact ⟨hw.2.2.2.2.2, head_eq_tail_iff s.evq hw⟩

theorem tail_index_relation_witness :
    Reachable ex_reached ∧
    (ex_reached.evq.tail = (ex_reached.evq.head + ex_reached.evq.count) % ex_reached.evq.limit ∧
     (ex_reached.evq.head = ex_reached.evq.tail ↔
       ex_reached.evq.count = 0 ∨ ex_reached.evq.count = ex_reached.evq.limit)) :=
  ⟨⟨ex_empty4, fun _ => 0, 8, _, rfl, by decide, by decide, rfl⟩,
   tail_index_relation ex_reached
     ⟨ex_empty4, fun _ => 0, 8, _, rfl, by decide, by decide, rfl⟩⟩

/-- The index relation evaluated on a full queue reached by one give on a
buffer of one word: `head == tail` with `count == limit == 1`. -/
theorem full_index_scenario :
    ex_full1.evq.head = ex_full1.evq.tail ∧ ex_full1.evq.count = 1 ∧
    ex_full1.evq.limit = 1 ∧
    ex_full1.evq.tail = (ex_full1.evq.head + ex_full1.evq.count) % ex_full1.evq.limit := by
  decide

/-! ## The staging slot read by the waker -/

theorem forall2_all_producers :
    ∀ (ks : List park_t) (q : List tsk_t), List.Forall₂ parked_as ks q →
      (∀ p, park_t.consumer p ∉ ks) → ks = q.map (fun t => park_t.producer t.tmp_out) := by
  intro ks q h
  induction h with
  | nil => intro _; rfl
  | cons hab htl ih =>
    rename_i k t ks1 q1
    intro hno
    have hrest := ih (fun p hp => hno p (List.mem_cons_of_mem _ hp))
    cases k with
    | consumer p => exact absurd (List.mem_cons_self _ _) (hno p)
    | producer v =>
      have e : t.tmp_out = v := hab
      rw [List.map_cons, e, ← hrest]

/-- A push on a well-formed full queue, in full: the loop wakes every parked
task with `E_SUCCESS`, `priv_evq_putUpdate` finds no parked task, and the buffer
ends with the old contents, the words of the woken tasks and the pushed word
less one drop per iteration. -/
theorem evq_push_full (s : sys_t) (w : Nat) (hw : wf s.evq)
    (hc : s.evq.count = s.evq.limit) :
    (priv_evq_skipUpdate s).woken = s.woken ++ s.evq.queue.map (fun t => (t, E_SUCCESS)) ∧
    (evq_push s w).woken = (priv_evq_skipUpdate s).woken ∧
    (evq_push s w).evq.queue = [] ∧
    contents (evq_push s w).evq =
      (contents s.evq ++ s.evq.queue.map tsk_t.tmp_out ++ [w]).drop
        (s.evq.queue.length + 1) := by
  obtain ⟨d1, d2, d3, d4, d5, d6, _, _, _⟩ := priv_evq_skipUpdate_drains s hw hc
  have hlt : (priv_evq_skipUpdate s).evq.count < (priv_evq_skipUpdate s).evq.limit := by
    rw [d4]; omega
  have e : evq_push s w = priv_evq_put (priv_evq_skipUpdate s) w := by
    unfold evq_push
    rw [priv_evq_putUpdate_nil _ _ d2]
  have e2 := priv_evq_put_wf (priv_evq_skipUpdate s) w d1 hlt
  rw [e, e2]
  refine ⟨d5, rfl, d2, ?_⟩
  have e3 := contents_put (priv_evq_skipUpdate s).evq w d1 hlt
  refine e3.trans ?_
  rw [d6]
  refine (List.drop_append_of_le_length ?_).symm
  simp only [List.length_append, contents_length, List.length_map]
  omega

/-- What `priv_evq_getUpdate` does on a well-formed queue that holds a word and
has a parked task: it wakes the task and appends the word of its `tmp_out`. -/
theorem priv_evq_getUpdate_parked (s : sys_t) (p : Nat) (t : tsk_t) (rest : List tsk_t)
    (hw : wf s.evq) (hc : 0 < s.evq.count) (hq : s.evq.queue = t :: rest) :
    (priv_evq_getUpdate s p).woken = s.woken ++ [(t, E_SUCCESS)] ∧
    contents (priv_evq_getUpdate s p).evq = (contents s.evq).tail ++ [t.tmp_out] ∧
    (priv_evq_getUpdate s p).evq.queue = rest := by
  have hw1 := wf_get s.evq hw hc
  have hlt : s.evq.count - 1 < s.evq.limit := by have := hw.2.2.1; omega
  rw [priv_evq_getUpdate_cons s p t rest hw hc hq]
  refine ⟨rfl, ?_, rfl⟩
  have e := contents_put _ t.tmp_out hw1 hlt
  rw [contents_get s.evq hc] at e
  exact e

/-- What `priv_evq_putUpdate` does on a well-formed empty queue with a parked
task: it wakes the task and stores the word at the address of its `tmp_in`. -/
theorem priv_evq_putUpdate_parked (s : sys_t) (w : Nat) (t : tsk_t) (rest : List tsk_t)
    (hw : wf s.evq) (hc : s.evq.count = 0) (hq : s.evq.queue = t :: rest) :
    (priv_evq_putUpdate s w).woken = s.woken ++ [(t, E_SUCCESS)] ∧
    (priv_evq_putUpdate s w).writes = s.writes ++ [(t.tmp_in, w)] ∧
    contents (priv_evq_putUpdate s w).evq = [] ∧
    (priv_evq_putUpdate s w).evq.queue = rest := by
  have hlt : s.evq.count < s.evq.limit := by have := hw.1; omega
  have ht : s.evq.tail = s.evq.head := by
    have h1 := hw.2.2.2.2.2
    rw [hc, Nat.add_zero, Nat.mod_eq_of_lt hw.2.2.2.1] at h1
    exact h1
  rw [priv_evq_putUpdate_cons s w t rest hw hlt hq]
  refine ⟨rfl, ?_, ?_, rfl⟩
  · show s.writes ++ [(t.tmp_in, Function.update s.evq.data s.evq.tail w s.evq.head)] = _
    rw [ht, Function.update_same]
  · apply contents_of_count_zero
    show s.evq.count + 1 - 1 = 0
    omega

theorem getUpdate_effect_of_inv (s : sys_t) (ks : List park_t) (p : Nat)
    (hi : ParkInv s ks) (hc : 0 < s.evq.count) :
    getUpdate_effect s (priv_evq_getUpdate s p) ks := by
  obtain ⟨hw, hF, hcons, hprod⟩ := hi
  cases hq : s.evq.queue with
  | nil =>
    left
    rw [priv_evq_getUpdate_nil s p hq, priv_evq_get_wf s p hw hc]
    exact ⟨hq, rfl, contents_get s.evq hc⟩
  | cons t rest =>
    right
    rw [hq] at hF
    cases hF with
    | cons hab htl =>
      rename_i k ks1
      cases k with
      | consumer d =>
        have := hcons d (List.mem_cons_self _ _)
        omega
      | producer v =>
        have e : t.tmp_out = v := hab
        obtain ⟨a1, a2, a3⟩ := priv_evq_getUpdate_parked s p t rest hw hc hq
        exact ⟨t, rest, v, ks1, hq, rfl, e, a1, by rw [a2, e], a3⟩

theorem putUpdate_effect_of_inv (s : sys_t) (ks : List park_t) (w : Nat)
    (hi : ParkInv s ks) (hc : s.evq.count < s.evq.limit) :
    putUpdate_effect s (priv_evq_putUpdate s w) ks w := by
  obtain ⟨hw, hF, hcons, hprod⟩ := hi
  cases hq : s.evq.queue with
  | nil =>
    left
    rw [priv_evq_putUpdate_nil s w hq, priv_evq_put_wf s w hw hc]
    exact ⟨hq, rfl, contents_put s.evq w hw hc⟩
  | cons t rest =>
    right
    rw [hq] at hF
    cases hF with
    | cons hab htl =>
      rename_i k ks1
      cases k with
      | producer v =>
        have := hprod v (List.mem_cons_self _ _)
        omega
      | consumer d =>
        have e : t.tmp_in = d := hab
        have h0 := hcons d (List.mem_cons_self _ _)
        obtain ⟨a1, a2, a3, a4⟩ := priv_evq_putUpdate_parked s w t rest hw h0 hq
        exact ⟨t, rest, d, ks1, hq, rfl, e, a1, by rw [a2, e],
          contents_of_count_zero s.evq h0, a3, a4⟩

/-- C29: the waker reads the right staging slot: in every reachable state, with
the records of what its parked tasks were parked with,
`priv_evq_getUpdate` (run by `evq_take` and `evq_wait*` when `count > 0`) wakes
only a task parked by `evq_send*` and appends the word that call passed, which
is the task's `tmp_out`; the loop of `priv_evq_skipUpdate` (run by `evq_push`
when `count == limit`) finds producers only and appends their words;
`priv_evq_putUpdate` (run by `evq_give`, `evq_send*` and `evq_push` when
`count < limit`) wakes only a task parked by `evq_wait*` and stores the word at
the destination that call passed, which is the task's `tmp_in`.  So the word
of a producer that succeeds is appended to the buffer once, and every word
appended is the argument of the call or the word a parked producer passed. -/
theorem waker_reads_right_slot (s : sys_t) (ks : List park_t) (h : ParkReachable s ks) :
    (0 < s.evq.count → ∀ p d : Nat,
      (evq_take s p).2 = priv_evq_getUpdate s p ∧
      (evq_waitFor s p d).2 = priv_evq_getUpdate s p ∧
      (evq_waitUntil s p d).2 = priv_evq_getUpdate s p ∧
      getUpdate_effect s (priv_evq_getUpdate s p) ks) ∧
    (s.evq.count = s.evq.limit → ∀ w : Nat,
      ks = s.evq.queue.map (fun t => park_t.producer t.tmp_out) ∧
      (priv_evq_skipUpdate s).woken =
        s.woken ++ s.evq.queue.map (fun t => (t, E_SUCCESS)) ∧
      (evq_push s w).woken = (priv_evq_skipUpdate s).woken ∧
      contents (evq_push s w).evq =
        (contents s.evq ++ s.evq.queue.map tsk_t.tmp_out ++ [w]).drop
          (s.evq.queue.length + 1)) ∧
    (s.evq.count < s.evq.limit → ∀ w d : Nat,
      (evq_give s w).2 = priv_evq_putUpdate s w ∧
      (evq_sendFor s w d).2 = priv_evq_putUpdate s w ∧
      (evq_sendUntil s w d).2 = priv_evq_putUpdate s w ∧
      evq_push s w = priv_evq_putUpdate s w ∧
      putUpdate_effect s (priv_evq_putUpdate s w) ks w) := by
  have hi := park_reachable_inv s ks h
  refine ⟨?_, ?_, ?_⟩
  · intro hc p d
    refine ⟨?_, ?_, ?_, getUpdate_effect_of_inv s ks p hi hc⟩
    · simp [evq_take, hc]
    · simp [evq_waitFor, priv_evq_wait, hc]
    · simp [evq_waitUntil, priv_evq_wait, hc]
  · intro hc w
    obtain ⟨hw, hF, hcons, _⟩ := hi
    obtain ⟨a1, a2, _, a4⟩ := evq_push_full s w hw hc
    refine ⟨forall2_all_producers ks s.evq.queue hF ?_, a1, a2, a4⟩
    intro p hp
    have := hcons p hp
    have := hw.1
    omega
  · intro hc w d
    refine ⟨?_, ?_, ?_, ?_, putUpdate_effect_of_inv s ks w hi hc⟩
    · simp [evq_give, hc]
    · simp [evq_sendFor, priv_evq_send, hc]
    · simp [evq_sendUntil, priv_evq_send, hc]
    · have e1 : priv_evq_skipUpdate s = s := priv_evq_skipLoop_of_ne _ s (by omega)
      unfold evq_push
      rw [e1]

theorem waker_reads_right_slot_witness :
    ParkReachable ex_parked ex_parked_ks ∧
    ((0 < ex_parked.evq.count → ∀ p d : Nat,
      (evq_take ex_parked p).2 = priv_evq_getUpdate ex_parked p ∧
      (evq_waitFor ex_parked p d).2 = priv_evq_getUpdate ex_parked p ∧
      (evq_waitUntil ex_parked p d).2 = priv_evq_getUpdate ex_parked p ∧
      getUpdate_effect ex_parked (priv_evq_getUpdate ex_parked p) ex_parked_ks) ∧
    (ex_parked.evq.count = ex_parked.evq.limit → ∀ w : Nat,
      ex_parked_ks = ex_parked.evq.queue.map (fun t => park_t.producer t.tmp_out) ∧
      (priv_evq_skipUpdate ex_parked).woken =
        ex_parked.woken ++ ex_parked.evq.queue.map (fun t => (t, E_SUCCESS)) ∧
      (evq_push ex_parked w).woken = (priv_evq_skipUpdate ex_parked).woken ∧
      contents (evq_push ex_parked w).evq =
        (contents ex_parked.evq ++ ex_parked.evq.queue.map tsk_t.tmp_out ++ [w]).drop
          (ex_parked.evq.queue.length + 1)) ∧
    (ex_parked.evq.count < ex_parked.evq.limit → ∀ w d : Nat,
      (evq_give ex_parked w).2 = priv_evq_putUpdate ex_parked w ∧
      (evq_sendFor ex_parked w d).2 = priv_evq_putUpdate ex_parked w ∧
      (evq_sendUntil ex_parked w d).2 = priv_evq_putUpdate ex_parked w ∧
      evq_push ex_parked w = priv_evq_putUpdate ex_parked w ∧
      putUpdate_effect ex_parked (priv_evq_putUpdate ex_parked w) ex_parked_ks w)) :=
  ⟨⟨ex_empty4, fun _ => 0, 8, ex_park_ops, by decide, by decide, rfl, rfl⟩,
   waker_reads_right_slot ex_parked ex_parked_ks
     ⟨ex_empty4, fun _ => 0, 8, ex_park_ops, by decide, by decide, rfl, rfl⟩⟩

/-- The wakers evaluated: in the state reached by `ex_park_ops` the queue of
limit 2 holds 3, 4 and task 4 is parked as a producer with the word 5; a take
wakes it and appends 5; on the queue with two parked consumers a give wakes
task 1 and stores the word at its destination 100. -/
theorem waker_scenario :
    contents ex_parked.evq = [3, 4] ∧ ex_parked_ks = [park_t.producer 5] ∧
    ex_parked.evq.queue.map (fun t => (t.id, t.tmp_out)) = [(4, 5)] ∧
    contents (priv_evq_getUpdate ex_parked 60).evq = [4, 5] ∧
    (woken_by ex_parked (op_t.take 60)).map (fun x => (x.1.id, x.2)) = [(4, E_SUCCESS)] ∧
    contents (evq_push ex_parked 6).evq = [5, 6] ∧
    (woken_by ex_rendezvous (op_t.give 7)).map (fun x => (x.1.id, x.2)) = [(1, E_SUCCESS)] ∧
    (priv_evq_putUpdate ex_rendezvous 7).writes = [(100, 7)] := by
  decide

/-! ## Dynamic creation -/

/-- The claim of C30 as stated fails: with `limit = 2^30 + 1` the product
`limit * sizeof(unsigned)` wraps to 4 and the created queue has the limit 1;
with `limit = 2^30 - 1` and a header of 32 bytes the size passed to the
allocator wraps to 28 bytes; with `limit = 2^30` the product wraps to 0 and the
`assert(bufsize)` of `evq_init` fails; and when `sys_alloc` returns `NULL` the
`assert(evq)` of `evq_init` fails, whatever the limit. -/
theorem evq_create_wraps :
    0 < 1073741825 ∧ 1073741825 < UINT_RANGE ∧
    (evq_create ex_empty4 1073741825 32 4096 (fun _ => 0)).map
      (fun c => evq_limit c.sys) = some 1 ∧
    (evq_create ex_empty4 1073741825 32 4096 (fun _ => 0)).map created_t.size = some 36 ∧
    (evq_create ex_empty4 1073741823 32 4096 (fun _ => 0)).map
      (fun c => evq_limit c.sys) = some 1073741823 ∧
    (evq_create ex_empty4 1073741823 32 4096 (fun _ => 0)).map created_t.size = some 28 ∧
    (evq_create ex_empty4 1073741824 32 4096 (fun _ => 0)).isSome = false ∧
    (evq_create ex_empty4 8 32 0 (fun _ => 0)).isSome = false := by
  decide

theorem evq_create_some (s : sys_t) (limit seg_over ptr : Nat) (buf : Nat → Nat)
    (h0 : limit ≠ 0) (hn : ptr ≠ 0) (hd : (ptr + seg_over) % UINT_RANGE ≠ 0)
    (hb : (limit * SIZEOF_UNSIGNED) % UINT_RANGE ≠ 0) :
    evq_create s limit seg_over ptr buf =
      some { size := (seg_over + (limit * SIZEOF_UNSIGNED) % UINT_RANGE) % UINT_RANGE
             data := (ptr + seg_over) % UINT_RANGE
             sys := { evq_init s buf ((limit * SIZEOF_UNSIGNED) % UINT_RANGE) with
                      evq := { (evq_init s buf ((limit * SIZEOF_UNSIGNED) % UINT_RANGE)).evq
                               with res := ptr } } } := by
  have ha : evq_init_asserts ((limit * SIZEOF_UNSIGNED) % UINT_RANGE) = true := by
    simp only [evq_init_asserts, decide_eq_true_eq]
    exact hb
  unfold evq_create
  rw [if_neg h0]
  simp only
  rw [if_neg hn, if_neg hd, if_neg (by rw [ha]; decide)]

theorem evq_create_null (s : sys_t) (limit seg_over : Nat) (buf : Nat → Nat) :
    evq_create s limit seg_over 0 buf = none := by
  unfold evq_create
  split
  · rfl
  · simp

/-- C30 (amended): `evq_create` gives a queue of the requested capacity when
the size of the allocation fits a machine word and the allocation succeeds: for
every `limit > 0` with `SEG_OVER(sizeof(evq_t)) + limit * sizeof(unsigned) < 2^32`,
when `sys_alloc` returns a non-null address `ptr` of a block of that size inside
the address space, `evq_create` returns a queue, which satisfies
`evq_limit(q) == limit`; the allocation has
`SEG_OVER(sizeof(evq_t)) + limit * sizeof(unsigned)` bytes, the buffer starts
directly after the rounded-up header and ends with the allocation,
`obj.res == q`, and the queue is empty with no parked task.  When `sys_alloc`
returns `NULL`, an assertion of `evq_init` fails and no queue is returned. -/
theorem evq_create_capacity (s : sys_t) (limit seg_over ptr : Nat) (buf : Nat → Nat)
    (h0 : 0 < limit) (hs : seg_over + limit * SIZEOF_UNSIGNED < UINT_RANGE)
    (hn : ptr ≠ 0) (hp : ptr + (seg_over + limit * SIZEOF_UNSIGNED) ≤ UINT_RANGE) :
    (∃ c : created_t, evq_create s limit seg_over ptr buf = some c ∧
      evq_limit c.sys = limit ∧
      c.size = seg_over + limit * SIZEOF_UNSIGNED ∧
      c.data = ptr + seg_over ∧
      c.data + limit * SIZEOF_UNSIGNED = ptr + c.size ∧
      c.sys.evq.res = ptr ∧
      c.sys.evq.data = buf ∧
      evq_count c.sys = 0 ∧
      c.sys.evq.head = 0 ∧
      c.sys.evq.tail = 0 ∧
      c.sys.evq.queue = [] ∧
      wf c.sys.evq) ∧
    evq_create s limit seg_over 0 buf = none := by
  have hpos : 0 < limit * SIZEOF_UNSIGNED := Nat.mul_pos h0 (by decide)
  have hb : (limit * SIZEOF_UNSIGNED) % UINT_RANGE = limit * SIZEOF_UNSIGNED :=
    Nat.mod_eq_of_lt (by omega)
  have hsz : (seg_over + limit * SIZEOF_UNSIGNED) % UINT_RANGE =
      seg_over + limit * SIZEOF_UNSIGNED := Nat.mod_eq_of_lt hs
  have hd : (ptr + seg_over) % UINT_RANGE = ptr + seg_over :=
    Nat.mod_eq_of_lt (by omega)
  have hl : limit * SIZEOF_UNSIGNED / SIZEOF_UNSIGNED = limit :=
    Nat.mul_div_cancel limit (by decide)
  have hlim : limit < UINT_RANGE := by
    have : limit ≤ limit * SIZEOF_UNSIGNED := Nat.le_mul_of_pos_right limit (by decide)
    omega
  have e := evq_create_some s limit seg_over ptr buf (by omega)
    hn (by rw [hd]; omega) (by rw [hb]; omega)
  rw [hb, hsz, hd] at e
  have e1 : (evq_init s buf (limit * SIZEOF_UNSIGNED)).evq.limit = limit := hl
  refine ⟨⟨_, e, hl, rfl, rfl, Nat.add_assoc ptr seg_over _, rfl, rfl, rfl, rfl, rfl, rfl, ?_⟩,
    evq_create_null s limit seg_over buf⟩
  refine ⟨?_, ?_, ?_, ?_, ?_, ?_⟩
  · show 0 < (evq_init s buf (limit * SIZEOF_UNSIGNED)).evq.limit
    rw [e1]; exact h0
  · show (evq_init s buf (limit * SIZEOF_UNSIGNED)).evq.limit < UINT_RANGE
    rw [e1]; exact hlim
  · show 0 ≤ _
    exact Nat.zero_le _
  · show 0 < (evq_init s buf (limit * SIZEOF_UNSIGNED)).evq.limit
    rw [e1]; exact h0
  · show 0 < (evq_init s buf (limit * SIZEOF_UNSIGNED)).evq.limit
    rw [e1]; exact h0
  · show 0 = (0 + 0) % (evq_init s buf (limit * SIZEOF_UNSIGNED)).evq.limit
    simp

theorem evq_create_capacity_witness :
    0 < 8 ∧ 32 + 8 * SIZEOF_UNSIGNED < UINT_RANGE ∧ 4096 ≠ 0 ∧
    4096 + (32 + 8 * SIZEOF_UNSIGNED) ≤ UINT_RANGE ∧
    ((∃ c : created_t, evq_create ex_empty4 8 32 4096 (fun _ => 0) = some c ∧
      evq_limit c.sys = 8 ∧
      c.size = 32 + 8 * SIZEOF_UNSIGNED ∧
      c.data = 4096 + 32 ∧
      c.data + 8 * SIZEOF_UNSIGNED = 4096 + c.size ∧
      c.sys.evq.res = 4096 ∧
      c.sys.evq.data = (fun _ => 0) ∧
      evq_count c.sys = 0 ∧
      c.sys.evq.head = 0 ∧
      c.sys.evq.tail = 0 ∧
      c.sys.evq.queue = [] ∧
      wf c.sys.evq) ∧
    evq_create ex_empty4 8 32 0 (fun _ => 0) = none) :=
  ⟨by decide, by decide, by decide, by decide,
   evq_create_capacity ex_empty4 8 32 4096 (fun _ => 0)
     (by decide) (by decide) (by decide) (by decide)⟩

/-- A creation evaluated: a queue of 8 words with a header of 32 bytes at the
address 4096 takes 64 bytes, its buffer starts at 4128 and its handle is the
address of the queue; with a null address from the allocator no queue is
returned. -/
theorem create_scenario :
    (evq_create ex_empty4 8 32 4096 (fun _ => 0)).map created_t.size = some 64 ∧
    (evq_create ex_empty4 8 32 4096 (fun _ => 0)).map created_t.data = some 4128 ∧
    (evq_create ex_empty4 8 32 4096 (fun _ => 0)).map (fun c => c.sys.evq.res) =
      some 4096 ∧
    (evq_create ex_empty4 8 32 4096 (fun _ => 0)).map (fun c => evq_limit c.sys) =
      some 8 ∧
    (evq_create ex_empty4 8 32 4096 (fun _ => 0)).map (fun c => evq_space c.sys) =
      some 8 ∧
    (evq_create ex_empty4 8 32 0 (fun _ => 0)).isSome = false ∧
    (evq_create ex_empty4 0 32 4096 (fun _ => 0)).isSome = false := by
  decide

end StateOS
